import Mathlib

/-!
# Policy storage of the Oracle plugin (`policy.go`)

A shallow embedding of `PolicyManager` and its helpers, and the properties of
its write path (`Create`, `Delete`) and read path (`Get`, `GetAll`,
`FindRequestCandidates`, `scanRows`, `uniq`).

* The seven tables created by `policySchemas` are lists of rows (`Store`). The
  primary keys, the `UNIQUE` columns and the foreign keys act in the insert
  statements, and so do the `NOT NULL` columns that the caller of `Create`
  fills: Oracle stores the empty string as `NULL`, so an insert with an empty
  policy `ID`, `EFFECT` or template text is refused. The nullable column
  `DESCRIPTION` gives back the empty string; column widths are not modelled.
* Code that lives outside the repository is a field of `Env`: the SHA-256
  hex digest, `compiler.CompileRegex`, Oracle's `REGEXP_LIKE`, the JSON codec
  of `ladon.Conditions`, the order in which the database hands out the rows of
  a query and the order in which Go ranges over a map.
* Errors reported by the driver for reasons outside the schema are injected
  through `Faults`; a transaction works on its own copy of the tables, which
  `Commit` publishes and `Rollback` drops.
* `int64` values are integers reduced by `wrapInt64` where Go's arithmetic
  wraps; a failed slice expression is the result `Error.sliceBounds`.
-/

namespace Hydra

/-! ## Data model -/

/-- Raw bytes, as held by the `CONDITIONS` column. -/
abbrev Bytes := String

/-- The entries of a `ladon.Conditions` map: condition name and its serialised
condition. The map is handled only through the codec of `Env`. -/
abbrev Conditions := List (String × String)

/-- Errors returned by the manager. `sliceBounds` stands for the run-time panic
of a slice expression whose bounds are out of range. -/
inductive Error where
  | notFound
  | marshal
  | unmarshal
  | compile
  | constraint
  | driver
  | sliceBounds
  deriving DecidableEq, Repr

/-- Errors of `database/sql`: `sql.ErrNoRows` and every other one. -/
inductive SqlError where
  | errNoRows
  | other
  deriving DecidableEq, Repr

/-- The view of a `ladon.Policy` that `Create` reads through its getters.
`Conditions = none` is Go's `nil` map. -/
structure Policy where
  ID : String
  Description : String
  Effect : String
  Conditions : Option Conditions
  Subjects : List String
  Actions : List String
  Resources : List String
  StartDelimiter : Char
  EndDelimiter : Char
  deriving DecidableEq, Repr

/-- The fields of `ladon.DefaultPolicy` that `scanRows` fills in. -/
structure DefaultPolicy where
  ID : String
  Description : String
  Effect : String
  Conditions : Conditions
  Subjects : List String
  Actions : List String
  Resources : List String
  deriving DecidableEq, Repr

/-- The part of `ladon.Request` that the manager reads. -/
structure Request where
  Subject : String
  deriving DecidableEq, Repr

/-- Row of table `_p`. -/
structure PolicyRow where
  ID : String
  DESCRIPTION : String
  EFFECT : String
  CONDITIONS : Bytes
  deriving DecidableEq, Repr

/-- Row of a template table `_s`, `_a` or `_r`. -/
structure TemplateRow where
  ID : String
  HAS_REGEX : Bool
  COMPILED : String
  TEMPLATE : String
  deriving DecidableEq, Repr

/-- Row of a link table `_sr`, `_ar` or `_rr`; `TEMPLATE_ID` is the column
`SUBJECT`, `ACTION_ID` or `RESOURCE_ID`. -/
structure LinkRow where
  POLICY : String
  TEMPLATE_ID : String
  deriving DecidableEq, Repr

/-- The three dimensions, named by the table suffix `v.t` used in `Create`. -/
inductive Dim where
  | a
  | r
  | s
  deriving DecidableEq, Repr

/-- The seven tables of `policySchemas`. -/
structure Store where
  p : List PolicyRow
  s : List TemplateRow
  a : List TemplateRow
  r : List TemplateRow
  sr : List LinkRow
  ar : List LinkRow
  rr : List LinkRow
  deriving DecidableEq, Repr

/-- A store with empty tables, as left by `CreateSchemas`. -/
def Store.empty : Store := ⟨[], [], [], [], [], [], []⟩

/-- Template table of a dimension. -/
def Store.tpl (db : Store) : Dim → List TemplateRow
  | .a => db.a
  | .r => db.r
  | .s => db.s

/-- Link table of a dimension. -/
def Store.rel (db : Store) : Dim → List LinkRow
  | .a => db.ar
  | .r => db.rr
  | .s => db.sr

/-- Replace the template table of a dimension. -/
def Store.setTpl (db : Store) (d : Dim) (rows : List TemplateRow) : Store :=
  match d with
  | .a => { db with a := rows }
  | .r => { db with r := rows }
  | .s => { db with s := rows }

/-- Replace the link table of a dimension. -/
def Store.setRel (db : Store) (d : Dim) (rows : List LinkRow) : Store :=
  match d with
  | .a => { db with ar := rows }
  | .r => { db with rr := rows }
  | .s => { db with sr := rows }

/-- One row of the result of the two `SELECT` statements, in the order in which
`rows.Scan` reads the columns. The three template columns are `sql.NullString`
values: `none` is SQL `NULL`. -/
structure Row where
  ID : String
  EFFECT : String
  CONDITIONS : Bytes
  DESCRIPTION : String
  SUBJECT : Option String
  RESOURCE : Option String
  ACTION : Option String
  deriving DecidableEq, Repr

/-- Code outside the repository on which the manager depends. -/
structure Env where
  /-- Lower-case hex of the SHA-256 digest: `fmt.Sprintf("%x", h.Sum(nil))`. -/
  sha256Hex : String → String
  /-- The string of the regular expression built by `compiler.CompileRegex`
  from a template and the two delimiters, `none` when it returns an error. -/
  CompileRegex : String → Char → Char → Option String
  /-- Oracle's `REGEXP_LIKE (source, pattern)`. -/
  REGEXP_LIKE : String → String → Bool
  /-- The function `json.Marshal` on `ladon.Conditions`. -/
  Marshal : Conditions → Option Bytes
  /-- The function `json.Unmarshal` into an empty `ladon.Conditions`. -/
  Unmarshal : Bytes → Option Conditions
  /-- Order in which the database returns the rows of a query. -/
  rowOrder : List Row → List Row
  rowOrder_perm : ∀ rows, (rowOrder rows).Perm rows
  /-- Order in which `range` visits the entries of a map. -/
  mapOrder : List (String × DefaultPolicy) → List (String × DefaultPolicy)
  mapOrder_perm : ∀ m, (mapOrder m).Perm m

/-- Driver errors that do not follow from the schema. -/
structure Faults where
  /-- The call `DB.Begin` fails. -/
  begin : Bool
  /-- The statement number `n` of a transaction (or the single statement of
  `DB.Exec`, number `0`) fails. -/
  exec : Nat → Bool
  /-- The call `tx.Commit` fails. -/
  commit : Bool
  /-- The call `tx.Rollback` fails. -/
  rollback : Bool
  /-- Error returned by `DB.Query`, if any. -/
  query : Option SqlError
  /-- Error returned by `rows.Scan` on a row, if any. -/
  scan : Row → Option SqlError

/-- A healthy driver. -/
def Faults.none : Faults :=
  { begin := false, exec := fun _ => false, commit := false, rollback := false,
    query := Option.none, scan := fun _ => Option.none }

/-! ## `uniq` -/

/-- The function `uniq`: `st.1` is the slice `u`, `st.2` the key set of the
map `m`. -/
def uniq (input : List String) : List String :=
  (input.foldl (fun (st : List String × List String) val =>
      if val ∈ st.2 then st else (st.1 ++ [val], val :: st.2)) ([], [])).1

/-- The wording of the specification for the deduplication: keep the first
occurrence of every element, in the order of the input. -/
def keepFirstOccurrences : List String → List String
  | [] => []
  | x :: xs => x :: (keepFirstOccurrences xs).filter (fun y => y ≠ x)

/-! ## `scanRows` -/

/-- Lookup `m[k]` in a Go map held as a list of entries with distinct keys. -/
def mapGet {V : Type} (m : List (String × V)) (k : String) : Option V :=
  match m with
  | [] => none
  | (k', v) :: rest => if k' = k then some v else mapGet rest k

/-- Assignment `m[k] = v`. -/
def mapSet {V : Type} (m : List (String × V)) (k : String) (v : V) : List (String × V) :=
  match m with
  | [] => [(k, v)]
  | (k', v') :: rest => if k' = k then (k, v) :: rest else (k', v') :: mapSet rest k v

/-- The guard `x.Valid && x.String != ""` together with the value it lets
through. -/
def validNonEmpty (x : Option String) : Option String :=
  match x with
  | some str => if str ≠ "" then some str else none
  | none => none

/-- The statement `xs = append(xs, x.String)` under the guard. -/
def appendValid (xs : List String) (x : Option String) : List String :=
  match validNonEmpty x with
  | some str => xs ++ [str]
  | none => xs

/-- The statement `xs = []string{x.String}` under the guard, on the empty
slice the fields start with. -/
def seedValid (x : Option String) : List String :=
  match validNonEmpty x with
  | some str => [str]
  | none => []

/-- One iteration of the loop `for rows.Next()` of `scanRows`. -/
def scanRow (env : Env) (f : Faults) (policies : List (String × DefaultPolicy)) (row : Row) :
    Except Error (List (String × DefaultPolicy)) :=
  match f.scan row with
  | some .errNoRows => .error .notFound
  | some .other => .error .driver
  | none =>
    match env.Unmarshal row.CONDITIONS with
    | none => .error .unmarshal
    | some conditions =>
      match mapGet policies row.ID with
      | some c =>
        .ok (mapSet policies row.ID
          { c with
            Actions := appendValid c.Actions row.ACTION
            Subjects := appendValid c.Subjects row.SUBJECT
            Resources := appendValid c.Resources row.RESOURCE })
      | none =>
        .ok (mapSet policies row.ID
          { ID := row.ID
            Effect := row.EFFECT
            Description := row.DESCRIPTION
            Conditions := conditions
            Actions := seedValid row.ACTION
            Subjects := seedValid row.SUBJECT
            Resources := seedValid row.RESOURCE })

/-- The loop `for rows.Next()` of `scanRows`, from a given map. -/
def scanLoop (env : Env) (f : Faults) :
    List (String × DefaultPolicy) → List Row → Except Error (List (String × DefaultPolicy))
  | policies, [] => .ok policies
  | policies, row :: rows =>
    match scanRow env f policies row with
    | .error e => .error e
    | .ok policies1 => scanLoop env f policies1 rows

/-- The body of the last loop of `scanRows`. -/
def finish (v : DefaultPolicy) : DefaultPolicy :=
  { v with Actions := uniq v.Actions, Resources := uniq v.Resources, Subjects := uniq v.Subjects }

/-- The function `scanRows`. -/
def scanRows (env : Env) (f : Faults) (rows : List Row) : Except Error (List DefaultPolicy) :=
  match scanLoop env f [] rows with
  | .error e => .error e
  | .ok policies => .ok ((env.mapOrder policies).map fun kv => finish kv.2)

/-! ## Queries -/

/-- Rows of `tbl` that a `LEFT JOIN ... ON cond` attaches to the current row:
the matching rows, or one `NULL` row when there is none. -/
def leftJoin {β : Type} (tbl : List β) (cond : β → Bool) : List (Option β) :=
  match tbl.filter cond with
  | [] => [none]
  | m :: ms => (m :: ms).map some

/-- Rows of `tbl` that an `INNER JOIN ... ON cond` attaches to the current row. -/
def innerJoin {β : Type} (tbl : List β) (cond : β → Bool) : List β :=
  tbl.filter cond

/-- The condition `link.X = template.ID` of the joins with a template table,
where the link row may be `NULL`. -/
def linkOn (link : Option LinkRow) (t : TemplateRow) : Bool :=
  match link with
  | some l => decide (l.TEMPLATE_ID = t.ID)
  | none => false

/-- The select list of both queries. -/
def selectRow (p : PolicyRow) (tsubject tresource taction : Option TemplateRow) : Row :=
  { ID := p.ID
    EFFECT := p.EFFECT
    CONDITIONS := p.CONDITIONS
    DESCRIPTION := p.DESCRIPTION
    SUBJECT := tsubject.map (fun t => t.TEMPLATE)
    RESOURCE := tresource.map (fun t => t.TEMPLATE)
    ACTION := taction.map (fun t => t.TEMPLATE) }

/-- The statement `policyGetAllQuery`: table `_p` left-joined with the three
link tables and then with the three template tables. -/
def policyGetAllQuery (db : Store) : List Row :=
  db.p.flatMap fun p =>
  (leftJoin db.sr fun rs => decide (rs.POLICY = p.ID)).flatMap fun rs =>
  (leftJoin db.ar fun ra => decide (ra.POLICY = p.ID)).flatMap fun ra =>
  (leftJoin db.rr fun rr => decide (rr.POLICY = p.ID)).flatMap fun rr =>
  (leftJoin db.s (linkOn rs)).flatMap fun tsubject =>
  (leftJoin db.a (linkOn ra)).flatMap fun taction =>
  (leftJoin db.r (linkOn rr)).map fun tresource =>
  selectRow p tsubject tresource taction

/-- The `WHERE` clause of `FindRequestCandidates`. -/
def subjectMatches (env : Env) (subject : String) (tsubject : TemplateRow) : Bool :=
  (tsubject.HAS_REGEX = false && decide (tsubject.TEMPLATE = subject))
    || (tsubject.HAS_REGEX = true && env.REGEXP_LIKE subject tsubject.COMPILED)

/-- The statement of `FindRequestCandidates`: inner joins on the subject
side, left joins on the action and resource side, filtered on the subject. -/
def candidatesQuery (env : Env) (db : Store) (subject : String) : List Row :=
  db.p.flatMap fun p =>
  (innerJoin db.sr fun rs => decide (rs.POLICY = p.ID)).flatMap fun rs =>
  (leftJoin db.ar fun ra => decide (ra.POLICY = p.ID)).flatMap fun ra =>
  (leftJoin db.rr fun rr => decide (rr.POLICY = p.ID)).flatMap fun rr =>
  (innerJoin db.s (linkOn (some rs))).flatMap fun tsubject =>
  (leftJoin db.a (linkOn ra)).flatMap fun taction =>
  (leftJoin db.r (linkOn rr)).flatMap fun tresource =>
  if subjectMatches env subject tsubject then
    [selectRow p (some tsubject) tresource taction]
  else []

namespace PolicyManager

/-- The method `FindRequestCandidates`. -/
def FindRequestCandidates (env : Env) (f : Faults) (db : Store) (r : Request) :
    Except Error (List DefaultPolicy) :=
  match f.query with
  | some .errNoRows => .error .notFound
  | some .other => .error .driver
  | none => scanRows env f (env.rowOrder (candidatesQuery env db r.Subject))

end PolicyManager

/-- Wrap-around of `int64` arithmetic. -/
def wrapInt64 (x : Int) : Int :=
  (x + 2 ^ 63) % 2 ^ 64 - 2 ^ 63

/-- The values of type `int64`. -/
def IsInt64 (x : Int) : Prop :=
  -(2 ^ 63) ≤ x ∧ x < 2 ^ 63

instance (x : Int) : Decidable (IsInt64 x) := by
  unfold IsInt64; infer_instance

/-- The slice expression `xs[lo:hi]` on a slice whose capacity is its length;
`none` is the run-time panic. -/
def sliceExpr {α : Type} (xs : List α) (lo hi : Int) : Option (List α) :=
  if 0 ≤ lo ∧ lo ≤ hi ∧ hi ≤ (xs.length : Int) then
    some ((xs.drop lo.toNat).take (hi.toNat - lo.toNat))
  else none

namespace PolicyManager

/-- The method `GetAll`. -/
def GetAll (env : Env) (f : Faults) (db : Store) (limit offset : Int) :
    Except Error (List DefaultPolicy) :=
  match f.query with
  | some _ => .error .driver
  | none =>
    match scanRows env f (env.rowOrder (policyGetAllQuery db)) with
    | .error e => .error e
    | .ok pols =>
      let clamp := decide (wrapInt64 (offset + limit) > (pols.length : Int))
      let limit1 := if clamp then (pols.length : Int) else limit
      let offset1 := if clamp then 0 else offset
      match sliceExpr pols offset1 limit1 with
      | none => .error .sliceBounds
      | some page => .ok page

/-- The method `Get`. -/
def Get (env : Env) (f : Faults) (db : Store) (id : String) : Except Error DefaultPolicy :=
  match f.query with
  | some .errNoRows => .error .notFound
  | some .other => .error .driver
  | none =>
    match scanRows env f (env.rowOrder ((policyGetAllQuery db).filter fun row => decide (row.ID = id))) with
    | .error e => .error e
    | .ok [] => .error .notFound
    | .ok (policy :: _) => .ok policy

end PolicyManager

/-! ## Statements and transactions -/

/-- The function `strings.Index` from a given position, positions counted in
characters; `-1` when `substr` does not occur. -/
def stringsIndexFrom (substr : List Char) : List Char → Nat → Int
  | [], i => if substr = [] then (i : Int) else -1
  | c :: cs, i =>
    if substr.isPrefixOf (c :: cs) then (i : Int) else stringsIndexFrom substr cs (i + 1)

/-- The function `strings.Index`. -/
def stringsIndex (str substr : String) : Int :=
  stringsIndexFrom substr.toList str.toList 0

/-- The statement `INSERT INTO _p` with `IGNORE_ROW_ON_DUPKEY_INDEX` on the primary
key `ID`. The columns `ID` and `EFFECT` are `NOT NULL` and the empty string is
`NULL` in Oracle: a row with an empty `ID` or `EFFECT` is refused, stored
identifier or not. The columns `DESCRIPTION` and `CONDITIONS` are nullable. -/
def insertPolicy (row : PolicyRow) (db : Store) : Except Error Store :=
  if row.ID = "" ∨ row.EFFECT = "" then .error .constraint
  else if ∃ x ∈ db.p, x.ID = row.ID then .ok db
  else .ok { db with p := db.p ++ [row] }

/-- The statement `INSERT INTO _s`, `_a` or `_r` with `IGNORE_ROW_ON_DUPKEY_INDEX`
on the primary key `ID`; the columns `COMPILED` and `TEMPLATE` are `UNIQUE`.
The column `TEMPLATE` is `NOT NULL` and the empty string is `NULL` in Oracle:
a row with an empty template text is refused. The columns `ID` and `COMPILED`
are `NOT NULL` as well; `Create` fills them with a digest of 64 hexadecimal
digits and with a compiled expression, which are never empty, so no refusal
arises from them. -/
def insertTemplate (d : Dim) (row : TemplateRow) (db : Store) : Except Error Store :=
  if row.TEMPLATE = "" then .error .constraint
  else if ∃ x ∈ db.tpl d, x.ID = row.ID then .ok db
  else if ∃ x ∈ db.tpl d, x.COMPILED = row.COMPILED ∨ x.TEMPLATE = row.TEMPLATE then
    .error .constraint
  else .ok (db.setTpl d (db.tpl d ++ [row]))

/-- The statement `INSERT INTO _sr`, `_ar` or `_rr` with
`IGNORE_ROW_ON_DUPKEY_INDEX` on the primary key; both columns are foreign
keys. -/
def insertLink (d : Dim) (row : LinkRow) (db : Store) : Except Error Store :=
  if ∃ x ∈ db.rel d, x.POLICY = row.POLICY ∧ x.TEMPLATE_ID = row.TEMPLATE_ID then .ok db
  else if (∃ x ∈ db.p, x.ID = row.POLICY) ∧ (∃ x ∈ db.tpl d, x.ID = row.TEMPLATE_ID) then
    .ok (db.setRel d (db.rel d ++ [row]))
  else .error .constraint

/-- The statement `DELETE FROM _p WHERE ID=?`; the link tables follow by
`ON DELETE CASCADE`. -/
def deletePolicy (id : String) (db : Store) : Except Error Store :=
  .ok { db with
        p := db.p.filter (fun x => x.ID ≠ id)
        sr := db.sr.filter (fun x => x.POLICY ≠ id)
        ar := db.ar.filter (fun x => x.POLICY ≠ id)
        rr := db.rr.filter (fun x => x.POLICY ≠ id) }

/-- An open transaction: the committed tables it started from, its own
uncommitted copy and the number of statements it has run. -/
structure Tx where
  base : Store
  work : Store
  n : Nat

/-- The call `DB.Begin`. -/
def Begin (f : Faults) (db : Store) : Except Error Tx :=
  if f.begin then .error .driver else .ok { base := db, work := db, n := 0 }

/-- The call `tx.Exec` with a statement. -/
def Tx.Exec (f : Faults) (tx : Tx) (stmt : Store → Except Error Store) : Except Error Tx :=
  if f.exec tx.n then .error .driver
  else
    match stmt tx.work with
    | .error e => .error e
    | .ok work => .ok { tx with work := work, n := tx.n + 1 }

/-- The error path `if err := tx.Rollback(); err != nil { return err }; return
cause`: the error that is returned and the committed tables. -/
def Tx.Rollback (f : Faults) (tx : Tx) (cause : Error) : Error × Store :=
  (if f.rollback then Error.driver else cause, tx.base)

/-- The call `tx.Commit`: the committed tables afterwards, or the error. -/
def Tx.Commit (f : Faults) (tx : Tx) : Except Error Store :=
  if f.commit then .error .driver else .ok tx.work

namespace PolicyManager

/-- The first lines of `Create`: the bytes stored in `CONDITIONS`, `none` when
`json.Marshal` fails. -/
def conditionsOf (env : Env) (policy : Policy) : Option Bytes :=
  match policy.Conditions with
  | none => some "\x7b\x7d"
  | some cs => env.Marshal cs

/-- The slice `relations` of `Create`. -/
def relations (policy : Policy) : List (List String × Dim) :=
  [(policy.Actions, .a), (policy.Resources, .r), (policy.Subjects, .s)]

/-- The inner loop `for _, template := range v.p` of `Create`. An error is
returned together with the committed tables after the rollback. -/
def createTemplates (env : Env) (f : Faults) (policy : Policy) (d : Dim) :
    List String → Tx → Except (Error × Store) Tx
  | [], tx => .ok tx
  | template :: rest, tx =>
    let id := env.sha256Hex template
    match env.CompileRegex template policy.StartDelimiter policy.EndDelimiter with
    | none => .error (tx.Rollback f .compile)
    | some compiled =>
      match tx.Exec f (insertTemplate d
          { ID := id
            TEMPLATE := template
            COMPILED := compiled
            HAS_REGEX :=
              decide (stringsIndex template (String.singleton policy.StartDelimiter) > -1) }) with
      | .error e => .error (tx.Rollback f e)
      | .ok tx1 =>
        match tx1.Exec f (insertLink d { POLICY := policy.ID, TEMPLATE_ID := id }) with
        | .error e => .error (tx1.Rollback f e)
        | .ok tx2 => createTemplates env f policy d rest tx2

/-- The outer loop `for _, v := range relations` of `Create`. -/
def createRelations (env : Env) (f : Faults) (policy : Policy) :
    List (List String × Dim) → Tx → Except (Error × Store) Tx
  | [], tx => .ok tx
  | v :: rest, tx =>
    match createTemplates env f policy v.2 v.1 tx with
    | .error e => .error e
    | .ok tx1 => createRelations env f policy rest tx1

/-- The method `Create`: the returned error (`none` is `nil`) and the committed
tables after the call. -/
def Create (env : Env) (f : Faults) (db : Store) (policy : Policy) : Option Error × Store :=
  match conditionsOf env policy with
  | none => (some .marshal, db)
  | some conditions =>
    match Begin f db with
    | .error e => (some e, db)
    | .ok tx =>
      match tx.Exec f (insertPolicy
          { ID := policy.ID
            DESCRIPTION := policy.Description
            EFFECT := policy.Effect
            CONDITIONS := conditions }) with
      | .error e => ((some (tx.Rollback f e).1), (tx.Rollback f e).2)
      | .ok tx1 =>
        match createRelations env f policy (relations policy) tx1 with
        | .error e => (some e.1, e.2)
        | .ok tx2 =>
          match tx2.Commit f with
          | .error e => (some (tx2.Rollback f e).1, (tx2.Rollback f e).2)
          | .ok committed => (none, committed)

/-- The method `Delete`: the returned error and the committed tables after the
call. -/
def Delete (f : Faults) (db : Store) (id : String) : Option Error × Store :=
  if f.exec 0 then (some .driver, db)
  else
    match deletePolicy id db with
    | .error e => (some e, db)
    | .ok db1 => (none, db1)

end PolicyManager

/-! ## A sample environment -/

/-- The function `regexp.QuoteMeta` on a list of characters. -/
def quoteMeta : List Char → List Char
  | [] => []
  | c :: cs =>
    if c ∈ ['\\', '.', '+', '*', '?', '(', ')', '|', '[', ']', '\x7b', '\x7d', '^', '$'] then
      '\\' :: c :: quoteMeta cs
    else c :: quoteMeta cs

/-- Body of `sampleCompile`: `depth` counts the open delimiters, `lit` holds
the literal text read since the last pattern, in reverse. -/
def sampleCompileFrom (start stop : Char) : List Char → Nat → List Char → Option (List Char)
  | [], depth, lit => if depth = 0 then some (quoteMeta lit.reverse ++ ['$']) else none
  | c :: cs, 0, lit =>
    if c = start then
      (sampleCompileFrom start stop cs 1 []).map fun out => quoteMeta lit.reverse ++ '(' :: out
    else if c = stop then none
    else sampleCompileFrom start stop cs 0 (c :: lit)
  | c :: cs, depth + 1, lit =>
    if c = start then (sampleCompileFrom start stop cs (depth + 2) lit).map fun out => c :: out
    else if c = stop then
      if depth = 0 then (sampleCompileFrom start stop cs 0 []).map fun out => ')' :: out
      else (sampleCompileFrom start stop cs depth lit).map fun out => c :: out
    else (sampleCompileFrom start stop cs (depth + 1) lit).map fun out => c :: out

/-- A template compiler in the manner of `compiler.CompileRegex`: text outside
the delimiters is quoted, a delimited segment becomes a group, unbalanced
delimiters are an error. -/
def sampleCompile (template : String) (start stop : Char) : Option String :=
  (sampleCompileFrom start stop template.toList 0 []).map fun out => String.mk ('^' :: out)

/-- Greedy repetition used by `sampleMatch`. -/
def sampleStar (rest : List Char → Bool) : List Char → Bool
  | [] => rest []
  | c :: cs => rest (c :: cs) || sampleStar rest cs

/-- A matcher for the expressions that `sampleCompile` produces from
templates whose patterns are `.`, `.+` or `.*`: anchors and group brackets
carry no text, a backslash quotes the next character. -/
def sampleMatch : List Char → List Char → Bool
  | [], str => str.isEmpty
  | '^' :: pat, str => sampleMatch pat str
  | '$' :: pat, str => sampleMatch pat str
  | '(' :: pat, str => sampleMatch pat str
  | ')' :: pat, str => sampleMatch pat str
  | '.' :: '+' :: pat, str =>
    match str with
    | [] => false
    | _ :: cs => sampleStar (sampleMatch pat) cs
  | '.' :: '*' :: pat, str => sampleStar (sampleMatch pat) str
  | '.' :: pat, str =>
    match str with
    | [] => false
    | _ :: cs => sampleMatch pat cs
  | '\\' :: c :: pat, str =>
    match str with
    | [] => false
    | x :: cs => x = c && sampleMatch pat cs
  | c :: pat, str =>
    match str with
    | [] => false
    | x :: cs => x = c && sampleMatch pat cs

/-- A sample environment: an injective stand-in for the digest, the sample
compiler and matcher, a codec that writes the entries of the map one per line,
and identity orders. -/
def sampleEnv : Env where
  sha256Hex := fun t => "#" ++ t
  CompileRegex := sampleCompile
  REGEXP_LIKE := fun source pattern => sampleMatch pattern.toList source.toList
  Marshal := fun cs => some ("\x7b" ++ String.intercalate ";" (cs.map fun kv => kv.1 ++ "=" ++ kv.2) ++ "\x7d")
  Unmarshal := fun b =>
    if b = "\x7b\x7d" then some []
    else if b = "\x7bip=10.0.0.0/8\x7d" then some [("ip", "10.0.0.0/8")]
    else none
  rowOrder := id
  rowOrder_perm := fun _ => List.Perm.refl _
  mapOrder := id
  mapOrder_perm := fun _ => List.Perm.refl _

/-! ## Vocabulary of the statements -/

/-- The rows of a query result that carry the policy identifier `k`. -/
def rowsOf (rows : List Row) (k : String) : List Row :=
  rows.filter fun row => decide (row.ID = k)

/-- What the map of `scanRows` holds under the key `k` once `rows` have been
read: the scalar fields of the first row with that identifier, and in each
dimension the values that pass the guard, in the order of the rows. -/
structure Folds (env : Env) (rows : List Row) (k : String) (v : DefaultPolicy) : Prop where
  id : v.ID = k
  first : ∃ r0, (rowsOf rows k).head? = some r0 ∧ v.Effect = r0.EFFECT ∧
    v.Description = r0.DESCRIPTION ∧ env.Unmarshal r0.CONDITIONS = some v.Conditions
  subjects : v.Subjects = (rowsOf rows k).filterMap fun row => validNonEmpty row.SUBJECT
  actions : v.Actions = (rowsOf rows k).filterMap fun row => validNonEmpty row.ACTION
  resources : v.Resources = (rowsOf rows k).filterMap fun row => validNonEmpty row.RESOURCE

/-- The map of `scanRows` after `rows`: one entry per identifier that occurs,
each the fold of its rows. -/
structure MapInv (env : Env) (rows : List Row) (m : List (String × DefaultPolicy)) : Prop where
  nodup : (m.map Prod.fst).Nodup
  keys : ∀ k, k ∈ m.map Prod.fst ↔ ∃ row ∈ rows, row.ID = k
  folds : ∀ kv ∈ m, Folds env rows kv.1 kv.2

/-- The template text `t` is linked to the policy `id` in dimension `d`: a link
row of the policy points to a template row with that text. -/
def Linked (db : Store) (d : Dim) (id t : String) : Prop :=
  ∃ l ∈ db.rel d, l.POLICY = id ∧ ∃ tr ∈ db.tpl d, tr.ID = l.TEMPLATE_ID ∧ tr.TEMPLATE = t

/-- The templates of a policy in a dimension: `GetActions`, `GetResources`,
`GetSubjects`. -/
def Policy.templates (policy : Policy) : Dim → List String
  | .a => policy.Actions
  | .r => policy.Resources
  | .s => policy.Subjects

instance (db : Store) (d : Dim) (id t : String) : Decidable (Linked db d id t) := by
  unfold Linked; infer_instance

/-- The policy `id` has a subject template that matches `subject` the way the
`WHERE` clause of `FindRequestCandidates` asks: a subject link row of the
policy points to a template row that either carries no pattern flag and whose
text is `subject`, or carries the pattern flag and whose compiled expression
matches `subject`. -/
def HasMatchingSubject (env : Env) (db : Store) (id subject : String) : Prop :=
  ∃ l ∈ db.sr, l.POLICY = id ∧ ∃ ts ∈ db.s, ts.ID = l.TEMPLATE_ID ∧
    ((ts.HAS_REGEX = false ∧ ts.TEMPLATE = subject) ∨
      (ts.HAS_REGEX = true ∧ env.REGEXP_LIKE subject ts.COMPILED = true))

instance (env : Env) (db : Store) (id subject : String) :
    Decidable (HasMatchingSubject env db id subject) := by
  unfold HasMatchingSubject; infer_instance

/-- Integrity of the tables: a template row is stored under the digest of its
text (as `Create` writes it), and the two foreign keys of every link row point
to stored rows (as the schema demands). -/
structure Store.WF (env : Env) (db : Store) : Prop where
  tid : ∀ d, ∀ tr ∈ db.tpl d, tr.ID = env.sha256Hex tr.TEMPLATE
  fk_policy : ∀ d, ∀ l ∈ db.rel d, ∃ x ∈ db.p, x.ID = l.POLICY
  fk_template : ∀ d, ∀ l ∈ db.rel d, ∃ tr ∈ db.tpl d, tr.ID = l.TEMPLATE_ID

/-- The `UNIQUE` constraint on `COMPILED` is not hit by the templates of the
policy: in each dimension, the expression compiled from a template of the
policy is stored only with that template, and is compiled from no other
template of the policy. -/
def NoCompiledClash (env : Env) (db : Store) (policy : Policy) : Prop :=
  ∀ d, ∀ t ∈ policy.templates d, ∀ c,
    env.CompileRegex t policy.StartDelimiter policy.EndDelimiter = some c →
      (∀ tr ∈ db.tpl d, tr.COMPILED = c → tr.TEMPLATE = t) ∧
      (∀ t1 ∈ policy.templates d,
        env.CompileRegex t1 policy.StartDelimiter policy.EndDelimiter = some c → t1 = t)

/-- The effect of the loop of `Create` over the templates `ts` of one dimension
on the template table and the link table of that dimension. -/
structure DimDone (env : Env) (policy : Policy) (ts : List String)
    (tpl : List TemplateRow) (rel : List LinkRow)
    (tpl1 : List TemplateRow) (rel1 : List LinkRow) : Prop where
  tpl_mono : ∀ tr ∈ tpl, tr ∈ tpl1
  tpl_new : ∀ tr ∈ tpl1, tr ∈ tpl ∨
    (tr.TEMPLATE ∈ ts ∧ tr.ID = env.sha256Hex tr.TEMPLATE ∧
      env.CompileRegex tr.TEMPLATE policy.StartDelimiter policy.EndDelimiter = some tr.COMPILED ∧
      tr.HAS_REGEX
        = decide (stringsIndex tr.TEMPLATE (String.singleton policy.StartDelimiter) > -1) ∧
      ∀ x ∈ tpl, x.ID ≠ tr.ID)
  tpl_has : ∀ t ∈ ts, ∃ tr ∈ tpl1, tr.ID = env.sha256Hex t
  rel_mono : ∀ l ∈ rel, l ∈ rel1
  rel_new : ∀ l ∈ rel1, l ∈ rel ∨
    (l.POLICY = policy.ID ∧ ∃ t ∈ ts, l.TEMPLATE_ID = env.sha256Hex t)
  rel_has : ∀ t ∈ ts, (⟨policy.ID, env.sha256Hex t⟩ : LinkRow) ∈ rel1

/-- The tables that calls of `Create` and `Delete` produce from the empty
tables, whatever the driver does in each call. -/
inductive Reachable (env : Env) : Store → Prop where
  | empty : Reachable env Store.empty
  | create (f : Faults) (db : Store) (policy : Policy) :
      Reachable env db → Reachable env (PolicyManager.Create env f db policy).2
  | delete (f : Faults) (db : Store) (id : String) :
      Reachable env db → Reachable env (PolicyManager.Delete f db id).2

/-! ## Sample data -/

/-- Three rows of one policy, as a join repeats them. -/
def sampleRows : List Row :=
  [ { ID := "1", EFFECT := "allow", CONDITIONS := "\x7b\x7d", DESCRIPTION := "d",
      SUBJECT := some "alice", RESOURCE := none, ACTION := some "read" },
    { ID := "1", EFFECT := "allow", CONDITIONS := "\x7b\x7d", DESCRIPTION := "d",
      SUBJECT := some "", RESOURCE := none, ACTION := some "read" },
    { ID := "1", EFFECT := "allow", CONDITIONS := "\x7b\x7d", DESCRIPTION := "d",
      SUBJECT := some "alice", RESOURCE := none, ACTION := some "write" } ]

/-- The policy that `sampleRows` fold into. -/
def sampleFolded : DefaultPolicy :=
  { ID := "1", Description := "d", Effect := "allow", Conditions := [],
    Subjects := ["alice"], Actions := ["read", "write"], Resources := [] }

/-- A policy for the subject `alice`. -/
def policyA : Policy :=
  { ID := "A", Description := "alice may read", Effect := "allow", Conditions := none,
    Subjects := ["alice"], Actions := ["read"], Resources := ["doc"],
    StartDelimiter := '<', EndDelimiter := '>' }

/-- A policy for every subject of a mail domain. -/
def policyB : Policy :=
  { ID := "B", Description := "staff may write", Effect := "allow", Conditions := none,
    Subjects := ["<.+>@example.com"], Actions := ["write"], Resources := ["doc"],
    StartDelimiter := '<', EndDelimiter := '>' }

/-- The tables after `Create(policyA)` and `Create(policyB)` on empty tables. -/
def storeAB : Store :=
  (PolicyManager.Create sampleEnv Faults.none
    (PolicyManager.Create sampleEnv Faults.none Store.empty policyA).2 policyB).2

/-- What `Get` returns for `policyA`. -/
def foldedA : DefaultPolicy :=
  { ID := "A", Description := "alice may read", Effect := "allow", Conditions := [],
    Subjects := ["alice"], Actions := ["read"], Resources := ["doc"] }

/-- What `Get` returns for `policyB`. -/
def foldedB : DefaultPolicy :=
  { ID := "B", Description := "staff may write", Effect := "allow", Conditions := [],
    Subjects := ["<.+>@example.com"], Actions := ["write"], Resources := ["doc"] }

/-- A policy whose subject template has an unbalanced delimiter. -/
def policyBad : Policy :=
  { ID := "C", Description := "broken", Effect := "deny", Conditions := none,
    Subjects := ["a<b"], Actions := ["delete"], Resources := ["doc"],
    StartDelimiter := '<', EndDelimiter := '>' }

/-- Policy `A` of the candidate example: the one subject `alice`. -/
def policyAlice : Policy :=
  { ID := "A", Description := "", Effect := "allow", Conditions := none,
    Subjects := ["alice"], Actions := [], Resources := [],
    StartDelimiter := '<', EndDelimiter := '>' }

/-- Policy `B` of the candidate example: the one subject `<.+>@example.com`. -/
def policyStaff : Policy :=
  { ID := "B", Description := "", Effect := "allow", Conditions := none,
    Subjects := ["<.+>@example.com"], Actions := [], Resources := [],
    StartDelimiter := '<', EndDelimiter := '>' }

/-- The tables after `Create(policyAlice)` and `Create(policyStaff)` on empty
tables. -/
def storeExample (env : Env) : Store :=
  (PolicyManager.Create env Faults.none
    (PolicyManager.Create env Faults.none Store.empty policyAlice).2 policyStaff).2

/-- A policy with an empty action template. -/
def policyEmpty : Policy :=
  { ID := "E", Description := "empty action", Effect := "allow", Conditions := none,
    Subjects := ["alice"], Actions := [""], Resources := ["doc"],
    StartDelimiter := '<', EndDelimiter := '>' }

/-- A policy that is not in `storeAB`, with a condition and with the action
template `read` that `storeAB` holds already. -/
def policyNew : Policy :=
  { ID := "N", Description := "carol may read", Effect := "allow",
    Conditions := some [("ip", "10.0.0.0/8")],
    Subjects := ["carol"], Actions := ["read"], Resources := [],
    StartDelimiter := '<', EndDelimiter := '>' }

/-! ## Keys of the schema -/

/-- The primary keys and `UNIQUE` columns of `policySchemas`: no two policy rows
share an `ID`; within a template table no two rows share an `ID`, a
`TEMPLATE` or a `COMPILED`; no link row occurs twice. -/
structure Store.Keys (db : Store) : Prop where
  policy_pk : (db.p.map fun x => x.ID).Nodup
  template_pk : ∀ d, ((db.tpl d).map fun x => x.ID).Nodup
  template_text : ∀ d, ((db.tpl d).map fun x => x.TEMPLATE).Nodup
  template_compiled : ∀ d, ((db.tpl d).map fun x => x.COMPILED).Nodup
  link_pk : ∀ d, (db.rel d).Nodup

/-- The digest has no collision among the given texts: two of them with the
same digest are the same text. -/
def DigestInjOn (env : Env) (texts : List String) : Prop :=
  ∀ t1 ∈ texts, ∀ t2 ∈ texts, env.sha256Hex t1 = env.sha256Hex t2 → t1 = t2

/-- The `NOT NULL` columns that the caller of `Create` fills hold no empty
string: no policy row has an empty `ID` or `EFFECT`, no template row has an
empty `TEMPLATE`. -/
structure Store.NotNull (db : Store) : Prop where
  policy_id : ∀ x ∈ db.p, x.ID ≠ ""
  policy_effect : ∀ x ∈ db.p, x.EFFECT ≠ ""
  template : ∀ d, ∀ tr ∈ db.tpl d, tr.TEMPLATE ≠ ""

/-! ## More sample policies -/

/-- A second `Create` under the identifier of `policyA`, with other scalar
fields and the new subject template `mallory`. -/
def policyAgain : Policy :=
  { ID := "A", Description := "rewritten", Effect := "deny", Conditions := none,
    Subjects := ["mallory"], Actions := ["read"], Resources := [],
    StartDelimiter := '<', EndDelimiter := '>' }

/-- What `Get` returns for `A` after `Create(policyAgain)` on `storeAB`. -/
def foldedAgain : DefaultPolicy :=
  { ID := "A", Description := "alice may read", Effect := "allow", Conditions := [],
    Subjects := ["alice", "mallory"], Actions := ["read"], Resources := ["doc"] }

/-- A policy that shares the subject template `alice`, the action template
`read` and the resource template `doc` with `policyA`. -/
def policyAlso : Policy :=
  { ID := "P", Description := "alice and bob may read", Effect := "allow", Conditions := none,
    Subjects := ["alice", "bob"], Actions := ["read"], Resources := ["doc"],
    StartDelimiter := '<', EndDelimiter := '>' }

/-- A policy with the delimiters `[` and `]` that shares the subject template
`<.+>@example.com` with `policyB` and has a subject template of its own that
compiles to the expression of the shared one. -/
def policyBracket : Policy :=
  { ID := "D", Description := "", Effect := "allow", Conditions := none,
    Subjects := ["<.+>@example.com", "[.+]@example.com"], Actions := [], Resources := [],
    StartDelimiter := '[', EndDelimiter := ']' }

/-- A policy with the empty subject template. -/
def policyBlank1 : Policy :=
  { ID := "X", Description := "", Effect := "allow", Conditions := none,
    Subjects := [""], Actions := [], Resources := [],
    StartDelimiter := '<', EndDelimiter := '>' }

/-- Another policy with the empty subject template. -/
def policyBlank2 : Policy :=
  { ID := "Y", Description := "", Effect := "allow", Conditions := none,
    Subjects := [""], Actions := [], Resources := [],
    StartDelimiter := '<', EndDelimiter := '>' }

/-- A policy without an effect. -/
def policyNoEffect : Policy :=
  { ID := "Z", Description := "no effect", Effect := "", Conditions := none,
    Subjects := ["alice"], Actions := ["read"], Resources := ["doc"],
    StartDelimiter := '<', EndDelimiter := '>' }

/-! ## Clients -/

/-- The function `strings.Join(elems, sep)` for a separator of one character,
which is how this program calls it. A Go slice is a list here, so `nil` and the
empty slice are the same value. -/
def stringsJoin (elems : List String) (sep : Char) : String :=
  String.mk (List.intercalate [sep] (elems.map String.toList))

/-- The function `strings.Split(s, sep)` for a separator of one character: the
pieces of `s` between the occurrences of `sep`; one empty piece for the empty
string. -/
def stringsSplit (s : String) (sep : Char) : List String :=
  (s.toList.splitOn sep).map String.mk

/-- The library function `pkg.SplitNonEmpty` of `github.com/ory/hydra/pkg`: the
pieces of `strings.Split(s, delim)` with `len(piece) > 0`. -/
def SplitNonEmpty (s : String) (delim : Char) : List String :=
  (stringsSplit s delim).filter fun piece => decide (piece.length > 0)

/-- The fields of `client.Client` that the mapping reads and writes. -/
structure Client where
  ID : String
  Name : String
  Secret : String
  RedirectURIs : List String
  GrantTypes : List String
  ResponseTypes : List String
  Scope : String
  Owner : String
  PolicyURI : String
  TermsOfServiceURI : String
  ClientURI : String
  LogoURI : String
  Contacts : List String
  Public : Bool
  deriving DecidableEq, Repr

/-- The struct `clientSqlData`: one row of the client table. -/
structure clientSqlData where
  ID : String
  Name : String
  Secret : String
  RedirectURIs : String
  GrantTypes : String
  ResponseTypes : String
  Scope : String
  Owner : String
  PolicyURI : String
  TermsOfServiceURI : String
  ClientURI : String
  LogoURI : String
  Contacts : String
  Public : Bool
  deriving DecidableEq, Repr

/-- The function `clientSqlDataFromClient`. -/
def clientSqlDataFromClient (d : Client) : clientSqlData :=
  { ID := d.ID
    Name := d.Name
    Secret := d.Secret
    RedirectURIs := stringsJoin d.RedirectURIs '|'
    GrantTypes := stringsJoin d.GrantTypes '|'
    ResponseTypes := stringsJoin d.ResponseTypes '|'
    Scope := d.Scope
    Owner := d.Owner
    PolicyURI := d.PolicyURI
    TermsOfServiceURI := d.TermsOfServiceURI
    ClientURI := d.ClientURI
    LogoURI := d.LogoURI
    Contacts := stringsJoin d.Contacts '|'
    Public := d.Public }

/-- The method `clientSqlData.ToClient`. -/
def clientSqlData.ToClient (d : clientSqlData) : Client :=
  { ID := d.ID
    Name := d.Name
    Secret := d.Secret
    RedirectURIs := SplitNonEmpty d.RedirectURIs '|'
    GrantTypes := SplitNonEmpty d.GrantTypes '|'
    ResponseTypes := SplitNonEmpty d.ResponseTypes '|'
    Scope := d.Scope
    Owner := d.Owner
    PolicyURI := d.PolicyURI
    TermsOfServiceURI := d.TermsOfServiceURI
    ClientURI := d.ClientURI
    LogoURI := d.LogoURI
    Contacts := SplitNonEmpty d.Contacts '|'
    Public := d.Public }

/-- A client with two redirect URIs and no contact. -/
def sampleClient : Client :=
  { ID := "app", Name := "App", Secret := "s3cret",
    RedirectURIs := ["https://a.example/cb", "https://b.example/cb"],
    GrantTypes := ["authorization_code", "refresh_token"], ResponseTypes := ["code"],
    Scope := "openid offline", Owner := "owner", PolicyURI := "", TermsOfServiceURI := "",
    ClientURI := "https://a.example", LogoURI := "", Contacts := [], Public := false }

/-! ## Sessions -/

/-- The type `fosite.Arguments`: a list of strings. -/
abbrev fosite.Arguments := List String

/-- The type `url.Values`. -/
abbrev url.Values := List (String × List String)

/-- The payload of a `fosite.Session`, whatever its fields are. -/
abbrev fosite.Session := String

/-- The struct `fosite.Request`, which is also what the getters of a
`fosite.Requester` read: `GetID`, `GetRequestedAt`, `GetClient`,
`GetRequestedScopes` (the field `Scopes`), `GetGrantedScopes`,
`GetRequestForm` and `GetSession` (`none` is `nil`). -/
structure fosite.Request where
  ID : String
  RequestedAt : Nat
  Client : Client
  Scopes : fosite.Arguments
  GrantedScopes : fosite.Arguments
  Form : url.Values
  Session : Option fosite.Session
  deriving DecidableEq, Repr

/-- The struct `sqlData`: one row of a session table. -/
structure sqlData where
  Signature : String
  Request : String
  RequestedAt : Nat
  Client : String
  Scopes : String
  GrantedScopes : String
  Form : String
  Session : String
  deriving DecidableEq, Repr

/-- Errors of the session mapping, one for each call that can fail. -/
inductive SessionError where
  | marshal
  | unmarshal
  | client
  | form
  deriving DecidableEq, Repr

/-- Library code that the session mapping calls; `none` stands for a returned
error. -/
structure SessionEnv where
  /-- The call `json.Marshal(r.GetSession())`. -/
  Marshal : Option fosite.Session → Option String
  /-- The call `json.Unmarshal([]byte(s.Session), session)`: the session after
  decoding into it. -/
  Unmarshal : String → fosite.Session → Option fosite.Session
  /-- The call `cm.GetClient`. -/
  GetClient : String → Option Client
  /-- The method `url.Values.Encode`. -/
  Encode : url.Values → String
  /-- The function `url.ParseQuery`. -/
  ParseQuery : String → Option url.Values

/-- The function `fositeSqlSchemaFromRequest`. -/
def fositeSqlSchemaFromRequest (env : SessionEnv) (SIGNATURE : String) (r : fosite.Request) :
    Except SessionError sqlData :=
  match env.Marshal r.Session with
  | none => .error .marshal
  | some session =>
    .ok { Request := r.ID
          Signature := SIGNATURE
          RequestedAt := r.RequestedAt
          Client := r.Client.ID
          Scopes := stringsJoin r.Scopes '|'
          GrantedScopes := stringsJoin r.GrantedScopes '|'
          Form := env.Encode r.Form
          Session := session }

/-- The first lines of `sqlData.toRequest`: decode the stored session into
`session` unless `session` is `nil`. -/
def sqlData.decodeSession (env : SessionEnv) (s : sqlData) (session : Option fosite.Session) :
    Except SessionError (Option fosite.Session) :=
  match session with
  | some target =>
    match env.Unmarshal s.Session target with
    | none => .error .unmarshal
    | some decoded => .ok (some decoded)
  | none => .ok none

/-- The method `sqlData.toRequest`. -/
def sqlData.toRequest (env : SessionEnv) (s : sqlData) (session : Option fosite.Session) :
    Except SessionError fosite.Request :=
  match s.decodeSession env session with
  | .error e => .error e
  | .ok session1 =>
    match env.GetClient s.Client with
    | none => .error .client
    | some c =>
      match env.ParseQuery s.Form with
      | none => .error .form
      | some val =>
        .ok { ID := s.Request
              RequestedAt := s.RequestedAt
              Client := c
              Scopes := stringsSplit s.Scopes '|'
              GrantedScopes := stringsSplit s.GrantedScopes '|'
              Form := val
              Session := session1 }

/-- A sample of the library code: sessions are stored as they are, the client
`app` is known, and the form `state=xyz` and the empty form are parsed. -/
def sampleSessionEnv : SessionEnv where
  Marshal := fun s => some (s.getD "null")
  Unmarshal := fun b _ => some b
  GetClient := fun id => if id = "app" then some sampleClient else none
  Encode := fun v =>
    String.intercalate "&" (v.map fun kv => kv.1 ++ "=" ++ String.intercalate "," kv.2)
  ParseQuery := fun s =>
    if s = "" then some []
    else if s = "state=xyz" then some [("state", ["xyz"])]
    else none

/-- A request for two scopes, both granted. -/
def sampleRequest : fosite.Request :=
  { ID := "req-1", RequestedAt := 1500000000, Client := sampleClient,
    Scopes := ["openid", "offline"], GrantedScopes := ["openid", "offline"],
    Form := [("state", ["xyz"])], Session := some "session-1" }

/-- A request with no requested scope and a granted scope that contains the
separator. -/
def sampleRequestBad : fosite.Request :=
  { ID := "req-2", RequestedAt := 1500000000, Client := sampleClient,
    Scopes := [], GrantedScopes := ["a|b"],
    Form := [], Session := some "session-2" }

/-! ## Groups -/

/-- A row of the table `_m`, whose primary key is `(member, group_id)`. -/
structure MemberRow where
  member : String
  group_id : String
  deriving DecidableEq, Repr

/-- The two tables of `groupSchema`. -/
structure GroupStore where
  /-- Column `id` of the group table. -/
  groups : List String
  /-- The table `_m`. -/
  members : List MemberRow
  deriving DecidableEq, Repr

namespace GroupManager

/-- The statement `INSERT INTO _m (group_id, member) VALUES (?, ?)`: refused on
the primary key and on the foreign key `group_id`. -/
def insertMember (group subject : String) (db : GroupStore) : Except Error GroupStore :=
  if (⟨subject, group⟩ : MemberRow) ∈ db.members then .error .constraint
  else if group ∈ db.groups then
    .ok { db with members := db.members ++ [⟨subject, group⟩] }
  else .error .constraint

/-- The statement `DELETE FROM _m WHERE member=? AND group_id=?`. -/
def deleteMember (group subject : String) (db : GroupStore) : Except Error GroupStore :=
  .ok { db with
        members := db.members.filter fun x => !(decide (x.member = subject ∧ x.group_id = group)) }

/-- The loop of `AddGroupMembers`: every statement runs with `tx.Exec`, on the
uncommitted copy `work` of the transaction; `n` counts the statements. -/
def addLoop (f : Faults) (group : String) : List String → GroupStore → Nat → Except Error GroupStore
  | [], work, _ => .ok work
  | subject :: rest, work, n =>
    if f.exec n then .error .driver
    else
      match insertMember group subject work with
      | .error e => .error e
      | .ok work1 => addLoop f group rest work1 (n + 1)

/-- The method `AddGroupMembers`: the returned error and the committed tables
after the call. A rollback, and a commit that fails, leave the committed tables
as they were at `Beginx`. -/
def AddGroupMembers (f : Faults) (db : GroupStore) (group : String) (subjects : List String) :
    Option Error × GroupStore :=
  if f.begin then (some .driver, db)
  else
    match addLoop f group subjects db 0 with
    | .error e => (some (if f.rollback then Error.driver else e), db)
    | .ok work => if f.commit then (some .driver, db) else (none, work)

/-- The loop of `RemoveGroupMembers`: every statement runs with `m.DB.Exec`,
outside the open transaction, so it changes the committed tables at once. On
an error the loop stops with the error and the committed tables at that
point. -/
def removeLoop (f : Faults) (group : String) :
    List String → GroupStore → Nat → Except (Error × GroupStore) GroupStore
  | [], db, _ => .ok db
  | subject :: rest, db, n =>
    if f.exec n then .error (.driver, db)
    else
      match deleteMember group subject db with
      | .error e => .error (e, db)
      | .ok db1 => removeLoop f group rest db1 (n + 1)

/-- The method `RemoveGroupMembers`: the returned error and the committed tables
after the call. The transaction `tx` has run no statement, so neither
`tx.Rollback` nor `tx.Commit` changes the tables. -/
def RemoveGroupMembers (f : Faults) (db : GroupStore) (group : String)
    (subjects : List String) : Option Error × GroupStore :=
  if f.begin then (some .driver, db)
  else
    match removeLoop f group subjects db 0 with
    | .error e => (some (if f.rollback then Error.driver else e.1), e.2)
    | .ok db1 => if f.commit then (some .driver, db1) else (none, db1)

end GroupManager

/-- A group `g` with the members `a` and `b`. -/
def sampleGroups : GroupStore :=
  { groups := ["g"], members := [⟨"a", "g"⟩, ⟨"b", "g"⟩] }

/-- A driver that fails on the second statement of a call. -/
def failSecond : Faults :=
  { Faults.none with exec := fun n => decide (n = 1) }

/-! ## Subjects of a candidate -/

/-- The template text `t` is linked to the policy `id` by a subject template
row that passes the `WHERE` clause of `FindRequestCandidates` for `subject`:
the row carries no pattern flag and its text is `subject`, or it carries the
pattern flag and its compiled expression matches `subject`. -/
def MatchingSubjectTemplate (env : Env) (db : Store) (id subject t : String) : Prop :=
  ∃ l ∈ db.sr, l.POLICY = id ∧ ∃ ts ∈ db.s, ts.ID = l.TEMPLATE_ID ∧ ts.TEMPLATE = t ∧
    ((ts.HAS_REGEX = false ∧ ts.TEMPLATE = subject) ∨
      (ts.HAS_REGEX = true ∧ env.REGEXP_LIKE subject ts.COMPILED = true))

instance (env : Env) (db : Store) (id subject t : String) :
    Decidable (MatchingSubjectTemplate env db id subject t) := by
  unfold MatchingSubjectTemplate; infer_instance

/-- The tables after `Create(policyAlso)` on empty tables. -/
def storeAlso : Store :=
  (PolicyManager.Create sampleEnv Faults.none Store.empty policyAlso).2

/-- What `Get` returns for `policyAlso`. -/
def foldedAlso : DefaultPolicy :=
  { ID := "P", Description := "alice and bob may read", Effect := "allow", Conditions := [],
    Subjects := ["alice", "bob"], Actions := ["read"], Resources := ["doc"] }

/-- What `FindRequestCandidates` returns for `policyAlso` and the subject
`alice`. -/
def candidateAlso : DefaultPolicy :=
  { ID := "P", Description := "alice and bob may read", Effect := "allow", Conditions := [],
    Subjects := ["alice"], Actions := ["read"], Resources := ["doc"] }

end Hydra

namespace Hydra
open PolicyManager

/-! ## Facts about `uniq` -/

theorem mem_keepFirst (xs : List String) (a : String) :
    a ∈ keepFirstOccurrences xs ↔ a ∈ xs := by
  induction xs with
  | nil => simp [keepFirstOccurrences]
  | cons x xs ih =>
    simp only [keepFirstOccurrences, List.mem_cons, List.mem_filter, ih]
    by_cases h : a = x <;> simp [h]

theorem nodup_keepFirst (xs : List String) : (keepFirstOccurrences xs).Nodup := by
  induction xs with
  | nil => simp [keepFirstOccurrences]
  | cons x xs ih =>
    simp only [keepFirstOccurrences, List.nodup_cons, List.mem_filter]
    exact ⟨by simp, ih.filter _⟩

theorem sublist_keepFirst (xs : List String) : (keepFirstOccurrences xs).Sublist xs := by
  induction xs with
  | nil => simp [keepFirstOccurrences]
  | cons x xs ih =>
    simp only [keepFirstOccurrences]
    exact ((List.filter_sublist _).trans ih).cons₂ x

theorem uniq_loop (xs : List String) :
    ∀ u m : List String, (∀ x, x ∈ m ↔ x ∈ u) →
      (xs.foldl (fun (st : List String × List String) val =>
        if val ∈ st.2 then st else (st.1 ++ [val], val :: st.2)) (u, m)).1
        = u ++ (keepFirstOccurrences xs).filter (fun y => decide (y ∉ u)) := by
  induction xs with
  | nil => intro u m _; simp [keepFirstOccurrences]
  | cons x xs ih =>
    intro u m hm
    simp only [List.foldl_cons]
    by_cases hx : x ∈ m
    · have hxu : x ∈ u := (hm x).1 hx
      simp only [hx, if_true]
      rw [ih u m hm]
      simp only [keepFirstOccurrences, List.filter_cons, hxu, not_true_eq_false, decide_False,
        Bool.false_eq_true, if_false, List.filter_filter]
      congr 1
      apply List.filter_congr
      intro y _
      by_cases hy : y = x
      · subst hy; simp [hxu]
      · simp [hy]
    · have hxu : x ∉ u := fun h => hx ((hm x).2 h)
      simp only [hx, if_false]
      rw [ih (u ++ [x]) (x :: m) (by intro y; simp [hm y, or_comm])]
      simp only [keepFirstOccurrences, List.filter_cons, hxu, not_false_eq_true, decide_True,
        if_true, List.filter_filter, List.append_assoc, List.singleton_append]
      congr 2
      apply List.filter_congr
      intro y _
      by_cases hy : y = x
      · subst hy; simp
      · simp [hy]

theorem uniq_eq_keepFirst (xs : List String) : uniq xs = keepFirstOccurrences xs := by
  unfold uniq
  rw [uniq_loop xs [] [] (by simp)]
  simp

theorem indexOf_filter_lt (p : String → Bool) (a b : String) (ha : p a = true) (hb : p b = true) :
    ∀ l : List String, a ∈ l → b ∈ l →
      ((l.filter p).indexOf a < (l.filter p).indexOf b ↔ l.indexOf a < l.indexOf b) := by
  intro l
  induction l with
  | nil => intro h; simp at h
  | cons y l ih =>
    intro hal hbl
    by_cases hay : a = y
    · subst hay
      simp only [List.filter_cons, ha, if_true, List.indexOf_cons_self]
      by_cases hba : b = a
      · subst hba; simp
      · simp [List.indexOf_cons_ne _ (Ne.symm hba)]
    · by_cases hby : b = y
      · subst hby
        simp only [List.filter_cons, hb, if_true, List.indexOf_cons_self]
        simp
      · have hal1 : a ∈ l := by simpa [hay] using hal
        have hbl1 : b ∈ l := by simpa [hby] using hbl
        rw [List.indexOf_cons_ne _ (Ne.symm hay), List.indexOf_cons_ne _ (Ne.symm hby)]
        by_cases hpy : p y = true
        · simp only [List.filter_cons, hpy, if_true]
          rw [List.indexOf_cons_ne _ (Ne.symm hay), List.indexOf_cons_ne _ (Ne.symm hby)]
          simpa using ih hal1 hbl1
        · simp only [List.filter_cons, hpy]
          simpa using ih hal1 hbl1

theorem indexOf_keepFirst_lt (a b : String) :
    ∀ xs : List String, a ∈ xs → b ∈ xs →
      ((keepFirstOccurrences xs).indexOf a < (keepFirstOccurrences xs).indexOf b
        ↔ xs.indexOf a < xs.indexOf b) := by
  intro xs
  induction xs with
  | nil => intro h; simp at h
  | cons x xs ih =>
    intro hal hbl
    simp only [keepFirstOccurrences]
    by_cases hax : a = x
    · subst hax
      simp only [List.indexOf_cons_self]
      by_cases hba : b = a
      · subst hba; simp
      · simp [List.indexOf_cons_ne _ (Ne.symm hba)]
    · by_cases hbx : b = x
      · subst hbx
        simp
      · have hal1 : a ∈ xs := by simpa [hax] using hal
        have hbl1 : b ∈ xs := by simpa [hbx] using hbl
        rw [List.indexOf_cons_ne _ (Ne.symm hax), List.indexOf_cons_ne _ (Ne.symm hbx),
          List.indexOf_cons_ne _ (Ne.symm hax), List.indexOf_cons_ne _ (Ne.symm hbx)]
        rw [Nat.succ_lt_succ_iff, Nat.succ_lt_succ_iff,
          indexOf_filter_lt _ a b (by simp [hax]) (by simp [hbx]) _
            ((mem_keepFirst xs a).2 hal1) ((mem_keepFirst xs b).2 hbl1)]
        exact ih hal1 hbl1

theorem uniq_stable_loop (xs : List String) :
    (uniq xs).Nodup ∧ ∀ a, a ∈ uniq xs ↔ a ∈ xs := by
  rw [uniq_eq_keepFirst]
  exact ⟨nodup_keepFirst xs, mem_keepFirst xs⟩

/-- C6: `uniq` is a stable deduplication. For every list of strings `xs` the
result has no repeated element, has exactly the members of `xs`, is a
subsequence of `xs`, is the list that keeps the first occurrence of every
element, and lists two members in the order of their first occurrences in
`xs`. -/
theorem uniq_stable_dedup (xs : List String) :
    (uniq xs).Nodup ∧ (∀ a, a ∈ uniq xs ↔ a ∈ xs) ∧ (uniq xs).Sublist xs ∧
      uniq xs = keepFirstOccurrences xs ∧
      (∀ a b, a ∈ xs → b ∈ xs →
        ((uniq xs).indexOf a < (uniq xs).indexOf b ↔ xs.indexOf a < xs.indexOf b)) := by
  rw [uniq_eq_keepFirst]
  exact ⟨nodup_keepFirst xs, mem_keepFirst xs, sublist_keepFirst xs, rfl,
    fun a b => indexOf_keepFirst_lt a b xs⟩

/-- Witness of C6 on a list with a repeated element. -/
theorem uniq_stable_dedup_witness :
    uniq ["read", "read", "write"] = ["read", "write"] ∧
      (uniq ["read", "read", "write"]).Nodup :=
  ⟨rfl, (uniq_stable_dedup ["read", "read", "write"]).1⟩

/-! ## Facts about the map of `scanRows` -/

theorem mapGet_eq_none {V : Type} (m : List (String × V)) (k : String) :
    mapGet m k = none ↔ k ∉ m.map Prod.fst := by
  induction m with
  | nil => simp [mapGet]
  | cons kv m ih =>
    obtain ⟨k1, v1⟩ := kv
    by_cases h : k1 = k
    · simp [mapGet, h]
    · simp [mapGet, h, ih, Ne.symm h]

theorem mapGet_mem {V : Type} (m : List (String × V)) (k : String) (v : V)
    (h : mapGet m k = some v) : (k, v) ∈ m := by
  induction m with
  | nil => simp [mapGet] at h
  | cons kv m ih =>
    obtain ⟨k1, v1⟩ := kv
    by_cases hk : k1 = k
    · simp [mapGet, hk] at h
      simp [hk, h]
    · simp [mapGet, hk] at h
      exact List.mem_cons_of_mem _ (ih h)

theorem mapSet_keys_of_mem {V : Type} (m : List (String × V)) (k : String) (v : V)
    (h : k ∈ m.map Prod.fst) : (mapSet m k v).map Prod.fst = m.map Prod.fst := by
  induction m with
  | nil => simp at h
  | cons kv m ih =>
    obtain ⟨k1, v1⟩ := kv
    by_cases hk : k1 = k
    · simp [mapSet, hk]
    · have : k ∈ m.map Prod.fst := by
        simp only [List.map_cons, List.mem_cons] at h
        rcases h with h | h
        · exact absurd h.symm hk
        · exact h
      simp [mapSet, hk, ih this]

theorem mapSet_keys_of_not_mem {V : Type} (m : List (String × V)) (k : String) (v : V)
    (h : k ∉ m.map Prod.fst) : (mapSet m k v).map Prod.fst = m.map Prod.fst ++ [k] := by
  induction m with
  | nil => simp [mapSet]
  | cons kv m ih =>
    obtain ⟨k1, v1⟩ := kv
    simp only [List.map_cons, List.mem_cons, not_or] at h
    simp [mapSet, Ne.symm h.1, ih h.2]

theorem mem_mapSet_self {V : Type} (m : List (String × V)) (k : String) (v : V) :
    (k, v) ∈ mapSet m k v := by
  induction m with
  | nil => simp [mapSet]
  | cons kv m ih =>
    obtain ⟨k1, v1⟩ := kv
    by_cases hk : k1 = k
    · simp [mapSet, hk]
    · simp [mapSet, hk, ih]

theorem mem_mapSet_of_ne {V : Type} (m : List (String × V)) (k : String) (v : V)
    (kv : String × V) (h : kv ∈ m) (hne : kv.1 ≠ k) : kv ∈ mapSet m k v := by
  induction m with
  | nil => simp at h
  | cons kv1 m ih =>
    obtain ⟨k1, v1⟩ := kv1
    by_cases hk : k1 = k
    · simp only [mapSet, hk, if_true]
      rcases List.mem_cons.1 h with h | h
      · subst h; exact absurd hk hne
      · exact List.mem_cons_of_mem _ h
    · simp only [mapSet, hk, if_false]
      rcases List.mem_cons.1 h with h | h
      · subst h; exact List.mem_cons_self _ _
      · exact List.mem_cons_of_mem _ (ih h)

theorem mem_mapSet {V : Type} (m : List (String × V)) (k : String) (v : V)
    (hnd : (m.map Prod.fst).Nodup) (kv : String × V) (h : kv ∈ mapSet m k v) :
    kv = (k, v) ∨ (kv ∈ m ∧ kv.1 ≠ k) := by
  induction m with
  | nil => simp [mapSet] at h; exact Or.inl h
  | cons kv1 m ih =>
    obtain ⟨k1, v1⟩ := kv1
    simp only [List.map_cons, List.nodup_cons] at hnd
    by_cases hk : k1 = k
    · simp only [mapSet, hk, if_true] at h
      rcases List.mem_cons.1 h with h | h
      · exact Or.inl h
      · right
        refine ⟨List.mem_cons_of_mem _ h, ?_⟩
        intro hkv
        apply hnd.1
        rw [hk, ← hkv]
        exact List.mem_map_of_mem _ h
    · simp only [mapSet, hk, if_false] at h
      rcases List.mem_cons.1 h with h | h
      · right
        subst h
        exact ⟨List.mem_cons_self _ _, hk⟩
      · rcases ih hnd.2 h with h1 | h1
        · exact Or.inl h1
        · exact Or.inr ⟨List.mem_cons_of_mem _ h1.1, h1.2⟩

theorem appendValid_eq (xs : List String) (x : Option String) :
    appendValid xs x = xs ++ (validNonEmpty x).toList := by
  unfold appendValid
  cases validNonEmpty x <;> simp

theorem seedValid_eq (x : Option String) : seedValid x = (validNonEmpty x).toList := by
  unfold seedValid
  cases validNonEmpty x <;> simp

theorem validNonEmpty_eq_some (x : Option String) (t : String) :
    validNonEmpty x = some t ↔ x = some t ∧ t ≠ "" := by
  unfold validNonEmpty
  cases x with
  | none => simp
  | some str =>
    by_cases h : str = ""
    · subst h; simp; intro h; exact h.symm
    · simp [h]
      intro h1; subst h1; exact h

theorem rowsOf_append (rows more : List Row) (k : String) :
    rowsOf (rows ++ more) k = rowsOf rows k ++ rowsOf more k := by
  simp [rowsOf]

theorem rowsOf_eq_nil (rows : List Row) (k : String) :
    rowsOf rows k = [] ↔ ¬ ∃ row ∈ rows, row.ID = k := by
  simp [rowsOf, List.filter_eq_nil_iff]

theorem mem_rowsOf (rows : List Row) (k : String) (row : Row) :
    row ∈ rowsOf rows k ↔ row ∈ rows ∧ row.ID = k := by
  simp [rowsOf]

theorem rowsOf_snoc_ne (pre : List Row) (row : Row) (k : String) (h : row.ID ≠ k) :
    rowsOf (pre ++ [row]) k = rowsOf pre k := by
  simp [rowsOf, List.filter_cons, h]

theorem rowsOf_snoc_self (pre : List Row) (row : Row) :
    rowsOf (pre ++ [row]) row.ID = rowsOf pre row.ID ++ [row] := by
  simp [rowsOf, List.filter_cons]

theorem Folds.snoc_ne {env : Env} {pre : List Row} {k : String} {v : DefaultPolicy}
    (h : Folds env pre k v) (row : Row) (hne : row.ID ≠ k) : Folds env (pre ++ [row]) k v := by
  have e := rowsOf_snoc_ne pre row k hne
  exact ⟨h.id, by rw [e]; exact h.first, by rw [e]; exact h.subjects,
    by rw [e]; exact h.actions, by rw [e]; exact h.resources⟩

theorem scanRow_ok_iff (env : Env) (f : Faults) (m : List (String × DefaultPolicy)) (row : Row) :
    (∃ m1, scanRow env f m row = .ok m1) ↔
      f.scan row = none ∧ env.Unmarshal row.CONDITIONS ≠ none := by
  unfold scanRow
  cases hs : f.scan row with
  | some e => cases e <;> simp
  | none =>
    cases hu : env.Unmarshal row.CONDITIONS with
    | none => simp
    | some conditions => cases hg : mapGet m row.ID <;> simp

theorem scanRow_inv (env : Env) (f : Faults) (pre : List Row) (m m1 : List (String × DefaultPolicy))
    (row : Row) (hinv : MapInv env pre m) (hok : scanRow env f m row = .ok m1) :
    MapInv env (pre ++ [row]) m1 := by
  unfold scanRow at hok
  cases hs : f.scan row with
  | some e => cases e <;> simp [hs] at hok
  | none =>
    cases hu : env.Unmarshal row.CONDITIONS with
    | none => simp [hs, hu] at hok
    | some conditions =>
      cases hg : mapGet m row.ID with
      | some c =>
        simp only [hs, hu, hg, Except.ok.injEq] at hok
        have hmem : (row.ID, c) ∈ m := mapGet_mem m row.ID c hg
        have hkey : row.ID ∈ m.map Prod.fst := List.mem_map_of_mem Prod.fst hmem
        have hc : Folds env pre row.ID c := hinv.folds _ hmem
        subst hok
        refine ⟨?_, ?_, ?_⟩
        · rw [mapSet_keys_of_mem m _ _ hkey]; exact hinv.nodup
        · intro k
          rw [mapSet_keys_of_mem m _ _ hkey, hinv.keys k]
          constructor
          · rintro ⟨r, hr, hk⟩
            exact ⟨r, List.mem_append_left _ hr, hk⟩
          · rintro ⟨r, hr, hk⟩
            rcases List.mem_append.1 hr with hr | hr
            · exact ⟨r, hr, hk⟩
            · simp only [List.mem_singleton] at hr
              subst hr
              exact (hinv.keys _).1 (hk ▸ hkey)
        · intro kv hkv
          rcases mem_mapSet m _ _ hinv.nodup kv hkv with h | h
          · subst h
            obtain ⟨r0, hr0, h1, h2, h3⟩ := hc.first
            refine ⟨hc.id, ⟨r0, ?_, h1, h2, h3⟩, ?_, ?_, ?_⟩
            · rw [rowsOf_snoc_self]
              cases hl : rowsOf pre row.ID with
              | nil => rw [hl] at hr0; simp at hr0
              | cons x xs => rw [hl] at hr0; simpa using hr0
            · simp only [rowsOf_snoc_self, appendValid_eq, hc.subjects, List.filterMap_append]
              cases hv : validNonEmpty row.SUBJECT <;> simp [List.filterMap_cons, hv]
            · simp only [rowsOf_snoc_self, appendValid_eq, hc.actions, List.filterMap_append]
              cases hv : validNonEmpty row.ACTION <;> simp [List.filterMap_cons, hv]
            · simp only [rowsOf_snoc_self, appendValid_eq, hc.resources, List.filterMap_append]
              cases hv : validNonEmpty row.RESOURCE <;> simp [List.filterMap_cons, hv]
          · exact (hinv.folds kv h.1).snoc_ne row (Ne.symm h.2)
      | none =>
        simp only [hs, hu, hg, Except.ok.injEq] at hok
        have hkey : row.ID ∉ m.map Prod.fst := (mapGet_eq_none m row.ID).1 hg
        have hnil : rowsOf pre row.ID = [] := by
          rw [rowsOf_eq_nil]
          exact fun h => hkey ((hinv.keys _).2 h)
        subst hok
        refine ⟨?_, ?_, ?_⟩
        · rw [mapSet_keys_of_not_mem m _ _ hkey]
          exact List.Nodup.append hinv.nodup (List.nodup_singleton _)
            (by simpa using hkey)
        · intro k
          rw [mapSet_keys_of_not_mem m _ _ hkey, List.mem_append, hinv.keys k]
          constructor
          · rintro (⟨r, hr, hk⟩ | hk)
            · exact ⟨r, List.mem_append_left _ hr, hk⟩
            · exact ⟨row, by simp, (List.mem_singleton.1 hk).symm⟩
          · rintro ⟨r, hr, hk⟩
            rcases List.mem_append.1 hr with hr | hr
            · exact Or.inl ⟨r, hr, hk⟩
            · simp only [List.mem_singleton] at hr
              subst hr
              exact Or.inr (by simp [hk])
        · intro kv hkv
          rcases mem_mapSet m _ _ hinv.nodup kv hkv with h | h
          · subst h
            refine ⟨rfl, ⟨row, ?_, rfl, rfl, hu⟩, ?_, ?_, ?_⟩
            · simp [rowsOf_snoc_self, hnil]
            · simp only [rowsOf_snoc_self, hnil, seedValid_eq]
              cases hv : validNonEmpty row.SUBJECT <;> simp [List.filterMap_cons, hv]
            · simp only [rowsOf_snoc_self, hnil, seedValid_eq]
              cases hv : validNonEmpty row.ACTION <;> simp [List.filterMap_cons, hv]
            · simp only [rowsOf_snoc_self, hnil, seedValid_eq]
              cases hv : validNonEmpty row.RESOURCE <;> simp [List.filterMap_cons, hv]
          · exact (hinv.folds kv h.1).snoc_ne row (Ne.symm h.2)

theorem scanLoop_inv (env : Env) (f : Faults) (rows : List Row) :
    ∀ (pre : List Row) (m m1 : List (String × DefaultPolicy)), MapInv env pre m →
      scanLoop env f m rows = .ok m1 → MapInv env (pre ++ rows) m1 := by
  induction rows with
  | nil =>
    intro pre m m1 hinv hok
    simp only [scanLoop, Except.ok.injEq] at hok
    subst hok
    simpa using hinv
  | cons row rows ih =>
    intro pre m m1 hinv hok
    simp only [scanLoop] at hok
    cases hstep : scanRow env f m row with
    | error e => simp [hstep] at hok
    | ok m2 =>
      simp only [hstep] at hok
      have := ih (pre ++ [row]) m2 m1 (scanRow_inv env f pre m m2 row hinv hstep) hok
      simpa using this

theorem scanLoop_ok_iff (env : Env) (f : Faults) (rows : List Row) :
    ∀ m : List (String × DefaultPolicy), (∃ m1, scanLoop env f m rows = .ok m1) ↔
      ∀ row ∈ rows, f.scan row = none ∧ env.Unmarshal row.CONDITIONS ≠ none := by
  induction rows with
  | nil => intro m; simp [scanLoop]
  | cons row rows ih =>
    intro m
    simp only [scanLoop, List.mem_cons, forall_eq_or_imp]
    cases hstep : scanRow env f m row with
    | error e =>
      have := (scanRow_ok_iff env f m row).not.1 (by simp [hstep])
      constructor
      · rintro ⟨_, h⟩; cases h
      · intro h; exact absurd h.1 this
    | ok m2 =>
      have := (scanRow_ok_iff env f m row).1 ⟨m2, hstep⟩
      simp only [ih m2]
      exact ⟨fun h => ⟨this, h⟩, fun h => h.2⟩

theorem mapInv_nil (env : Env) : MapInv env [] [] :=
  ⟨by simp, by simp, by simp⟩

/-- The map built by `scanRows`, and the result as its image. -/
theorem scanRows_ok (env : Env) (f : Faults) (rows : List Row) (ps : List DefaultPolicy)
    (h : scanRows env f rows = .ok ps) :
    ∃ m, MapInv env rows m ∧ ps = (env.mapOrder m).map fun kv => finish kv.2 := by
  unfold scanRows at h
  cases hl : scanLoop env f [] rows with
  | error e => simp [hl] at h
  | ok m =>
    simp only [hl, Except.ok.injEq] at h
    exact ⟨m, by simpa using scanLoop_inv env f rows [] [] m (mapInv_nil env) hl, h.symm⟩

theorem scanRows_ok_iff (env : Env) (f : Faults) (rows : List Row) :
    (∃ ps, scanRows env f rows = .ok ps) ↔
      ∀ row ∈ rows, f.scan row = none ∧ env.Unmarshal row.CONDITIONS ≠ none := by
  rw [← scanLoop_ok_iff env f rows []]
  unfold scanRows
  cases hl : scanLoop env f [] rows <;> simp

theorem head?_rowsOf (rows : List Row) (k : String) :
    (rowsOf rows k).head? = rows.find? fun row => decide (row.ID = k) := by
  induction rows with
  | nil => rfl
  | cons row rows ih =>
    by_cases h : row.ID = k
    · simp [rowsOf, List.filter_cons, List.find?_cons, h]
    · simp only [rowsOf, List.filter_cons, List.find?_cons, h, decide_False, Bool.false_eq_true, if_false]
      exact ih

theorem mem_filterMap_valid (rows : List Row) (k : String) (col : Row → Option String)
    (t : String) :
    t ∈ (rowsOf rows k).filterMap (fun row => validNonEmpty (col row)) ↔
      ∃ row ∈ rows, row.ID = k ∧ col row = some t ∧ t ≠ "" := by
  simp only [List.mem_filterMap, mem_rowsOf, validNonEmpty_eq_some]
  constructor
  · rintro ⟨row, ⟨h1, h2⟩, h3⟩
    exact ⟨row, h1, h2, h3⟩
  · rintro ⟨row, h1, h2, h3⟩
    exact ⟨row, ⟨h1, h2⟩, h3⟩

theorem mem_scanRows (env : Env) (m : List (String × DefaultPolicy)) (q : DefaultPolicy) :
    (q ∈ (env.mapOrder m).map fun kv => finish kv.2) ↔ ∃ kv ∈ m, q = finish kv.2 := by
  simp only [List.mem_map, (env.mapOrder_perm m).mem_iff]
  constructor
  · rintro ⟨kv, h1, h2⟩; exact ⟨kv, h1, h2.symm⟩
  · rintro ⟨kv, h1, h2⟩; exact ⟨kv, h1, h2.symm⟩

theorem scanRows_ids (env : Env) (rows : List Row) (m : List (String × DefaultPolicy))
    (hinv : MapInv env rows m) :
    (((env.mapOrder m).map fun kv => finish kv.2).map fun q => q.ID).Perm (m.map Prod.fst) := by
  rw [List.map_map]
  refine List.Perm.trans ((env.mapOrder_perm m).map _) ?_
  apply List.Perm.of_eq
  apply List.map_congr_left
  intro kv hkv
  simp [finish, (hinv.folds kv hkv).id]

/-- The fields of a policy of the result, in terms of the rows. -/
theorem scanRows_fields (env : Env) (f : Faults) (rows : List Row) (ps : List DefaultPolicy)
    (h : scanRows env f rows = .ok ps) (q : DefaultPolicy) (hq : q ∈ ps) :
    (∀ t, t ∈ q.Subjects ↔ ∃ row ∈ rows, row.ID = q.ID ∧ row.SUBJECT = some t ∧ t ≠ "") ∧
      (∀ t, t ∈ q.Actions ↔ ∃ row ∈ rows, row.ID = q.ID ∧ row.ACTION = some t ∧ t ≠ "") ∧
      (∀ t, t ∈ q.Resources ↔ ∃ row ∈ rows, row.ID = q.ID ∧ row.RESOURCE = some t ∧ t ≠ "") ∧
      ∃ r0 ∈ rows, r0.ID = q.ID ∧ q.Effect = r0.EFFECT ∧ q.Description = r0.DESCRIPTION ∧
        env.Unmarshal r0.CONDITIONS = some q.Conditions := by
  obtain ⟨m, hinv, rfl⟩ := scanRows_ok env f rows ps h
  obtain ⟨kv, hkv, rfl⟩ := (mem_scanRows env m q).1 hq
  have hf := hinv.folds kv hkv
  have hid : (finish kv.2).ID = kv.1 := by simpa [finish] using hf.id
  have hmem : ∀ (col : Row → Option String) (xs : List String) (t : String),
      xs = (rowsOf rows kv.1).filterMap (fun row => validNonEmpty (col row)) →
      (t ∈ uniq xs ↔ ∃ row ∈ rows, row.ID = kv.1 ∧ col row = some t ∧ t ≠ "") := by
    intro col xs t hxs
    rw [(uniq_stable_loop xs).2 t, hxs]
    exact mem_filterMap_valid rows kv.1 col t
  rw [hid]
  refine ⟨fun t => hmem (fun row => row.SUBJECT) _ t hf.subjects,
    fun t => hmem (fun row => row.ACTION) _ t hf.actions,
    fun t => hmem (fun row => row.RESOURCE) _ t hf.resources, ?_⟩
  obtain ⟨r0, h0, h1, h2, h3⟩ := hf.first
  have hr0 : r0 ∈ rowsOf rows kv.1 := List.mem_of_mem_head? h0
  exact ⟨r0, ((mem_rowsOf rows kv.1 r0).1 hr0).1, ((mem_rowsOf rows kv.1 r0).1 hr0).2, h1, h2, h3⟩

/-- The identifiers of the result are those of the rows, each once. -/
theorem scanRows_keys (env : Env) (f : Faults) (rows : List Row) (ps : List DefaultPolicy)
    (h : scanRows env f rows = .ok ps) :
    (ps.map fun q => q.ID).Nodup ∧
      ∀ k, k ∈ (ps.map fun q => q.ID) ↔ ∃ row ∈ rows, row.ID = k := by
  obtain ⟨m, hinv, rfl⟩ := scanRows_ok env f rows ps h
  have hperm := scanRows_ids env rows m hinv
  exact ⟨hperm.nodup_iff.2 hinv.nodup, fun k => by rw [hperm.mem_iff, hinv.keys k]⟩

/-- C4: the content of the fold. `scanRows` returns a result exactly when every
row scans and its conditions decode; in every policy `q` of the result the
subjects (actions, resources) are, as a set, the non-null non-empty subject
(action, resource) values of the rows with the identifier of `q`, and the
effect, description and conditions are those of the first such row. -/
theorem scanRows_content (env : Env) (f : Faults) (rows : List Row) :
    ((∃ ps, scanRows env f rows = .ok ps) ↔
        ∀ row ∈ rows, f.scan row = none ∧ env.Unmarshal row.CONDITIONS ≠ none) ∧
      ∀ ps, scanRows env f rows = .ok ps → ∀ q ∈ ps,
        (∀ t, t ∈ q.Subjects ↔ ∃ row ∈ rows, row.ID = q.ID ∧ row.SUBJECT = some t ∧ t ≠ "") ∧
        (∀ t, t ∈ q.Actions ↔ ∃ row ∈ rows, row.ID = q.ID ∧ row.ACTION = some t ∧ t ≠ "") ∧
        (∀ t, t ∈ q.Resources ↔
          ∃ row ∈ rows, row.ID = q.ID ∧ row.RESOURCE = some t ∧ t ≠ "") ∧
        ∃ r0, rows.find? (fun row => decide (row.ID = q.ID)) = some r0 ∧
          q.Effect = r0.EFFECT ∧ q.Description = r0.DESCRIPTION ∧
          env.Unmarshal r0.CONDITIONS = some q.Conditions := by
  refine ⟨scanRows_ok_iff env f rows, ?_⟩
  intro ps h q hq
  obtain ⟨m, hinv, rfl⟩ := scanRows_ok env f rows ps h
  obtain ⟨kv, hkv, rfl⟩ := (mem_scanRows env m q).1 hq
  have hf := hinv.folds kv hkv
  have hid : (finish kv.2).ID = kv.1 := by simpa [finish] using hf.id
  rw [hid]
  refine ⟨?_, ?_, ?_, ?_⟩
  · intro t
    simp only [finish, hf.subjects]
    rw [(uniq_stable_loop _).2 t]
    exact mem_filterMap_valid rows kv.1 (fun row => row.SUBJECT) t
  · intro t
    simp only [finish, hf.actions]
    rw [(uniq_stable_loop _).2 t]
    exact mem_filterMap_valid rows kv.1 (fun row => row.ACTION) t
  · intro t
    simp only [finish, hf.resources]
    rw [(uniq_stable_loop _).2 t]
    exact mem_filterMap_valid rows kv.1 (fun row => row.RESOURCE) t
  · obtain ⟨r0, h0, h1, h2, h3⟩ := hf.first
    exact ⟨r0, by rw [← head?_rowsOf]; exact h0, h1, h2, h3⟩

/-- Witness of C4 on `sampleRows`. -/
theorem scanRows_content_witness :
    scanRows sampleEnv Faults.none sampleRows = .ok [sampleFolded] ∧
      ∃ r0, sampleRows.find? (fun row => decide (row.ID = sampleFolded.ID)) = some r0 ∧
        sampleFolded.Effect = r0.EFFECT ∧ sampleFolded.Description = r0.DESCRIPTION ∧
        sampleEnv.Unmarshal r0.CONDITIONS = some sampleFolded.Conditions :=
  ⟨rfl, ((scanRows_content sampleEnv Faults.none sampleRows).2 [sampleFolded] rfl
    sampleFolded (List.mem_singleton.2 rfl)).2.2.2⟩

/-- C5: uniqueness in the fold. The result of `scanRows` holds exactly one policy
for every identifier that occurs in the rows, no template occurs twice in the
subjects, actions or resources of a policy, and each of these lists is the
deduplication of the values its rows carry: rows with the actions `read`,
`read`, `write` give the actions `read`, `write`. -/
theorem scanRows_unique (env : Env) (f : Faults) (rows : List Row) :
    ∀ ps, scanRows env f rows = .ok ps →
      (ps.map fun q => q.ID).Nodup ∧
      (∀ k, k ∈ (ps.map fun q => q.ID) ↔ ∃ row ∈ rows, row.ID = k) ∧
      (ps.map fun q => q.ID).Perm (rows.map fun row => row.ID).dedup ∧
      ∀ q ∈ ps, q.Subjects.Nodup ∧ q.Actions.Nodup ∧ q.Resources.Nodup ∧
        q.Actions = uniq ((rowsOf rows q.ID).filterMap fun row => validNonEmpty row.ACTION) ∧
        ((rowsOf rows q.ID).filterMap (fun row => validNonEmpty row.ACTION)
            = ["read", "read", "write"] → q.Actions = ["read", "write"]) := by
  intro ps h
  obtain ⟨m, hinv, rfl⟩ := scanRows_ok env f rows ps h
  have hperm := scanRows_ids env rows m hinv
  have hnd : (((env.mapOrder m).map fun kv => finish kv.2).map fun q => q.ID).Nodup :=
    hperm.nodup_iff.2 hinv.nodup
  have hkeys : ∀ k, k ∈ (((env.mapOrder m).map fun kv => finish kv.2).map fun q => q.ID) ↔
      ∃ row ∈ rows, row.ID = k := by
    intro k
    rw [hperm.mem_iff, hinv.keys k]
  refine ⟨hnd, hkeys, ?_, ?_⟩
  · apply (List.perm_ext_iff_of_nodup hnd (List.nodup_dedup _)).2
    intro k
    rw [hkeys k, List.mem_dedup, List.mem_map]
  · intro q hq
    obtain ⟨kv, hkv, rfl⟩ := (mem_scanRows env m q).1 hq
    have hf := hinv.folds kv hkv
    have hid : (finish kv.2).ID = kv.1 := by simpa [finish] using hf.id
    have hact : (finish kv.2).Actions
        = uniq ((rowsOf rows kv.1).filterMap fun row => validNonEmpty row.ACTION) := by
      simp [finish, hf.actions]
    rw [hid]
    refine ⟨?_, ?_, ?_, hact, ?_⟩
    · exact (uniq_stable_loop kv.2.Subjects).1
    · exact (uniq_stable_loop kv.2.Actions).1
    · exact (uniq_stable_loop kv.2.Resources).1
    · intro hrows
      rw [hact, hrows]
      decide

/-- Witness of C5 on `sampleRows`. -/
theorem scanRows_unique_witness :
    scanRows sampleEnv Faults.none sampleRows = .ok [sampleFolded] ∧
      ([sampleFolded].map fun q => q.ID).Nodup ∧ sampleFolded.Actions = ["read", "write"] :=
  ⟨rfl, (scanRows_unique sampleEnv Faults.none sampleRows [sampleFolded] rfl).1,
    ((scanRows_unique sampleEnv Faults.none sampleRows [sampleFolded] rfl).2.2.2
      sampleFolded (List.mem_singleton.2 rfl)).2.2.2.2 rfl⟩

/-! ## `GetAll` -/

theorem wrapInt64_of_isInt64 (x : Int) (h : IsInt64 x) : wrapInt64 x = x := by
  unfold IsInt64 at h
  unfold wrapInt64
  rw [Int.emod_eq_of_lt (by omega) (by omega)]
  omega

theorem sliceExpr_all {α : Type} (xs : List α) : sliceExpr xs 0 (xs.length : Int) = some xs := by
  simp [sliceExpr]

/-- What `GetAll` does once the query has been folded into `pols`. -/
theorem GetAll_eq (env : Env) (f : Faults) (db : Store) (limit offset : Int)
    (pols : List DefaultPolicy) (hq : f.query = none)
    (hpols : scanRows env f (env.rowOrder (policyGetAllQuery db)) = .ok pols) :
    GetAll env f db limit offset =
      if wrapInt64 (offset + limit) > (pols.length : Int) then .ok pols
      else match sliceExpr pols offset limit with
        | none => .error .sliceBounds
        | some page => .ok page := by
  unfold GetAll
  simp only [hq, hpols]
  by_cases h : wrapInt64 (offset + limit) > (pols.length : Int)
  · simp [h, sliceExpr_all]
  · simp [h]

/-- The clamp of `GetAll` where the sum `offset + limit` does not overflow. -/
theorem GetAll_clamp (env : Env) (f : Faults) (db : Store) (limit offset : Int)
    (pols : List DefaultPolicy) (hq : f.query = none)
    (hpols : scanRows env f (env.rowOrder (policyGetAllQuery db)) = .ok pols)
    (hsum : offset + limit > (pols.length : Int)) (hfit : IsInt64 (offset + limit)) :
    GetAll env f db limit offset = .ok pols := by
  rw [GetAll_eq env f db limit offset pols hq hpols, wrapInt64_of_isInt64 _ hfit]
  simp [hsum]

set_option maxRecDepth 100000 in
/-- C7 fails on the code: on the two stored policies `A`, `B`, the page
`limit = 1, offset = 1` satisfies `offset + limit <= 2` and should be the one
policy at position `1`, but `pols[offset:limit]` is the empty `pols[1:1]`; the
page `limit = 0, offset = 1` should be empty, but `pols[1:0]` is out of range. -/
theorem GetAll_page_slip :
    scanRows sampleEnv Faults.none (sampleEnv.rowOrder (policyGetAllQuery storeAB))
        = .ok [foldedA, foldedB] ∧
      GetAll sampleEnv Faults.none storeAB 1 1 = .ok [] ∧
      GetAll sampleEnv Faults.none storeAB 0 1 = .error .sliceBounds :=
  ⟨rfl, rfl, rfl⟩

set_option maxRecDepth 100000 in
/-- C8 fails on the code where the sum overflows: with `limit = 2^63 - 1` and
`offset = 1` the `int64` sum wraps to `-2^63`, the clamp is skipped and the
slice `pols[1:2^63-1]` is out of range, although `offset + limit > 2`. -/
theorem GetAll_clamp_overflow :
    scanRows sampleEnv Faults.none (sampleEnv.rowOrder (policyGetAllQuery storeAB))
        = .ok [foldedA, foldedB] ∧
      IsInt64 9223372036854775807 ∧ wrapInt64 (1 + 9223372036854775807) = -9223372036854775808 ∧
      GetAll sampleEnv Faults.none storeAB 9223372036854775807 1 = .error .sliceBounds ∧
      GetAll sampleEnv Faults.none storeAB 1000 0 = .ok [foldedA, foldedB] :=
  ⟨rfl, by decide, by decide, rfl, rfl⟩

/-! ## The two queries -/

theorem mem_leftJoin_some {β : Type} (tbl : List β) (cond : β → Bool) (y : β) :
    some y ∈ leftJoin tbl cond ↔ y ∈ tbl ∧ cond y = true := by
  unfold leftJoin
  cases h : tbl.filter cond with
  | nil =>
    simp only [List.mem_singleton]
    constructor
    · intro h1; cases h1
    · intro h1
      have : y ∈ tbl.filter cond := List.mem_filter.2 h1
      rw [h] at this; simp at this
  | cons m ms =>
    have e : some y ∈ (m :: ms).map some ↔ y ∈ m :: ms := by
      simp only [List.mem_map, Option.some.injEq, exists_eq_right]
    rw [e, ← h, List.mem_filter]

theorem mem_leftJoin_none {β : Type} (tbl : List β) (cond : β → Bool) :
    none ∈ leftJoin tbl cond ↔ ∀ y ∈ tbl, cond y = false := by
  unfold leftJoin
  cases h : tbl.filter cond with
  | nil =>
    simp only [List.mem_singleton, true_iff]
    intro y hy
    by_contra hc
    have : y ∈ tbl.filter cond := List.mem_filter.2 ⟨hy, by simpa using hc⟩
    rw [h] at this; simp at this
  | cons m ms =>
    have hm : m ∈ tbl.filter cond := by rw [h]; exact List.mem_cons_self _ _
    have hm2 := List.mem_filter.1 hm
    simp only [List.mem_map, reduceCtorEq, and_false, exists_false, false_iff]
    intro hall
    rw [hall m hm2.1] at hm2
    exact absurd hm2.2 (by simp)

theorem exists_mem_leftJoin {β : Type} (tbl : List β) (cond : β → Bool) :
    ∃ x, x ∈ leftJoin tbl cond := by
  unfold leftJoin
  cases h : tbl.filter cond with
  | nil => exact ⟨none, by simp⟩
  | cons m ms => exact ⟨some m, by simp⟩

theorem mem_policyGetAllQuery (db : Store) (row : Row) :
    row ∈ policyGetAllQuery db ↔
      ∃ p ∈ db.p, ∃ rs ∈ leftJoin db.sr (fun rs => decide (rs.POLICY = p.ID)),
        ∃ ra ∈ leftJoin db.ar (fun ra => decide (ra.POLICY = p.ID)),
        ∃ rr ∈ leftJoin db.rr (fun rr => decide (rr.POLICY = p.ID)),
        ∃ ts ∈ leftJoin db.s (linkOn rs), ∃ ta ∈ leftJoin db.a (linkOn ra),
        ∃ tr ∈ leftJoin db.r (linkOn rr), selectRow p ts tr ta = row := by
  simp only [policyGetAllQuery, List.mem_flatMap, List.mem_map]

theorem mem_candidatesQuery (env : Env) (db : Store) (subject : String) (row : Row) :
    row ∈ candidatesQuery env db subject ↔
      ∃ p ∈ db.p, ∃ rs ∈ innerJoin db.sr (fun rs => decide (rs.POLICY = p.ID)),
        ∃ ra ∈ leftJoin db.ar (fun ra => decide (ra.POLICY = p.ID)),
        ∃ rr ∈ leftJoin db.rr (fun rr => decide (rr.POLICY = p.ID)),
        ∃ ts ∈ innerJoin db.s (linkOn (some rs)), ∃ ta ∈ leftJoin db.a (linkOn ra),
        ∃ tr ∈ leftJoin db.r (linkOn rr),
          subjectMatches env subject ts = true ∧ selectRow p (some ts) tr ta = row := by
  simp only [candidatesQuery, List.mem_flatMap]
  constructor
  · rintro ⟨p, hp, rs, hrs, ra, hra, rr, hrr, ts, hts, ta, hta, tr, htr, h⟩
    refine ⟨p, hp, rs, hrs, ra, hra, rr, hrr, ts, hts, ta, hta, tr, htr, ?_⟩
    by_cases hm : subjectMatches env subject ts = true
    · simp only [hm, if_true, List.mem_singleton] at h
      exact ⟨hm, h.symm⟩
    · simp [hm] at h
  · rintro ⟨p, hp, rs, hrs, ra, hra, rr, hrr, ts, hts, ta, hta, tr, htr, hm, h⟩
    refine ⟨p, hp, rs, hrs, ra, hra, rr, hrr, ts, hts, ta, hta, tr, htr, ?_⟩
    simp [hm, h]

/-- A nullable link row that the left join with a link table of the policy
`id` produces, followed by the left join with the template table. -/
theorem leftJoin_linked (rel : List LinkRow) (tpl : List TemplateRow) (id t : String) :
    (∃ l ∈ leftJoin rel (fun l => decide (l.POLICY = id)), ∃ x ∈ leftJoin tpl (linkOn l),
        x.map (fun tr => tr.TEMPLATE) = some t) ↔
      ∃ l ∈ rel, l.POLICY = id ∧ ∃ tr ∈ tpl, tr.ID = l.TEMPLATE_ID ∧ tr.TEMPLATE = t := by
  constructor
  · rintro ⟨l, hl, x, hx, hxt⟩
    cases x with
    | none => simp at hxt
    | some tr =>
      have h1 := (mem_leftJoin_some _ _ _).1 hx
      cases l with
      | none => simp [linkOn] at h1
      | some l =>
        have h2 := (mem_leftJoin_some _ _ _).1 hl
        simp only [linkOn, decide_eq_true_eq] at h1 h2
        simp only [Option.map_some', Option.some.injEq] at hxt
        exact ⟨l, h2.1, h2.2, tr, h1.1, h1.2.symm, hxt⟩
  · rintro ⟨l, hl, hid, tr, htr, h1, h2⟩
    refine ⟨some l, (mem_leftJoin_some _ _ _).2 ⟨hl, by simpa using hid⟩, some tr,
      (mem_leftJoin_some _ _ _).2 ⟨htr, by simpa [linkOn] using h1.symm⟩, by simp [h2]⟩

/-! ## `Create` leaves the committed tables alone when it fails -/

theorem Tx.Exec_base (f : Faults) (tx tx1 : Tx) (stmt : Store → Except Error Store)
    (h : tx.Exec f stmt = .ok tx1) : tx1.base = tx.base := by
  unfold Tx.Exec at h
  by_cases hf : f.exec tx.n = true
  · simp [hf] at h
  · cases hs : stmt tx.work with
    | error e => simp [hf, hs] at h
    | ok work =>
      simp only [hf, hs, Bool.false_eq_true, if_false, Except.ok.injEq] at h
      rw [← h]

theorem createTemplates_base (env : Env) (f : Faults) (policy : Policy) (d : Dim)
    (ts : List String) :
    ∀ tx : Tx,
      (∀ tx1, createTemplates env f policy d ts tx = .ok tx1 →
        tx1.base = tx.base ∧
          ∀ t ∈ ts, env.CompileRegex t policy.StartDelimiter policy.EndDelimiter ≠ none) ∧
      (∀ e, createTemplates env f policy d ts tx = .error e → e.2 = tx.base) := by
  induction ts with
  | nil =>
    intro tx
    simp [createTemplates]
  | cons t rest ih =>
    intro tx
    simp only [createTemplates]
    cases hc : env.CompileRegex t policy.StartDelimiter policy.EndDelimiter with
    | none => simp [Tx.Rollback]
    | some compiled =>
      simp only
      cases h1 : tx.Exec f (insertTemplate d
          { ID := env.sha256Hex t
            TEMPLATE := t
            COMPILED := compiled
            HAS_REGEX :=
              decide (stringsIndex t (String.singleton policy.StartDelimiter) > -1) }) with
      | error e => simp [Tx.Rollback]
      | ok tx1 =>
        have b1 := Tx.Exec_base f tx tx1 _ h1
        simp only
        cases h2 : tx1.Exec f (insertLink d { POLICY := policy.ID, TEMPLATE_ID := env.sha256Hex t }) with
        | error e => simp [Tx.Rollback, b1]
        | ok tx2 =>
          have b2 := Tx.Exec_base f tx1 tx2 _ h2
          simp only
          obtain ⟨ih1, ih2⟩ := ih tx2
          constructor
          · intro tx3 h3
            obtain ⟨hb, hcs⟩ := ih1 tx3 h3
            refine ⟨by rw [hb, b2, b1], ?_⟩
            intro t1 ht1
            rcases List.mem_cons.1 ht1 with h | h
            · subst h; simp [hc]
            · exact hcs t1 h
          · intro e he
            rw [ih2 e he, b2, b1]

theorem createRelations_base (env : Env) (f : Faults) (policy : Policy)
    (vs : List (List String × Dim)) :
    ∀ tx : Tx,
      (∀ tx1, createRelations env f policy vs tx = .ok tx1 →
        tx1.base = tx.base ∧ ∀ v ∈ vs, ∀ t ∈ v.1,
          env.CompileRegex t policy.StartDelimiter policy.EndDelimiter ≠ none) ∧
      (∀ e, createRelations env f policy vs tx = .error e → e.2 = tx.base) := by
  induction vs with
  | nil =>
    intro tx
    simp [createRelations]
  | cons v rest ih =>
    intro tx
    simp only [createRelations]
    obtain ⟨c1, c2⟩ := createTemplates_base env f policy v.2 v.1 tx
    cases h1 : createTemplates env f policy v.2 v.1 tx with
    | error e =>
      simp only
      constructor
      · intro tx1 h
        cases h
      · intro e1 h
        cases h
        exact c2 e h1
    | ok tx1 =>
      simp only
      obtain ⟨hb, hcs⟩ := c1 tx1 h1
      obtain ⟨ih1, ih2⟩ := ih tx1
      constructor
      · intro tx2 h2
        obtain ⟨hb2, hcs2⟩ := ih1 tx2 h2
        refine ⟨by rw [hb2, hb], ?_⟩
        intro v1 hv1
        rcases List.mem_cons.1 hv1 with h | h
        · subst h; exact hcs
        · exact hcs2 v1 h
      · intro e he
        rw [ih2 e he, hb]

/-- C3: `Create` is all-or-nothing. Whatever the driver does, when `Create`
returns an error the committed tables are those before the call; and when one
of the subject, action or resource templates fails to compile, `Create` does
return an error. -/
theorem Create_all_or_nothing (env : Env) (f : Faults) (db : Store) (policy : Policy) :
    ((Create env f db policy).1 ≠ none → (Create env f db policy).2 = db) ∧
      ((∃ d, ∃ t ∈ policy.templates d,
          env.CompileRegex t policy.StartDelimiter policy.EndDelimiter = none) →
        (Create env f db policy).1 ≠ none ∧ (Create env f db policy).2 = db) := by
  have key : ((Create env f db policy).1 ≠ none → (Create env f db policy).2 = db) ∧
      ((Create env f db policy).1 = none → ∀ d, ∀ t ∈ policy.templates d,
          env.CompileRegex t policy.StartDelimiter policy.EndDelimiter ≠ none) := by
    unfold Create
    cases hc : conditionsOf env policy with
    | none => simp
    | some conditions =>
      simp only
      cases hb : Begin f db with
      | error e => simp
      | ok tx =>
        have hbase : tx.base = db := by
          unfold Begin at hb
          by_cases hf : f.begin = true
          · simp [hf] at hb
          · simp only [hf, Bool.false_eq_true, if_false, Except.ok.injEq] at hb
            rw [← hb]
        simp only
        cases h1 : tx.Exec f (insertPolicy
            { ID := policy.ID
              DESCRIPTION := policy.Description
              EFFECT := policy.Effect
              CONDITIONS := conditions }) with
        | error e => simp [Tx.Rollback, hbase]
        | ok tx1 =>
          have b1 := Tx.Exec_base f tx tx1 _ h1
          simp only
          obtain ⟨c1, c2⟩ := createRelations_base env f policy (relations policy) tx1
          cases h2 : createRelations env f policy (relations policy) tx1 with
          | error e =>
            simp only
            exact ⟨fun _ => by rw [c2 e h2, b1, hbase], by simp⟩
          | ok tx2 =>
            obtain ⟨hb2, hcs⟩ := c1 tx2 h2
            simp only
            cases h3 : tx2.Commit f with
            | error e => simp [Tx.Rollback, hb2, b1, hbase]
            | ok committed =>
              simp only [ne_eq, not_true_eq_false, false_implies, true_and, forall_const]
              intro d t ht
              cases d with
              | a => exact hcs (policy.Actions, .a) (by simp [relations]) t ht
              | r => exact hcs (policy.Resources, .r) (by simp [relations]) t ht
              | s => exact hcs (policy.Subjects, .s) (by simp [relations]) t ht
  refine ⟨key.1, ?_⟩
  rintro ⟨d, t, ht, hnone⟩
  have hne : (Create env f db policy).1 ≠ none := by
    intro h
    exact key.2 h d t ht hnone
  exact ⟨hne, key.1 hne⟩

set_option maxRecDepth 100000 in
/-- Witness of C3: the subject template `a<b` of `policyBad` does not compile;
`Create` on the tables of `storeAB` returns the compile error after the action
and resource rows have been written in the transaction, and the tables are
unchanged. -/
theorem Create_all_or_nothing_witness :
    (sampleEnv.CompileRegex "a<b" '<' '>' = none) ∧
      (Create sampleEnv Faults.none storeAB policyBad).1 = some Error.compile ∧
      (Create sampleEnv Faults.none storeAB policyBad).2 = storeAB :=
  ⟨rfl, rfl, ((Create_all_or_nothing sampleEnv Faults.none storeAB policyBad).2
    ⟨Dim.s, "a<b", List.mem_singleton.2 rfl, rfl⟩).2⟩

theorem query_scalars (db : Store) (row : Row) (h : row ∈ policyGetAllQuery db) :
    ∃ p ∈ db.p, row.ID = p.ID ∧ row.EFFECT = p.EFFECT ∧ row.DESCRIPTION = p.DESCRIPTION ∧
      row.CONDITIONS = p.CONDITIONS := by
  obtain ⟨p, hp, rs, _, ra, _, rr, _, ts, _, ta, _, tr, _, rfl⟩ :=
    (mem_policyGetAllQuery db row).1 h
  exact ⟨p, hp, rfl, rfl, rfl, rfl⟩

theorem query_has_row (db : Store) (p : PolicyRow) (hp : p ∈ db.p) :
    ∃ row ∈ policyGetAllQuery db, row.ID = p.ID := by
  obtain ⟨rs, hrs⟩ := exists_mem_leftJoin db.sr (fun rs => decide (rs.POLICY = p.ID))
  obtain ⟨ra, hra⟩ := exists_mem_leftJoin db.ar (fun ra => decide (ra.POLICY = p.ID))
  obtain ⟨rr, hrr⟩ := exists_mem_leftJoin db.rr (fun rr => decide (rr.POLICY = p.ID))
  obtain ⟨ts, hts⟩ := exists_mem_leftJoin db.s (linkOn rs)
  obtain ⟨ta, hta⟩ := exists_mem_leftJoin db.a (linkOn ra)
  obtain ⟨tr, htr⟩ := exists_mem_leftJoin db.r (linkOn rr)
  exact ⟨selectRow p ts tr ta,
    (mem_policyGetAllQuery db _).2 ⟨p, hp, rs, hrs, ra, hra, rr, hrr, ts, hts, ta, hta, tr, htr, rfl⟩,
    rfl⟩

theorem query_subject (db : Store) (id t : String) :
    (∃ row ∈ policyGetAllQuery db, row.ID = id ∧ row.SUBJECT = some t) ↔
      (∃ p ∈ db.p, p.ID = id) ∧ Linked db .s id t := by
  constructor
  · rintro ⟨row, hrow, hid, hcol⟩
    obtain ⟨p, hp, rs, hrs, ra, _, rr, _, ts, hts, ta, _, tr, _, rfl⟩ :=
      (mem_policyGetAllQuery db row).1 hrow
    have hid1 : p.ID = id := hid
    subst hid1
    exact ⟨⟨p, hp, rfl⟩, (leftJoin_linked db.sr db.s p.ID t).1 ⟨rs, hrs, ts, hts, hcol⟩⟩
  · rintro ⟨⟨p, hp, hid⟩, hl⟩
    subst hid
    obtain ⟨rs, hrs, ts, hts, hcol⟩ := (leftJoin_linked db.sr db.s p.ID t).2 hl
    obtain ⟨ra, hra⟩ := exists_mem_leftJoin db.ar (fun ra => decide (ra.POLICY = p.ID))
    obtain ⟨rr, hrr⟩ := exists_mem_leftJoin db.rr (fun rr => decide (rr.POLICY = p.ID))
    obtain ⟨ta, hta⟩ := exists_mem_leftJoin db.a (linkOn ra)
    obtain ⟨tr, htr⟩ := exists_mem_leftJoin db.r (linkOn rr)
    exact ⟨selectRow p ts tr ta,
      (mem_policyGetAllQuery db _).2
        ⟨p, hp, rs, hrs, ra, hra, rr, hrr, ts, hts, ta, hta, tr, htr, rfl⟩,
      rfl, hcol⟩

theorem query_action (db : Store) (id t : String) :
    (∃ row ∈ policyGetAllQuery db, row.ID = id ∧ row.ACTION = some t) ↔
      (∃ p ∈ db.p, p.ID = id) ∧ Linked db .a id t := by
  constructor
  · rintro ⟨row, hrow, hid, hcol⟩
    obtain ⟨p, hp, rs, _, ra, hra, rr, _, ts, _, ta, hta, tr, _, rfl⟩ :=
      (mem_policyGetAllQuery db row).1 hrow
    have hid1 : p.ID = id := hid
    subst hid1
    exact ⟨⟨p, hp, rfl⟩, (leftJoin_linked db.ar db.a p.ID t).1 ⟨ra, hra, ta, hta, hcol⟩⟩
  · rintro ⟨⟨p, hp, hid⟩, hl⟩
    subst hid
    obtain ⟨ra, hra, ta, hta, hcol⟩ := (leftJoin_linked db.ar db.a p.ID t).2 hl
    obtain ⟨rs, hrs⟩ := exists_mem_leftJoin db.sr (fun rs => decide (rs.POLICY = p.ID))
    obtain ⟨rr, hrr⟩ := exists_mem_leftJoin db.rr (fun rr => decide (rr.POLICY = p.ID))
    obtain ⟨ts, hts⟩ := exists_mem_leftJoin db.s (linkOn rs)
    obtain ⟨tr, htr⟩ := exists_mem_leftJoin db.r (linkOn rr)
    exact ⟨selectRow p ts tr ta,
      (mem_policyGetAllQuery db _).2
        ⟨p, hp, rs, hrs, ra, hra, rr, hrr, ts, hts, ta, hta, tr, htr, rfl⟩,
      rfl, hcol⟩

theorem query_resource (db : Store) (id t : String) :
    (∃ row ∈ policyGetAllQuery db, row.ID = id ∧ row.RESOURCE = some t) ↔
      (∃ p ∈ db.p, p.ID = id) ∧ Linked db .r id t := by
  constructor
  · rintro ⟨row, hrow, hid, hcol⟩
    obtain ⟨p, hp, rs, _, ra, _, rr, hrr, ts, _, ta, _, tr, htr, rfl⟩ :=
      (mem_policyGetAllQuery db row).1 hrow
    have hid1 : p.ID = id := hid
    subst hid1
    exact ⟨⟨p, hp, rfl⟩, (leftJoin_linked db.rr db.r p.ID t).1 ⟨rr, hrr, tr, htr, hcol⟩⟩
  · rintro ⟨⟨p, hp, hid⟩, hl⟩
    subst hid
    obtain ⟨rr, hrr, tr, htr, hcol⟩ := (leftJoin_linked db.rr db.r p.ID t).2 hl
    obtain ⟨rs, hrs⟩ := exists_mem_leftJoin db.sr (fun rs => decide (rs.POLICY = p.ID))
    obtain ⟨ra, hra⟩ := exists_mem_leftJoin db.ar (fun ra => decide (ra.POLICY = p.ID))
    obtain ⟨ts, hts⟩ := exists_mem_leftJoin db.s (linkOn rs)
    obtain ⟨ta, hta⟩ := exists_mem_leftJoin db.a (linkOn ra)
    exact ⟨selectRow p ts tr ta,
      (mem_policyGetAllQuery db _).2
        ⟨p, hp, rs, hrs, ra, hra, rr, hrr, ts, hts, ta, hta, tr, htr, rfl⟩,
      rfl, hcol⟩

/-! ## `Get` -/

/-- The rows that `Get` hands to `scanRows`. -/
theorem mem_selected (env : Env) (db : Store) (id : String) (row : Row) :
    row ∈ env.rowOrder ((policyGetAllQuery db).filter fun row => decide (row.ID = id)) ↔
      row ∈ policyGetAllQuery db ∧ row.ID = id := by
  rw [(env.rowOrder_perm _).mem_iff, List.mem_filter]
  simp

theorem scanRows_nil_iff (env : Env) (f : Faults) (rows : List Row) :
    scanRows env f rows = .ok [] ↔ rows = [] := by
  constructor
  · intro h
    have hk := (scanRows_keys env f rows [] h).2
    cases rows with
    | nil => rfl
    | cons row rest =>
      have := (hk row.ID).2 ⟨row, List.mem_cons_self _ _, rfl⟩
      simp at this
  · intro h
    subst h
    have hperm := env.mapOrder_perm []
    simp [scanRows, scanLoop, List.Perm.eq_nil hperm]

theorem scanRows_error (env : Env) (f : Faults) (rows : List Row) (e : Error)
    (hs : ∀ row, f.scan row = none) (h : scanRows env f rows = .error e) : e = .unmarshal := by
  have key : ∀ (rows : List Row) (m : List (String × DefaultPolicy)),
      scanLoop env f m rows = .error e → e = .unmarshal := by
    intro rows
    induction rows with
    | nil => intro m h; simp [scanLoop] at h
    | cons row rest ih =>
      intro m h
      simp only [scanLoop] at h
      cases hstep : scanRow env f m row with
      | error e1 =>
        simp only [hstep, Except.error.injEq] at h
        subst h
        unfold scanRow at hstep
        simp only [hs row] at hstep
        cases hu : env.Unmarshal row.CONDITIONS with
        | none => simpa [hu] using hstep.symm
        | some c => cases hg : mapGet m row.ID <;> simp [hu, hg] at hstep
      | ok m1 =>
        simp only [hstep] at h
        exact ih m1 h
  unfold scanRows at h
  cases hl : scanLoop env f [] rows with
  | error e1 =>
    simp only [hl, Except.error.injEq] at h
    subst h
    exact key rows [] hl
  | ok m => simp [hl] at h

theorem selected_eq_nil_iff (env : Env) (db : Store) (id : String) :
    env.rowOrder ((policyGetAllQuery db).filter fun row => decide (row.ID = id)) = [] ↔
      ∀ p ∈ db.p, p.ID ≠ id := by
  rw [List.eq_nil_iff_forall_not_mem]
  constructor
  · intro h p hp hid
    obtain ⟨row, hrow, hrid⟩ := query_has_row db p hp
    exact h row ((mem_selected env db id row).2 ⟨hrow, hrid.trans hid⟩)
  · intro h row hrow
    obtain ⟨hq, hid⟩ := (mem_selected env db id row).1 hrow
    obtain ⟨p, hp, hpid, _⟩ := query_scalars db row hq
    exact h p hp (hpid ▸ hid)

/-- The identifiers in a fold of the rows selected for `id` are all `id`. -/
theorem selected_ids (env : Env) (f : Faults) (db : Store) (id : String)
    (ps : List DefaultPolicy)
    (h : scanRows env f
      (env.rowOrder ((policyGetAllQuery db).filter fun row => decide (row.ID = id))) = .ok ps) :
    (ps.map fun q => q.ID).Nodup ∧ ∀ q ∈ ps, q.ID = id := by
  obtain ⟨hnd, hkeys⟩ := scanRows_keys env f _ ps h
  refine ⟨hnd, ?_⟩
  intro q hq
  obtain ⟨row, hrow, hrid⟩ := (hkeys q.ID).1 (List.mem_map_of_mem (fun q => q.ID) hq)
  rw [← hrid]
  exact ((mem_selected env db id row).1 hrow).2

/-- C9: `Get` and `NotFound`. With a driver that answers the query and scans
every row, `Get(id)` returns the `NotFound` error exactly when the rows
selected for `id` fold into zero policies, which happens exactly when no
policy row has the identifier `id`; when the rows fold into policies, they
fold into one policy, its identifier is `id` and `Get(id)` returns it without
error; and the rows do fold when the conditions stored under `id` decode. -/
theorem Get_notFound_iff (env : Env) (f : Faults) (db : Store) (id : String)
    (hq : f.query = none) (hs : ∀ row, f.scan row = none) :
    (Get env f db id = .error .notFound ↔
        scanRows env f
          (env.rowOrder ((policyGetAllQuery db).filter fun row => decide (row.ID = id)))
          = .ok []) ∧
      (scanRows env f
          (env.rowOrder ((policyGetAllQuery db).filter fun row => decide (row.ID = id)))
          = .ok [] ↔ ∀ p ∈ db.p, p.ID ≠ id) ∧
      (∀ ps, scanRows env f
          (env.rowOrder ((policyGetAllQuery db).filter fun row => decide (row.ID = id)))
          = .ok ps → ps ≠ [] → ∃ q, ps = [q] ∧ Get env f db id = .ok q ∧ q.ID = id) ∧
      ((∃ p ∈ db.p, p.ID = id) →
        (∀ p ∈ db.p, p.ID = id → env.Unmarshal p.CONDITIONS ≠ none) →
        ∃ q, Get env f db id = .ok q ∧ q.ID = id) := by
  have hb := (scanRows_nil_iff env f
    (env.rowOrder ((policyGetAllQuery db).filter fun row => decide (row.ID = id)))).trans
    (selected_eq_nil_iff env db id)
  have hc : ∀ ps, scanRows env f
      (env.rowOrder ((policyGetAllQuery db).filter fun row => decide (row.ID = id)))
      = .ok ps → ps ≠ [] → ∃ q, ps = [q] ∧ Get env f db id = .ok q ∧ q.ID = id := by
    intro ps hps hne
    obtain ⟨hnd, hids⟩ := selected_ids env f db id ps hps
    cases ps with
    | nil => exact absurd rfl hne
    | cons q rest =>
      refine ⟨q, ?_, by unfold Get; simp only [hq, hps], hids q (List.mem_cons_self _ _)⟩
      cases rest with
      | nil => rfl
      | cons q2 rest2 =>
        have e1 := hids q (List.mem_cons_self _ _)
        have e2 := hids q2 (List.mem_cons_of_mem _ (List.mem_cons_self _ _))
        simp only [List.map_cons, List.nodup_cons, List.mem_cons, not_or] at hnd
        exact absurd (e1.trans e2.symm) hnd.1.1
  refine ⟨?_, hb, hc, ?_⟩
  · unfold Get
    simp only [hq]
    cases hsr : scanRows env f
        (env.rowOrder ((policyGetAllQuery db).filter fun row => decide (row.ID = id))) with
    | error e =>
      have := scanRows_error env f _ e hs hsr
      subst this
      simp
    | ok ps =>
      cases ps with
      | nil => simp
      | cons q rest => simp
  · rintro ⟨p, hp, hid⟩ hdec
    have hall : ∀ row ∈ env.rowOrder
        ((policyGetAllQuery db).filter fun row => decide (row.ID = id)),
        f.scan row = none ∧ env.Unmarshal row.CONDITIONS ≠ none := by
      intro row hrow
      obtain ⟨hrq, hrid⟩ := (mem_selected env db id row).1 hrow
      obtain ⟨p1, hp1, h1, _, _, h4⟩ := query_scalars db row hrq
      exact ⟨hs row, by rw [h4]; exact hdec p1 hp1 (h1 ▸ hrid)⟩
    obtain ⟨ps, hps⟩ := (scanRows_ok_iff env f _).2 hall
    have hne : ps ≠ [] := by
      intro h
      subst h
      exact hb.1 hps p hp hid
    obtain ⟨q, _, hget, hqid⟩ := hc ps hps hne
    exact ⟨q, hget, hqid⟩

set_option maxRecDepth 100000 in
/-- Witness of C9 on `storeAB` with a healthy driver: the identifier `A` is
stored and returned, the identifier `Z` is not stored and gives `NotFound`. -/
theorem Get_notFound_iff_witness :
    Faults.none.query = none ∧ Get sampleEnv Faults.none storeAB "A" = .ok foldedA ∧
      (Get sampleEnv Faults.none storeAB "Z" = .error .notFound ↔
        scanRows sampleEnv Faults.none (sampleEnv.rowOrder
          ((policyGetAllQuery storeAB).filter fun row => decide (row.ID = "Z"))) = .ok []) ∧
      Get sampleEnv Faults.none storeAB "Z" = .error .notFound :=
  ⟨rfl, rfl, (Get_notFound_iff sampleEnv Faults.none storeAB "Z" rfl (fun _ => rfl)).1, rfl⟩

theorem subjectMatches_iff (env : Env) (subject : String) (ts : TemplateRow) :
    subjectMatches env subject ts = true ↔
      ((ts.HAS_REGEX = false ∧ ts.TEMPLATE = subject) ∨
        (ts.HAS_REGEX = true ∧ env.REGEXP_LIKE subject ts.COMPILED = true)) := by
  unfold subjectMatches
  cases ts.HAS_REGEX <;> simp

theorem mem_innerJoin {β : Type} (tbl : List β) (cond : β → Bool) (y : β) :
    y ∈ innerJoin tbl cond ↔ y ∈ tbl ∧ cond y = true := by
  simp [innerJoin, List.mem_filter]

theorem candidates_scalars (env : Env) (db : Store) (subject : String) (row : Row)
    (h : row ∈ candidatesQuery env db subject) :
    ∃ p ∈ db.p, row.ID = p.ID ∧ row.EFFECT = p.EFFECT ∧ row.DESCRIPTION = p.DESCRIPTION ∧
      row.CONDITIONS = p.CONDITIONS ∧ HasMatchingSubject env db p.ID subject := by
  obtain ⟨p, hp, rs, hrs, ra, _, rr, _, ts, hts, ta, _, tr, _, hm, rfl⟩ :=
    (mem_candidatesQuery env db subject row).1 h
  have h1 := (mem_innerJoin _ _ _).1 hrs
  have h2 := (mem_innerJoin _ _ _).1 hts
  simp only [linkOn, decide_eq_true_eq] at h1 h2
  exact ⟨p, hp, rfl, rfl, rfl, rfl, rs, h1.1, h1.2, ts, h2.1, h2.2.symm,
    (subjectMatches_iff env subject ts).1 hm⟩

/-- The rows of the candidate query for a policy with a matching subject: any
choice of the action and resource side occurs. -/
theorem candidates_row (env : Env) (db : Store) (subject : String) (p : PolicyRow)
    (hp : p ∈ db.p) (hm : HasMatchingSubject env db p.ID subject)
    (ra rr : Option LinkRow) (ta tr : Option TemplateRow)
    (hra : ra ∈ leftJoin db.ar (fun ra => decide (ra.POLICY = p.ID)))
    (hrr : rr ∈ leftJoin db.rr (fun rr => decide (rr.POLICY = p.ID)))
    (hta : ta ∈ leftJoin db.a (linkOn ra)) (htr : tr ∈ leftJoin db.r (linkOn rr)) :
    ∃ row ∈ candidatesQuery env db subject, row.ID = p.ID ∧
      row.ACTION = ta.map (fun t => t.TEMPLATE) ∧
      row.RESOURCE = tr.map (fun t => t.TEMPLATE) := by
  obtain ⟨l, hl, hlid, ts, hts, htid, hmatch⟩ := hm
  refine ⟨selectRow p (some ts) tr ta, (mem_candidatesQuery env db subject _).2
    ⟨p, hp, l, (mem_innerJoin _ _ _).2 ⟨hl, by simpa using hlid⟩, ra, hra, rr, hrr, ts,
      (mem_innerJoin _ _ _).2 ⟨hts, by simpa [linkOn] using htid.symm⟩, ta, hta, tr, htr,
      (subjectMatches_iff env subject ts).2 hmatch, rfl⟩, rfl, rfl, rfl⟩

theorem candidates_has_row (env : Env) (db : Store) (subject : String) (p : PolicyRow)
    (hp : p ∈ db.p) (hm : HasMatchingSubject env db p.ID subject) :
    ∃ row ∈ candidatesQuery env db subject, row.ID = p.ID := by
  obtain ⟨ra, hra⟩ := exists_mem_leftJoin db.ar (fun ra => decide (ra.POLICY = p.ID))
  obtain ⟨rr, hrr⟩ := exists_mem_leftJoin db.rr (fun rr => decide (rr.POLICY = p.ID))
  obtain ⟨ta, hta⟩ := exists_mem_leftJoin db.a (linkOn ra)
  obtain ⟨tr, htr⟩ := exists_mem_leftJoin db.r (linkOn rr)
  obtain ⟨row, hrow, hid, _⟩ := candidates_row env db subject p hp hm ra rr ta tr hra hrr hta htr
  exact ⟨row, hrow, hid⟩

theorem candidates_action (env : Env) (db : Store) (subject id t : String) :
    (∃ row ∈ candidatesQuery env db subject, row.ID = id ∧ row.ACTION = some t) ↔
      (∃ p ∈ db.p, p.ID = id) ∧ HasMatchingSubject env db id subject ∧ Linked db .a id t := by
  constructor
  · rintro ⟨row, hrow, hid, hcol⟩
    obtain ⟨p1, hp1, h1, _, _, _, hm⟩ := candidates_scalars env db subject row hrow
    obtain ⟨p, hp, rs, _, ra, hra, rr, _, ts, _, ta, hta, tr, _, _, rfl⟩ :=
      (mem_candidatesQuery env db subject row).1 hrow
    have hid1 : p.ID = id := hid
    subst hid1
    have e : p1.ID = p.ID := h1.symm
    exact ⟨⟨p, hp, rfl⟩, e ▸ hm, (leftJoin_linked db.ar db.a p.ID t).1 ⟨ra, hra, ta, hta, hcol⟩⟩
  · rintro ⟨⟨p, hp, hid⟩, hm, hl⟩
    subst hid
    obtain ⟨ra, hra, ta, hta, hcol⟩ := (leftJoin_linked db.ar db.a p.ID t).2 hl
    obtain ⟨rr, hrr⟩ := exists_mem_leftJoin db.rr (fun rr => decide (rr.POLICY = p.ID))
    obtain ⟨tr, htr⟩ := exists_mem_leftJoin db.r (linkOn rr)
    obtain ⟨row, hrow, hid, hact, _⟩ :=
      candidates_row env db subject p hp hm ra rr ta tr hra hrr hta htr
    exact ⟨row, hrow, hid, hact.trans hcol⟩

theorem candidates_resource (env : Env) (db : Store) (subject id t : String) :
    (∃ row ∈ candidatesQuery env db subject, row.ID = id ∧ row.RESOURCE = some t) ↔
      (∃ p ∈ db.p, p.ID = id) ∧ HasMatchingSubject env db id subject ∧ Linked db .r id t := by
  constructor
  · rintro ⟨row, hrow, hid, hcol⟩
    obtain ⟨p1, hp1, h1, _, _, _, hm⟩ := candidates_scalars env db subject row hrow
    obtain ⟨p, hp, rs, _, ra, _, rr, hrr, ts, _, ta, _, tr, htr, _, rfl⟩ :=
      (mem_candidatesQuery env db subject row).1 hrow
    have hid1 : p.ID = id := hid
    subst hid1
    have e : p1.ID = p.ID := h1.symm
    exact ⟨⟨p, hp, rfl⟩, e ▸ hm, (leftJoin_linked db.rr db.r p.ID t).1 ⟨rr, hrr, tr, htr, hcol⟩⟩
  · rintro ⟨⟨p, hp, hid⟩, hm, hl⟩
    subst hid
    obtain ⟨rr, hrr, tr, htr, hcol⟩ := (leftJoin_linked db.rr db.r p.ID t).2 hl
    obtain ⟨ra, hra⟩ := exists_mem_leftJoin db.ar (fun ra => decide (ra.POLICY = p.ID))
    obtain ⟨ta, hta⟩ := exists_mem_leftJoin db.a (linkOn ra)
    obtain ⟨row, hrow, hid, _, hres⟩ :=
      candidates_row env db subject p hp hm ra rr ta tr hra hrr hta htr
    exact ⟨row, hrow, hid, hres.trans hcol⟩

/-- When the driver is healthy and the conditions of the matching policies
decode, `FindRequestCandidates` returns a result. -/
theorem FindRequestCandidates_ok (env : Env) (f : Faults) (db : Store) (r : Request)
    (hq : f.query = none) (hs : ∀ row, f.scan row = none)
    (hdec : ∀ p ∈ db.p, HasMatchingSubject env db p.ID r.Subject →
      env.Unmarshal p.CONDITIONS ≠ none) :
    ∃ ps, FindRequestCandidates env f db r = .ok ps ∧
      scanRows env f (env.rowOrder (candidatesQuery env db r.Subject)) = .ok ps := by
  have hall : ∀ row ∈ env.rowOrder (candidatesQuery env db r.Subject),
      f.scan row = none ∧ env.Unmarshal row.CONDITIONS ≠ none := by
    intro row hrow
    rw [(env.rowOrder_perm _).mem_iff] at hrow
    obtain ⟨p, hp, _, _, _, h4, hm⟩ := candidates_scalars env db r.Subject row hrow
    exact ⟨hs row, by rw [h4]; exact hdec p hp hm⟩
  obtain ⟨ps, hps⟩ := (scanRows_ok_iff env f _).2 hall
  exact ⟨ps, by unfold FindRequestCandidates; simp only [hq, hps], hps⟩

/-- A result of `FindRequestCandidates` is the fold of the rows of its query. -/
theorem FindRequestCandidates_scan (env : Env) (f : Faults) (db : Store) (r : Request)
    (ps : List DefaultPolicy) (h : FindRequestCandidates env f db r = .ok ps) :
    scanRows env f (env.rowOrder (candidatesQuery env db r.Subject)) = .ok ps := by
  unfold FindRequestCandidates at h
  cases hq : f.query with
  | none => simpa [hq] using h
  | some e => cases e <;> simp [hq] at h

/-- The tables of the candidate example, for any compiler and digest. -/
theorem storeExample_eq (env : Env) (cA cB : String)
    (hA : env.CompileRegex "alice" '<' '>' = some cA)
    (hB : env.CompileRegex "<.+>@example.com" '<' '>' = some cB)
    (hc : cA ≠ cB) (hh : env.sha256Hex "alice" ≠ env.sha256Hex "<.+>@example.com") :
    storeExample env
      = { p := [⟨"A", "", "allow", "\x7b\x7d"⟩, ⟨"B", "", "allow", "\x7b\x7d"⟩]
          s := [⟨env.sha256Hex "alice", false, cA, "alice"⟩,
                ⟨env.sha256Hex "<.+>@example.com", true, cB, "<.+>@example.com"⟩]
          a := [], r := []
          sr := [⟨"A", env.sha256Hex "alice"⟩, ⟨"B", env.sha256Hex "<.+>@example.com"⟩]
          ar := [], rr := [] } := by
  have i1 : stringsIndex "alice" (String.singleton '<') = -1 := by decide
  have i2 : stringsIndex "<.+>@example.com" (String.singleton '<') = 0 := by decide
  simp [storeExample, Create, conditionsOf, Begin, Tx.Exec, Tx.Commit, Faults.none, insertPolicy, relations,
    createRelations, createTemplates, policyAlice, policyStaff, Store.empty, hA, hB,
    insertTemplate, insertLink, Store.tpl, Store.rel, Store.setTpl, Store.setRel, i1, i2, hc, hh,
    Ne.symm hh]


theorem rowOrder_singleton (env : Env) (row : Row) : env.rowOrder [row] = [row] :=
  List.perm_singleton.1 (env.rowOrder_perm [row])

theorem rowOrder_nil (env : Env) : env.rowOrder [] = [] :=
  List.Perm.eq_nil (env.rowOrder_perm [])

theorem mapOrder_singleton (env : Env) (kv : String × DefaultPolicy) : env.mapOrder [kv] = [kv] :=
  List.perm_singleton.1 (env.mapOrder_perm [kv])

/-- The candidate example, for any environment in which the expression compiled
from `<.+>@example.com` matches `bob@example.com` and not `alice`. -/
theorem candidates_example (env : Env) (cA cB : String) (c0 : Conditions)
    (hA : env.CompileRegex "alice" '<' '>' = some cA)
    (hB : env.CompileRegex "<.+>@example.com" '<' '>' = some cB)
    (hc : cA ≠ cB) (hh : env.sha256Hex "alice" ≠ env.sha256Hex "<.+>@example.com")
    (h0 : env.Unmarshal "\x7b\x7d" = some c0)
    (hm1 : env.REGEXP_LIKE "alice" cB = false)
    (hm2 : env.REGEXP_LIKE "bob@example.com" cB = true) :
    FindRequestCandidates env Faults.none
        (storeExample env)
        ⟨"alice"⟩
      = .ok [{ ID := "A", Description := "", Effect := "allow", Conditions := c0,
               Subjects := ["alice"], Actions := [], Resources := [] }] ∧
    FindRequestCandidates env Faults.none
        (storeExample env)
        ⟨"bob@example.com"⟩
      = .ok [{ ID := "B", Description := "", Effect := "allow", Conditions := c0,
               Subjects := ["<.+>@example.com"], Actions := [], Resources := [] }] := by
  rw [storeExample_eq env cA cB hA hB hc hh]
  have q1 : candidatesQuery env
      { p := [⟨"A", "", "allow", "\x7b\x7d"⟩, ⟨"B", "", "allow", "\x7b\x7d"⟩]
        s := [⟨env.sha256Hex "alice", false, cA, "alice"⟩,
              ⟨env.sha256Hex "<.+>@example.com", true, cB, "<.+>@example.com"⟩]
        a := [], r := []
        sr := [⟨"A", env.sha256Hex "alice"⟩, ⟨"B", env.sha256Hex "<.+>@example.com"⟩]
        ar := [], rr := [] } "alice"
      = [⟨"A", "allow", "\x7b\x7d", "", some "alice", none, none⟩] := by
    simp [candidatesQuery, innerJoin, leftJoin, linkOn, subjectMatches, selectRow, List.filter,
      hh, Ne.symm hh, hm1]
  have q2 : candidatesQuery env
      { p := [⟨"A", "", "allow", "\x7b\x7d"⟩, ⟨"B", "", "allow", "\x7b\x7d"⟩]
        s := [⟨env.sha256Hex "alice", false, cA, "alice"⟩,
              ⟨env.sha256Hex "<.+>@example.com", true, cB, "<.+>@example.com"⟩]
        a := [], r := []
        sr := [⟨"A", env.sha256Hex "alice"⟩, ⟨"B", env.sha256Hex "<.+>@example.com"⟩]
        ar := [], rr := [] } "bob@example.com"
      = [⟨"B", "allow", "\x7b\x7d", "", some "<.+>@example.com", none, none⟩] := by
    simp [candidatesQuery, innerJoin, leftJoin, linkOn, subjectMatches, selectRow, List.filter,
      hh, Ne.symm hh, hm2]
  have u1 : uniq ["alice"] = ["alice"] := by decide
  have u2 : uniq ["<.+>@example.com"] = ["<.+>@example.com"] := by decide
  have u0 : uniq [] = [] := by decide
  constructor
  · simp [FindRequestCandidates, Faults.none, q1, rowOrder_singleton, scanRows, scanLoop, scanRow,
      h0, mapGet, mapSet, mapOrder_singleton, finish, seedValid, validNonEmpty, u1, u0]
  · simp [FindRequestCandidates, Faults.none, q2, rowOrder_singleton, scanRows, scanLoop, scanRow,
      h0, mapGet, mapSet, mapOrder_singleton, finish, seedValid, validNonEmpty, u2, u0]

/-- C2: candidate correctness. Whenever `FindRequestCandidates(r)` returns a
result, it holds one policy for each stored policy that has a subject template
matching `r.Subject` (equal to it when the template row carries no pattern
flag, matched by its compiled expression when it does) and no other policy,
and each returned policy has the effect, description and conditions of the
stored policy row; it does return a result when the driver is healthy and the
conditions of the matching policies decode. With policy `A` (subject `alice`)
and policy `B` (subject `<.+>@example.com`) stored, the subject `alice` yields
`A` only and the subject `bob@example.com` yields `B` only. -/
theorem FindRequestCandidates_exact (env : Env) :
    (∀ (f : Faults) (db : Store) (r : Request),
      (∀ ps, FindRequestCandidates env f db r = .ok ps →
        (ps.map fun q => q.ID).Nodup ∧
        (∀ id, id ∈ (ps.map fun q => q.ID) ↔
          (∃ p ∈ db.p, p.ID = id) ∧ HasMatchingSubject env db id r.Subject) ∧
        (∀ q ∈ ps, ∃ p ∈ db.p, p.ID = q.ID ∧ q.Effect = p.EFFECT ∧
          q.Description = p.DESCRIPTION ∧ env.Unmarshal p.CONDITIONS = some q.Conditions)) ∧
      (f.query = none → (∀ row, f.scan row = none) →
        (∀ p ∈ db.p, HasMatchingSubject env db p.ID r.Subject →
          env.Unmarshal p.CONDITIONS ≠ none) →
        ∃ ps, FindRequestCandidates env f db r = .ok ps)) ∧
    (∀ (cA cB : String) (c0 : Conditions),
      env.CompileRegex "alice" '<' '>' = some cA →
      env.CompileRegex "<.+>@example.com" '<' '>' = some cB →
      cA ≠ cB → env.sha256Hex "alice" ≠ env.sha256Hex "<.+>@example.com" →
      env.Unmarshal "\x7b\x7d" = some c0 →
      env.REGEXP_LIKE "alice" cB = false → env.REGEXP_LIKE "bob@example.com" cB = true →
      FindRequestCandidates env Faults.none (storeExample env) ⟨"alice"⟩
          = .ok [{ ID := "A", Description := "", Effect := "allow", Conditions := c0,
                   Subjects := ["alice"], Actions := [], Resources := [] }] ∧
        FindRequestCandidates env Faults.none (storeExample env) ⟨"bob@example.com"⟩
          = .ok [{ ID := "B", Description := "", Effect := "allow", Conditions := c0,
                   Subjects := ["<.+>@example.com"], Actions := [], Resources := [] }]) := by
  refine ⟨?_, fun cA cB c0 hA hB hc hh h0 hm1 hm2 =>
    candidates_example env cA cB c0 hA hB hc hh h0 hm1 hm2⟩
  intro f db r
  refine ⟨?_, fun hq hs hdec => ?_⟩
  · intro ps hps
    have hscan := FindRequestCandidates_scan env f db r ps hps
    obtain ⟨hnd, hkeys⟩ := scanRows_keys env f _ ps hscan
    refine ⟨hnd, ?_, ?_⟩
    · intro id
      rw [hkeys id]
      constructor
      · rintro ⟨row, hrow, hid⟩
        rw [(env.rowOrder_perm _).mem_iff] at hrow
        obtain ⟨p, hp, h1, _, _, _, hm⟩ := candidates_scalars env db r.Subject row hrow
        have e : p.ID = id := h1.symm.trans hid
        exact ⟨⟨p, hp, e⟩, e ▸ hm⟩
      · rintro ⟨⟨p, hp, hid⟩, hm⟩
        subst hid
        obtain ⟨row, hrow, hrid⟩ := candidates_has_row env db r.Subject p hp hm
        exact ⟨row, (env.rowOrder_perm _).mem_iff.2 hrow, hrid⟩
    · intro q hq1
      obtain ⟨r0, hmem, hid, h1, h2, h3⟩ := (scanRows_fields env f _ ps hscan q hq1).2.2.2
      rw [(env.rowOrder_perm _).mem_iff] at hmem
      obtain ⟨p, hp, e1, e2, e3, e4, _⟩ := candidates_scalars env db r.Subject r0 hmem
      exact ⟨p, hp, e1.symm.trans hid, h1.trans e2, h2.trans e3, by rw [← e4]; exact h3⟩
  · obtain ⟨ps, hps, _⟩ := FindRequestCandidates_ok env f db r hq hs hdec
    exact ⟨ps, hps⟩

/-- Witness of C2 in the sample environment. -/
theorem FindRequestCandidates_exact_witness :
    FindRequestCandidates sampleEnv Faults.none (storeExample sampleEnv) ⟨"alice"⟩
        = .ok [{ ID := "A", Description := "", Effect := "allow", Conditions := [],
                 Subjects := ["alice"], Actions := [], Resources := [] }] ∧
      FindRequestCandidates sampleEnv Faults.none (storeExample sampleEnv) ⟨"bob@example.com"⟩
        = .ok [{ ID := "B", Description := "", Effect := "allow", Conditions := [],
                 Subjects := ["<.+>@example.com"], Actions := [], Resources := [] }] :=
  (FindRequestCandidates_exact sampleEnv).2 "^alice$" "^(.+)@example\\.com$" [] rfl rfl
    (by decide) (by decide) rfl rfl rfl

/-- A linked template is the text of a stored template row, so it is not empty
where the column `TEMPLATE` holds no empty string. -/
theorem Linked.ne_empty (db : Store) (d : Dim) (id t : String)
    (hnn : ∀ d, ∀ tr ∈ db.tpl d, tr.TEMPLATE ≠ "") (h : Linked db d id t) : t ≠ "" := by
  obtain ⟨_, _, _, tr, htr, _, ht⟩ := h
  exact ht ▸ hnn d tr htr

/-- C10: candidates carry their action and resource sets. In a store whose
template rows hold no empty text (the column `TEMPLATE` is `NOT NULL`; every
store that `Create` and `Delete` produce is such a store): whenever
`FindRequestCandidates` returns a result, every policy in it has as actions
(resources) exactly the action (resource) templates linked to it in the
store, and every stored policy with a matching subject is in it, with empty
actions (resources) when no action (resource) template is linked to it; a
result is returned when the driver is healthy and the conditions of the
matching policies decode. -/
theorem candidates_carry_sets (env : Env) (f : Faults) (db : Store) (r : Request)
    (hnn : ∀ d, ∀ tr ∈ db.tpl d, tr.TEMPLATE ≠ "") :
    (∀ ps, FindRequestCandidates env f db r = .ok ps →
      (∀ q ∈ ps,
        (∀ t, t ∈ q.Actions ↔ Linked db .a q.ID t) ∧
        (∀ t, t ∈ q.Resources ↔ Linked db .r q.ID t)) ∧
      (∀ p ∈ db.p, HasMatchingSubject env db p.ID r.Subject →
        ∃ q ∈ ps, q.ID = p.ID ∧
          ((∀ t, ¬ Linked db .a p.ID t) → q.Actions = []) ∧
          ((∀ t, ¬ Linked db .r p.ID t) → q.Resources = []))) ∧
    (f.query = none → (∀ row, f.scan row = none) →
      (∀ p ∈ db.p, HasMatchingSubject env db p.ID r.Subject →
        env.Unmarshal p.CONDITIONS ≠ none) →
      ∃ ps, FindRequestCandidates env f db r = .ok ps) := by
  refine ⟨?_, fun hq hs hdec => ?_⟩
  swap
  · obtain ⟨ps, hps, _⟩ := FindRequestCandidates_ok env f db r hq hs hdec
    exact ⟨ps, hps⟩
  intro ps hps
  have hscan := FindRequestCandidates_scan env f db r ps hps
  obtain ⟨_, hkeys⟩ := scanRows_keys env f _ ps hscan
  have hsets : ∀ q ∈ ps,
      (∀ t, t ∈ q.Actions ↔ Linked db .a q.ID t) ∧
      (∀ t, t ∈ q.Resources ↔ Linked db .r q.ID t) := by
    intro q hq1
    obtain ⟨_, hact, hres, _⟩ := scanRows_fields env f _ ps hscan q hq1
    obtain ⟨row0, hrow0, hid0⟩ := (hkeys q.ID).1 (List.mem_map_of_mem (fun q => q.ID) hq1)
    rw [(env.rowOrder_perm _).mem_iff] at hrow0
    obtain ⟨p0, hp0, e0, _, _, _, hm0⟩ := candidates_scalars env db r.Subject row0 hrow0
    have e : p0.ID = q.ID := e0.symm.trans hid0
    have hm : HasMatchingSubject env db q.ID r.Subject := e ▸ hm0
    constructor
    · intro t
      rw [hact t]
      constructor
      · rintro ⟨row, hrow, hid, hcol, _⟩
        rw [(env.rowOrder_perm _).mem_iff] at hrow
        exact ((candidates_action env db r.Subject q.ID t).1 ⟨row, hrow, hid, hcol⟩).2.2
      · intro hl
        obtain ⟨row, hrow, hid, hcol⟩ :=
          (candidates_action env db r.Subject q.ID t).2 ⟨⟨p0, hp0, e⟩, hm, hl⟩
        exact ⟨row, (env.rowOrder_perm _).mem_iff.2 hrow, hid, hcol,
          Linked.ne_empty db .a q.ID t hnn hl⟩
    · intro t
      rw [hres t]
      constructor
      · rintro ⟨row, hrow, hid, hcol, _⟩
        rw [(env.rowOrder_perm _).mem_iff] at hrow
        exact ((candidates_resource env db r.Subject q.ID t).1 ⟨row, hrow, hid, hcol⟩).2.2
      · intro hl
        obtain ⟨row, hrow, hid, hcol⟩ :=
          (candidates_resource env db r.Subject q.ID t).2 ⟨⟨p0, hp0, e⟩, hm, hl⟩
        exact ⟨row, (env.rowOrder_perm _).mem_iff.2 hrow, hid, hcol,
          Linked.ne_empty db .r q.ID t hnn hl⟩
  refine ⟨hsets, ?_⟩
  intro p hp hm
  obtain ⟨row, hrow, hrid⟩ := candidates_has_row env db r.Subject p hp hm
  have hmem : p.ID ∈ ps.map fun q => q.ID :=
    (hkeys p.ID).2 ⟨row, (env.rowOrder_perm _).mem_iff.2 hrow, hrid⟩
  obtain ⟨q, hq1, hqid⟩ := List.mem_map.1 hmem
  refine ⟨q, hq1, hqid, ?_, ?_⟩
  · intro hno
    rw [List.eq_nil_iff_forall_not_mem]
    intro t ht
    have := ((hsets q hq1).1 t).1 ht
    rw [hqid] at this
    exact hno t this
  · intro hno
    rw [List.eq_nil_iff_forall_not_mem]
    intro t ht
    have := ((hsets q hq1).2 t).1 ht
    rw [hqid] at this
    exact hno t this

set_option maxRecDepth 100000 in
/-- Witness of C10 on `storeAB` and the subject `alice`: no template row of
`storeAB` has an empty text, and the one candidate is `foldedA`, with the
action `read` and the resource `doc` that are linked to it. -/
theorem candidates_carry_sets_witness :
    FindRequestCandidates sampleEnv Faults.none storeAB ⟨"alice"⟩ = .ok [foldedA] ∧
      (∀ t, t ∈ foldedA.Actions ↔ Linked storeAB .a foldedA.ID t) ∧
      (∀ t, t ∈ foldedA.Resources ↔ Linked storeAB .r foldedA.ID t) :=
  ⟨rfl, ((candidates_carry_sets sampleEnv Faults.none storeAB ⟨"alice"⟩
    (by intro d; cases d <;> decide)).1 [foldedA] rfl).1 foldedA (List.mem_singleton.2 rfl)⟩

theorem Exec_none (tx : Tx) (stmt : Store → Except Error Store) :
    tx.Exec Faults.none stmt =
      match stmt tx.work with
      | .error e => .error e
      | .ok work => .ok { tx with work := work, n := tx.n + 1 } := by
  simp [Tx.Exec, Faults.none]

theorem tpl_setTpl (db : Store) (d d1 : Dim) (rows : List TemplateRow) :
    (db.setTpl d rows).tpl d1 = if d1 = d then rows else db.tpl d1 := by
  cases d <;> cases d1 <;> simp [Store.setTpl, Store.tpl]

theorem rel_setTpl (db : Store) (d d1 : Dim) (rows : List TemplateRow) :
    (db.setTpl d rows).rel d1 = db.rel d1 := by
  cases d <;> cases d1 <;> simp [Store.setTpl, Store.rel]

theorem p_setTpl (db : Store) (d : Dim) (rows : List TemplateRow) :
    (db.setTpl d rows).p = db.p := by
  cases d <;> simp [Store.setTpl]

theorem tpl_setRel (db : Store) (d d1 : Dim) (rows : List LinkRow) :
    (db.setRel d rows).tpl d1 = db.tpl d1 := by
  cases d <;> cases d1 <;> simp [Store.setRel, Store.tpl]

theorem rel_setRel (db : Store) (d d1 : Dim) (rows : List LinkRow) :
    (db.setRel d rows).rel d1 = if d1 = d then rows else db.rel d1 := by
  cases d <;> cases d1 <;> simp [Store.setRel, Store.rel]

theorem p_setRel (db : Store) (d : Dim) (rows : List LinkRow) :
    (db.setRel d rows).p = db.p := by
  cases d <;> simp [Store.setRel]

/-- The insert of a template row succeeds when its text is not empty, the table
keeps digests as identifiers and the compiled expression is not stored with
another text. -/
theorem insertTemplate_ok (env : Env) (d : Dim)
    (row : TemplateRow) (w : Store) (hrow : row.ID = env.sha256Hex row.TEMPLATE)
    (htid : ∀ tr ∈ w.tpl d, tr.ID = env.sha256Hex tr.TEMPLATE)
    (hcu : ∀ tr ∈ w.tpl d, tr.COMPILED = row.COMPILED → tr.TEMPLATE = row.TEMPLATE)
    (hne : row.TEMPLATE ≠ "") :
    ∃ w1, insertTemplate d row w = .ok w1 ∧ w1.p = w.p ∧
      (∀ d1, w1.rel d1 = w.rel d1) ∧ (∀ d1, d1 ≠ d → w1.tpl d1 = w.tpl d1) ∧
      (((∃ x ∈ w.tpl d, x.ID = row.ID) ∧ w1.tpl d = w.tpl d) ∨
        ((∀ x ∈ w.tpl d, x.ID ≠ row.ID) ∧ w1.tpl d = w.tpl d ++ [row])) := by
  unfold insertTemplate
  simp only [hne, if_false]
  by_cases h1 : ∃ x ∈ w.tpl d, x.ID = row.ID
  · exact ⟨w, by simp only [h1, if_true], rfl, fun _ => rfl, fun _ _ => rfl, Or.inl ⟨h1, rfl⟩⟩
  · have hno : ∀ x ∈ w.tpl d, x.ID ≠ row.ID := fun x hx hid => h1 ⟨x, hx, hid⟩
    have h2 : ¬ ∃ x ∈ w.tpl d, x.COMPILED = row.COMPILED ∨ x.TEMPLATE = row.TEMPLATE := by
      rintro ⟨x, hx, hc | ht⟩
      · exact hno x hx (by rw [htid x hx, hcu x hx hc, hrow])
      · exact hno x hx (by rw [htid x hx, ht, hrow])
    refine ⟨w.setTpl d (w.tpl d ++ [row]), by simp only [h1, h2, if_false], p_setTpl _ _ _,
      fun d1 => rel_setTpl _ _ _ _, ?_, Or.inr ⟨hno, by simp [tpl_setTpl]⟩⟩
    intro d1 hd1
    simp [tpl_setTpl, hd1]

/-- The insert of a link row succeeds when both referenced rows are stored. -/
theorem insertLink_ok (d : Dim) (row : LinkRow) (w : Store)
    (hp : ∃ x ∈ w.p, x.ID = row.POLICY) (ht : ∃ x ∈ w.tpl d, x.ID = row.TEMPLATE_ID) :
    ∃ w1, insertLink d row w = .ok w1 ∧ w1.p = w.p ∧
      (∀ d1, w1.tpl d1 = w.tpl d1) ∧ (∀ d1, d1 ≠ d → w1.rel d1 = w.rel d1) ∧
      (∀ l, l ∈ w1.rel d ↔ l ∈ w.rel d ∨ l = row) := by
  unfold insertLink
  by_cases h1 : ∃ x ∈ w.rel d, x.POLICY = row.POLICY ∧ x.TEMPLATE_ID = row.TEMPLATE_ID
  · refine ⟨w, by simp only [h1, if_true], rfl, fun _ => rfl, fun _ _ => rfl, ?_⟩
    intro l
    constructor
    · exact Or.inl
    · rintro (h | h)
      · exact h
      · obtain ⟨x, hx, e1, e2⟩ := h1
        have : x = row := by
          cases x; cases row; simp only at e1 e2; simp [e1, e2]
        rw [h, ← this]; exact hx
  · refine ⟨w.setRel d (w.rel d ++ [row]), by simp only [h1, hp, ht, and_self, if_true, if_false],
      p_setRel _ _ _, fun d1 => tpl_setRel _ _ _ _, ?_, ?_⟩
    · intro d1 hd1
      simp [rel_setRel, hd1]
    · intro l
      simp [rel_setRel]

theorem createTemplates_ok (env : Env) (policy : Policy) (d : Dim) (ts : List String) :
    ∀ tx : Tx,
      (∀ t ∈ ts, env.CompileRegex t policy.StartDelimiter policy.EndDelimiter ≠ none) →
      (∀ t ∈ ts, t ≠ "") →
      (∃ x ∈ tx.work.p, x.ID = policy.ID) →
      (∀ tr ∈ tx.work.tpl d, tr.ID = env.sha256Hex tr.TEMPLATE) →
      (∀ t ∈ ts, ∀ c, env.CompileRegex t policy.StartDelimiter policy.EndDelimiter = some c →
        ∀ tr ∈ tx.work.tpl d, tr.COMPILED = c → tr.TEMPLATE = t) →
      (∀ t ∈ ts, ∀ t1 ∈ ts, ∀ c,
        env.CompileRegex t policy.StartDelimiter policy.EndDelimiter = some c →
        env.CompileRegex t1 policy.StartDelimiter policy.EndDelimiter = some c → t1 = t) →
      ∃ tx1, createTemplates env Faults.none policy d ts tx = .ok tx1 ∧
        tx1.work.p = tx.work.p ∧
        (∀ d1, d1 ≠ d → tx1.work.tpl d1 = tx.work.tpl d1 ∧ tx1.work.rel d1 = tx.work.rel d1) ∧
        DimDone env policy ts (tx.work.tpl d) (tx.work.rel d) (tx1.work.tpl d)
          (tx1.work.rel d) := by
  induction ts with
  | nil =>
    intro tx _ _ _ _ _ _
    exact ⟨tx, rfl, rfl, fun _ _ => ⟨rfl, rfl⟩,
      ⟨fun _ h => h, fun _ h => Or.inl h, by simp, fun _ h => h, fun _ h => Or.inl h, by simp⟩⟩
  | cons t rest ih =>
    intro tx h1 hne h2 h3 h5 h6
    cases hc : env.CompileRegex t policy.StartDelimiter policy.EndDelimiter with
    | none => exact absurd hc (h1 t (List.mem_cons_self _ _))
    | some c =>
      obtain ⟨w1, hw1, hp1, hrel1, hoth1, hcase⟩ := insertTemplate_ok env d
        { ID := env.sha256Hex t
          TEMPLATE := t
          COMPILED := c
          HAS_REGEX := decide (stringsIndex t (String.singleton policy.StartDelimiter) > -1) }
        tx.work rfl h3 (h5 t (List.mem_cons_self _ _) c hc) (hne t (List.mem_cons_self _ _))
      have hex1 : ∃ x ∈ w1.tpl d, x.ID = env.sha256Hex t := by
        rcases hcase with ⟨⟨x, hx, hid⟩, e⟩ | ⟨_, e⟩
        · exact ⟨x, by rw [e]; exact hx, hid⟩
        · exact ⟨_, by rw [e]; exact List.mem_append_right _ (List.mem_singleton.2 rfl), rfl⟩
      obtain ⟨w2, hw2, hp2, htpl2, hoth2, hrel2⟩ := insertLink_ok d
        { POLICY := policy.ID, TEMPLATE_ID := env.sha256Hex t } w1
        (by rw [hp1]; exact h2) hex1
      have hsub : ∀ tr ∈ w1.tpl d, tr ∈ tx.work.tpl d ∨ (tr =
          { ID := env.sha256Hex t
            TEMPLATE := t
            COMPILED := c
            HAS_REGEX :=
              decide (stringsIndex t (String.singleton policy.StartDelimiter) > -1) } ∧
          ∀ x ∈ tx.work.tpl d, x.ID ≠ env.sha256Hex t) := by
        intro tr htr
        rcases hcase with ⟨_, e⟩ | ⟨hno, e⟩
        · rw [e] at htr; exact Or.inl htr
        · rw [e] at htr
          rcases List.mem_append.1 htr with h | h
          · exact Or.inl h
          · exact Or.inr ⟨List.mem_singleton.1 h, hno⟩
      have hmono1 : ∀ tr ∈ tx.work.tpl d, tr ∈ w1.tpl d := by
        intro tr htr
        rcases hcase with ⟨_, e⟩ | ⟨_, e⟩
        · rw [e]; exact htr
        · rw [e]; exact List.mem_append_left _ htr
      obtain ⟨tx3, htx3, hp3, hoth3, hdone⟩ := ih
        { tx with work := w2, n := tx.n + 1 + 1 }
        (fun t1 ht1 => h1 t1 (List.mem_cons_of_mem _ ht1))
        (fun t1 ht1 => hne t1 (List.mem_cons_of_mem _ ht1))
        (by simp only; rw [hp2, hp1]; exact h2)
        (by
          intro tr htr
          simp only [htpl2] at htr
          rcases hsub tr htr with h | ⟨h, _⟩
          · exact h3 tr h
          · rw [h])
        (by
          intro t1 ht1 c1 hc1 tr htr hcomp
          simp only [htpl2] at htr
          rcases hsub tr htr with h | ⟨h, _⟩
          · exact h5 t1 (List.mem_cons_of_mem _ ht1) c1 hc1 tr h hcomp
          · subst h
            simp only at hcomp
            subst hcomp
            exact (h6 t (List.mem_cons_self _ _) t1 (List.mem_cons_of_mem _ ht1) c hc hc1).symm)
        (fun t1 ht1 t2 ht2 => h6 t1 (List.mem_cons_of_mem _ ht1) t2 (List.mem_cons_of_mem _ ht2))
      simp only at htx3 hp3 hoth3 hdone
      refine ⟨tx3, ?_, by rw [hp3, hp2, hp1], ?_, ?_⟩
      · simp only [createTemplates, hc, Exec_none, hw1, hw2]
        exact htx3
      · intro d1 hd1
        obtain ⟨e1, e2⟩ := hoth3 d1 hd1
        exact ⟨by rw [e1, htpl2, hoth1 d1 hd1], by rw [e2, hoth2 d1 hd1, hrel1]⟩
      · rw [htpl2] at hdone
        refine ⟨?_, ?_, ?_, ?_, ?_, ?_⟩
        · intro tr htr
          exact hdone.tpl_mono tr (hmono1 tr htr)
        · intro tr htr
          rcases hdone.tpl_new tr htr with h | ⟨a1, a2, a3, a4, a5⟩
          · rcases hsub tr h with h | ⟨h, hno⟩
            · exact Or.inl h
            · right
              subst h
              exact ⟨List.mem_cons_self _ _, rfl, hc, rfl, hno⟩
          · exact Or.inr ⟨List.mem_cons_of_mem _ a1, a2, a3, a4,
              fun x hx => a5 x (hmono1 x hx)⟩
        · intro t1 ht1
          rcases List.mem_cons.1 ht1 with h | h
          · subst h
            obtain ⟨x, hx, hid⟩ := hex1
            exact ⟨x, hdone.tpl_mono x hx, hid⟩
          · exact hdone.tpl_has t1 h
        · intro l hl
          exact hdone.rel_mono l ((hrel2 l).2 (Or.inl (by rw [hrel1]; exact hl)))
        · intro l hl
          rcases hdone.rel_new l hl with h | ⟨a1, t1, ht1, a2⟩
          · rcases (hrel2 l).1 h with h | h
            · left; rw [hrel1] at h; exact h
            · right; subst h; exact ⟨rfl, t, List.mem_cons_self _ _, rfl⟩
          · exact Or.inr ⟨a1, t1, List.mem_cons_of_mem _ ht1, a2⟩
        · intro t1 ht1
          rcases List.mem_cons.1 ht1 with h | h
          · subst h
            exact hdone.rel_mono _ ((hrel2 _).2 (Or.inr rfl))
          · exact hdone.rel_has t1 h

theorem insertPolicy_eq (row : PolicyRow) (db : Store) (hid : row.ID ≠ "")
    (heff : row.EFFECT ≠ "") :
    ∃ w, insertPolicy row db = .ok w ∧
      w.p = (if ∃ x ∈ db.p, x.ID = row.ID then db.p else db.p ++ [row]) ∧
      (∀ d, w.tpl d = db.tpl d) ∧ (∀ d, w.rel d = db.rel d) ∧ ∃ x ∈ w.p, x.ID = row.ID := by
  unfold insertPolicy
  simp only [hid, heff, or_self, if_false]
  by_cases h : ∃ x ∈ db.p, x.ID = row.ID
  · exact ⟨db, by simp only [h, if_true], by simp only [h, if_true], fun _ => rfl,
      fun _ => rfl, h⟩
  · refine ⟨{ db with p := db.p ++ [row] }, by simp only [h, if_false],
      by simp only [h, if_false], ?_, ?_, ⟨row, by simp, rfl⟩⟩
    · intro d; cases d <;> rfl
    · intro d; cases d <;> rfl

/-- `Create` on a healthy driver: when the identifier and the effect of the
policy and its templates are not empty, the conditions marshal, every template
compiles and no compiled expression hits the `UNIQUE` constraint, `Create`
returns no error; the policy row is added unless its identifier is stored
already, and in every dimension the template and link tables grow as
`DimDone` says. -/
theorem Create_ok (env : Env) (db : Store) (policy : Policy) (b : Bytes)
    (htid : ∀ d, ∀ tr ∈ db.tpl d, tr.ID = env.sha256Hex tr.TEMPLATE)
    (hb : conditionsOf env policy = some b)
    (hcompile : ∀ d, ∀ t ∈ policy.templates d,
      env.CompileRegex t policy.StartDelimiter policy.EndDelimiter ≠ none)
    (hclash : NoCompiledClash env db policy)
    (hid : policy.ID ≠ "") (heff : policy.Effect ≠ "")
    (hnonempty : ∀ d, ∀ t ∈ policy.templates d, t ≠ "") :
    ∃ db1, Create env Faults.none db policy = (none, db1) ∧
      db1.p = (if ∃ x ∈ db.p, x.ID = policy.ID then db.p
        else db.p ++ [⟨policy.ID, policy.Description, policy.Effect, b⟩]) ∧
      ∀ d, DimDone env policy (policy.templates d) (db.tpl d) (db.rel d) (db1.tpl d)
        (db1.rel d) := by
  obtain ⟨w0, hw0, hp0, htpl0, hrel0, hex0⟩ :=
    insertPolicy_eq ⟨policy.ID, policy.Description, policy.Effect, b⟩ db hid heff
  have pre : ∀ (d : Dim) (tx : Tx), tx.work.p = w0.p → tx.work.tpl d = db.tpl d →
      ∃ tx1, createTemplates env Faults.none policy d (policy.templates d) tx = .ok tx1 ∧
        tx1.work.p = tx.work.p ∧
        (∀ d1, d1 ≠ d → tx1.work.tpl d1 = tx.work.tpl d1 ∧ tx1.work.rel d1 = tx.work.rel d1) ∧
        DimDone env policy (policy.templates d) (tx.work.tpl d) (tx.work.rel d)
          (tx1.work.tpl d) (tx1.work.rel d) := by
    intro d tx hp ht
    apply createTemplates_ok env policy d (policy.templates d) tx (hcompile d) (hnonempty d)
    · rw [hp]; exact hex0
    · rw [ht]; exact htid d
    · intro t htm c hc
      rw [ht]
      exact (hclash d t htm c hc).1
    · intro t htm t1 htm1 c hc hc1
      exact (hclash d t htm c hc).2 t1 htm1 hc1
  obtain ⟨txa, hxa, hpa, hotha, hda⟩ := pre .a { base := db, work := w0, n := 0 + 1 } rfl
    (htpl0 .a)
  obtain ⟨txr, hxr, hpr, hothr, hdr⟩ := pre .r txa hpa
    (by rw [(hotha .r (by decide)).1]; exact htpl0 .r)
  obtain ⟨txs, hxs, hps, hoths, hds⟩ := pre .s txr (hpr.trans hpa)
    (by rw [(hothr .s (by decide)).1, (hotha .s (by decide)).1]; exact htpl0 .s)
  refine ⟨txs.work, ?_, ?_, ?_⟩
  · simp only [Create, hb, Begin, Faults.none, Bool.false_eq_true, if_false]
    have e := Exec_none { base := db, work := db, n := 0 }
      (insertPolicy ⟨policy.ID, policy.Description, policy.Effect, b⟩)
    simp only [Faults.none, hw0] at e
    simp only [e, relations, createRelations]
    have hxa1 := hxa
    have hxr1 := hxr
    have hxs1 := hxs
    simp only [Faults.none, Policy.templates] at hxa1 hxr1 hxs1
    simp only [hxa1, hxr1, hxs1, Tx.Commit, Bool.false_eq_true, if_false]
  · rw [hps, hpr, hpa]; exact hp0
  · intro d
    cases d with
    | a =>
      have e1 := hoths .a (by decide)
      have e2 := hothr .a (by decide)
      rw [e1.1, e1.2, e2.1, e2.2, ← htpl0 .a, ← hrel0 .a]
      exact hda
    | r =>
      have e1 := hoths .r (by decide)
      have e0 := hotha .r (by decide)
      rw [e1.1, e1.2, ← htpl0 .r, ← hrel0 .r]
      have := hdr
      rw [e0.1, e0.2] at this
      exact this
    | s =>
      have e1 := hothr .s (by decide)
      have e0 := hotha .s (by decide)
      rw [← htpl0 .s, ← hrel0 .s]
      have := hds
      rw [e1.1, e1.2, e0.1, e0.2] at this
      exact this

/-- The templates linked to a policy after `Create`, where the digest has no
collision among the stored texts and the templates of the policy: those linked
before, and for the created identifier the templates of the policy. -/
theorem Linked_after_Create (env : Env) (db db1 : Store) (policy : Policy) (d : Dim)
    (hinj : DigestInjOn env ((db.tpl d).map (fun tr => tr.TEMPLATE) ++ policy.templates d))
    (hwf : db.WF env)
    (hdone : DimDone env policy (policy.templates d) (db.tpl d) (db.rel d) (db1.tpl d)
      (db1.rel d)) (id t : String) :
    Linked db1 d id t ↔ Linked db d id t ∨ (id = policy.ID ∧ t ∈ policy.templates d) := by
  have htid1 : ∀ tr ∈ db1.tpl d, tr.ID = env.sha256Hex tr.TEMPLATE := by
    intro tr htr
    rcases hdone.tpl_new tr htr with h | h
    · exact hwf.tid d tr h
    · exact h.2.1
  have hold : ∀ tr ∈ db.tpl d,
      tr.TEMPLATE ∈ (db.tpl d).map (fun tr => tr.TEMPLATE) ++ policy.templates d :=
    fun tr htr => List.mem_append_left _ (List.mem_map_of_mem _ htr)
  have hnew : ∀ t1 ∈ policy.templates d,
      t1 ∈ (db.tpl d).map (fun tr => tr.TEMPLATE) ++ policy.templates d :=
    fun t1 ht1 => List.mem_append_right _ ht1
  have hall : ∀ tr ∈ db1.tpl d,
      tr.TEMPLATE ∈ (db.tpl d).map (fun tr => tr.TEMPLATE) ++ policy.templates d := by
    intro tr htr
    rcases hdone.tpl_new tr htr with h | h
    · exact hold tr h
    · exact hnew _ h.1
  constructor
  · rintro ⟨l, hl, hlid, tr, htr, htrid, htt⟩
    rcases hdone.rel_new l hl with h | ⟨hp, t1, ht1, hid1⟩
    · left
      obtain ⟨tr0, htr0, hid0⟩ := hwf.fk_template d l h
      refine ⟨l, h, hlid, tr0, htr0, hid0, ?_⟩
      have e : env.sha256Hex tr0.TEMPLATE = env.sha256Hex tr.TEMPLATE := by
        rw [← hwf.tid d tr0 htr0, ← htid1 tr htr, hid0, htrid]
      rw [hinj _ (hold tr0 htr0) _ (hall tr htr) e, htt]
    · right
      refine ⟨hlid.symm.trans hp, ?_⟩
      have e : env.sha256Hex tr.TEMPLATE = env.sha256Hex t1 := by
        rw [← htid1 tr htr, htrid, hid1]
      rw [← htt, hinj _ (hall tr htr) _ (hnew t1 ht1) e]
      exact ht1
  · rintro (⟨l, hl, hlid, tr, htr, htrid, htt⟩ | ⟨hid, ht⟩)
    · exact ⟨l, hdone.rel_mono l hl, hlid, tr, hdone.tpl_mono tr htr, htrid, htt⟩
    · obtain ⟨tr, htr, htrid⟩ := hdone.tpl_has t ht
      refine ⟨⟨policy.ID, env.sha256Hex t⟩, hdone.rel_has t ht, hid.symm, tr, htr, htrid, ?_⟩
      exact hinj _ (hall tr htr) _ (hnew t ht) ((htid1 tr htr).symm.trans htrid)

/-- What `Get` returns: the identifier asked for, in each dimension the
non-empty templates linked to it, and the scalar fields of a stored policy row
with that identifier. -/
theorem Get_content (env : Env) (f : Faults) (db : Store) (id : String) (q : DefaultPolicy)
    (hq : f.query = none) (h : Get env f db id = .ok q) :
    q.ID = id ∧
      (∀ t, t ∈ q.Subjects ↔ Linked db .s id t ∧ t ≠ "") ∧
      (∀ t, t ∈ q.Actions ↔ Linked db .a id t ∧ t ≠ "") ∧
      (∀ t, t ∈ q.Resources ↔ Linked db .r id t ∧ t ≠ "") ∧
      ∃ p ∈ db.p, p.ID = id ∧ q.Effect = p.EFFECT ∧ q.Description = p.DESCRIPTION ∧
        env.Unmarshal p.CONDITIONS = some q.Conditions := by
  unfold Get at h
  simp only [hq] at h
  cases hsr : scanRows env f
      (env.rowOrder ((policyGetAllQuery db).filter fun row => decide (row.ID = id))) with
  | error e => simp [hsr] at h
  | ok ps =>
    cases ps with
    | nil => simp [hsr] at h
    | cons q1 rest =>
      simp only [hsr, Except.ok.injEq] at h
      subst h
      have hmem : q1 ∈ q1 :: rest := List.mem_cons_self _ _
      obtain ⟨hsub, hact, hres, r0, hr0mem, _, h1, h2, h3⟩ :=
        scanRows_fields env f _ _ hsr q1 hmem
      have hk := ((scanRows_keys env f _ _ hsr).2 q1.ID).1
        (List.mem_map_of_mem (fun q => q.ID) hmem)
      obtain ⟨row, hrow, hrid⟩ := hk
      obtain ⟨hrowq, hrowid⟩ := (mem_selected env db id row).1 hrow
      have hid : q1.ID = id := hrid.symm.trans hrowid
      obtain ⟨p0, hp0, hp0id, _⟩ := query_scalars db row hrowq
      have hex : ∃ p ∈ db.p, p.ID = id := ⟨p0, hp0, hp0id.symm.trans hrowid⟩
      refine ⟨hid, ?_, ?_, ?_, ?_⟩
      · intro t
        rw [hsub t, hid]
        constructor
        · rintro ⟨r1, hr1, hr1id, hcol, hne⟩
          exact ⟨((query_subject db id t).1
            ⟨r1, ((mem_selected env db id r1).1 hr1).1, hr1id, hcol⟩).2, hne⟩
        · rintro ⟨hl, hne⟩
          obtain ⟨r1, hr1, hr1id, hcol⟩ := (query_subject db id t).2 ⟨hex, hl⟩
          exact ⟨r1, (mem_selected env db id r1).2 ⟨hr1, hr1id⟩, hr1id, hcol, hne⟩
      · intro t
        rw [hact t, hid]
        constructor
        · rintro ⟨r1, hr1, hr1id, hcol, hne⟩
          exact ⟨((query_action db id t).1
            ⟨r1, ((mem_selected env db id r1).1 hr1).1, hr1id, hcol⟩).2, hne⟩
        · rintro ⟨hl, hne⟩
          obtain ⟨r1, hr1, hr1id, hcol⟩ := (query_action db id t).2 ⟨hex, hl⟩
          exact ⟨r1, (mem_selected env db id r1).2 ⟨hr1, hr1id⟩, hr1id, hcol, hne⟩
      · intro t
        rw [hres t, hid]
        constructor
        · rintro ⟨r1, hr1, hr1id, hcol, hne⟩
          exact ⟨((query_resource db id t).1
            ⟨r1, ((mem_selected env db id r1).1 hr1).1, hr1id, hcol⟩).2, hne⟩
        · rintro ⟨hl, hne⟩
          obtain ⟨r1, hr1, hr1id, hcol⟩ := (query_resource db id t).2 ⟨hex, hl⟩
          exact ⟨r1, (mem_selected env db id r1).2 ⟨hr1, hr1id⟩, hr1id, hcol, hne⟩
      · obtain ⟨hr0q, hr0id⟩ := (mem_selected env db id r0).1 hr0mem
        obtain ⟨p1, hp1, e1, e2, e3, e4⟩ := query_scalars db r0 hr0q
        exact ⟨p1, hp1, e1.symm.trans hr0id, h1.trans e2, h2.trans e3, by rw [← e4]; exact h3⟩

/-- `Get` returns a policy when a row with the identifier is stored and the
conditions stored under that identifier decode. -/
theorem Get_ok (env : Env) (f : Faults) (db : Store) (id : String)
    (hq : f.query = none) (hs : ∀ row, f.scan row = none)
    (hex : ∃ p ∈ db.p, p.ID = id)
    (hdec : ∀ p ∈ db.p, p.ID = id → env.Unmarshal p.CONDITIONS ≠ none) :
    ∃ q, Get env f db id = .ok q := by
  have hall : ∀ row ∈ env.rowOrder
      ((policyGetAllQuery db).filter fun row => decide (row.ID = id)),
      f.scan row = none ∧ env.Unmarshal row.CONDITIONS ≠ none := by
    intro row hrow
    obtain ⟨hrq, hrid⟩ := (mem_selected env db id row).1 hrow
    obtain ⟨p1, hp1, h1, _, _, h4⟩ := query_scalars db row hrq
    exact ⟨hs row, by rw [h4]; exact hdec p1 hp1 (h1 ▸ hrid)⟩
  obtain ⟨ps, hps⟩ := (scanRows_ok_iff env f _).2 hall
  cases ps with
  | nil =>
    obtain ⟨p, hp, hid⟩ := hex
    have := (selected_eq_nil_iff env db id).1 ((scanRows_nil_iff env f _).1 hps) p hp
    exact absurd hid this
  | cons q rest => exact ⟨q, by unfold Get; simp only [hq, hps]⟩

set_option maxRecDepth 100000 in
/-- C1 fails as stated. The identifier of `policyEmpty` is not stored in the
empty tables and its templates all compile, one of them being the empty
string: the insert of the template row is refused (`TEMPLATE` is `NOT NULL`),
`Create` returns the error and stores nothing, and `Get` fails with
`NotFound`. The same happens for `policyNoEffect`, whose templates compile and
whose effect is empty: the insert of the policy row is refused (`EFFECT` is
`NOT NULL`). -/
theorem Create_refuses_empty_values :
    ((∀ x ∈ Store.empty.p, x.ID ≠ policyEmpty.ID) ∧
      (∀ d, ∀ t ∈ policyEmpty.templates d,
        sampleEnv.CompileRegex t policyEmpty.StartDelimiter policyEmpty.EndDelimiter ≠ none) ∧
      "" ∈ policyEmpty.Actions ∧
      Create sampleEnv Faults.none Store.empty policyEmpty
        = (some Error.constraint, Store.empty) ∧
      Get sampleEnv Faults.none (Create sampleEnv Faults.none Store.empty policyEmpty).2
          policyEmpty.ID = .error .notFound) ∧
    ((∀ x ∈ Store.empty.p, x.ID ≠ policyNoEffect.ID) ∧
      (∀ d, ∀ t ∈ policyNoEffect.templates d,
        sampleEnv.CompileRegex t policyNoEffect.StartDelimiter policyNoEffect.EndDelimiter
          ≠ none) ∧
      policyNoEffect.Effect = "" ∧
      Create sampleEnv Faults.none Store.empty policyNoEffect
        = (some Error.constraint, Store.empty) ∧
      Get sampleEnv Faults.none (Create sampleEnv Faults.none Store.empty policyNoEffect).2
          policyNoEffect.ID = .error .notFound) :=
  ⟨⟨by decide, by intro d; cases d <;> decide, by decide, rfl, rfl⟩,
    ⟨by decide, by intro d; cases d <;> decide, rfl, rfl, rfl⟩⟩

/-- C1, amended: round trip. On a healthy driver and tables that keep their
integrity (as all reachable tables do, `Reachable.wf`), with a digest that
has no collision among the stored texts and the templates of the policy: for
every policy whose identifier is not stored, whose identifier and effect are
not empty, whose templates all compile and are not empty, whose compiled
expressions do not hit the `UNIQUE` constraint and whose conditions pass
through the codec, `Create` returns no error and `Get` of the identifier
returns a policy with the same identifier, description, effect and conditions
(a `nil` map reads back empty) and, in each dimension, the same set of
templates. -/
theorem Create_Get_roundtrip (env : Env) (db : Store) (policy : Policy)
    (hinj : ∀ d,
      DigestInjOn env ((db.tpl d).map (fun tr => tr.TEMPLATE) ++ policy.templates d))
    (hwf : db.WF env)
    (hnew : ∀ x ∈ db.p, x.ID ≠ policy.ID)
    (hid : policy.ID ≠ "") (heff : policy.Effect ≠ "")
    (hcompile : ∀ d, ∀ t ∈ policy.templates d,
      env.CompileRegex t policy.StartDelimiter policy.EndDelimiter ≠ none)
    (hnonempty : ∀ d, ∀ t ∈ policy.templates d, t ≠ "")
    (hclash : NoCompiledClash env db policy)
    (hcodec : ∃ b, conditionsOf env policy = some b ∧
      env.Unmarshal b = some (policy.Conditions.getD [])) :
    (Create env Faults.none db policy).1 = none ∧
      ∃ q, Get env Faults.none (Create env Faults.none db policy).2 policy.ID = .ok q ∧
        q.ID = policy.ID ∧ q.Description = policy.Description ∧ q.Effect = policy.Effect ∧
        q.Conditions = policy.Conditions.getD [] ∧
        (∀ t, t ∈ q.Subjects ↔ t ∈ policy.Subjects) ∧
        (∀ t, t ∈ q.Actions ↔ t ∈ policy.Actions) ∧
        (∀ t, t ∈ q.Resources ↔ t ∈ policy.Resources) := by
  obtain ⟨b, hb, hdecode⟩ := hcodec
  obtain ⟨db1, hcreate, hp1, hdone⟩ :=
    Create_ok env db policy b hwf.tid hb hcompile hclash hid heff hnonempty
  have hnot : ¬ ∃ x ∈ db.p, x.ID = policy.ID := fun ⟨x, hx, hid⟩ => hnew x hx hid
  simp only [hnot, if_false] at hp1
  rw [hcreate]
  have hrow : ∀ p ∈ db1.p, p.ID = policy.ID →
      p = ⟨policy.ID, policy.Description, policy.Effect, b⟩ := by
    intro p hp hid
    rw [hp1] at hp
    rcases List.mem_append.1 hp with h | h
    · exact absurd hid (hnew p h)
    · exact List.mem_singleton.1 h
  have hex : ∃ p ∈ db1.p, p.ID = policy.ID :=
    ⟨⟨policy.ID, policy.Description, policy.Effect, b⟩, by rw [hp1]; simp, rfl⟩
  obtain ⟨q, hget⟩ := Get_ok env Faults.none db1 policy.ID rfl (fun _ => rfl) hex
    (by
      intro p hp hid
      rw [hrow p hp hid]
      simp only [hdecode]
      exact fun h => by cases h)
  obtain ⟨hid, hsub, hact, hres, p, hp, hpid, he, hd, hc⟩ :=
    Get_content env Faults.none db1 policy.ID q rfl hget
  have hlinked : ∀ d t, Linked db1 d policy.ID t ∧ t ≠ "" ↔ t ∈ policy.templates d := by
    intro d t
    rw [Linked_after_Create env db db1 policy d (hinj d) hwf (hdone d) policy.ID t]
    constructor
    · rintro ⟨⟨l, hl, hlid, _⟩ | ⟨_, ht⟩, _⟩
      · obtain ⟨x, hx, hxid⟩ := hwf.fk_policy d l hl
        exact absurd (hxid.trans hlid) (hnew x hx)
      · exact ht
    · intro ht
      exact ⟨Or.inr ⟨rfl, ht⟩, hnonempty d t ht⟩
  have hpe := hrow p hp hpid
  subst hpe
  simp only at he hd hc
  refine ⟨rfl, q, hget, hid, hd, he, ?_, ?_, ?_, ?_⟩
  · rw [hdecode] at hc
    exact (Option.some.inj hc).symm
  · intro t; rw [hsub t]; exact hlinked .s t
  · intro t; rw [hact t]; exact hlinked .a t
  · intro t; rw [hres t]; exact hlinked .r t

theorem sampleEnv_injective : Function.Injective sampleEnv.sha256Hex := by
  intro a b h
  have h1 : ("#" ++ a).data = ("#" ++ b).data := congrArg String.data h
  simp only [String.data_append, List.append_cancel_left_eq] at h1
  exact String.ext h1

set_option maxRecDepth 100000 in
theorem storeAB_wf : storeAB.WF sampleEnv :=
  ⟨by intro d; cases d <;> decide, by intro d; cases d <;> decide,
    by intro d; cases d <;> decide⟩

set_option maxRecDepth 100000 in
theorem policyNew_noClash : NoCompiledClash sampleEnv storeAB policyNew := by
  intro d t ht c hc
  cases d with
  | a =>
    have e : t = "read" := by simpa [Policy.templates, policyNew] using ht
    subst e
    have hc1 : sampleEnv.CompileRegex "read" policyNew.StartDelimiter policyNew.EndDelimiter
        = some "^read$" := rfl
    rw [hc1] at hc
    cases hc
    exact ⟨by decide, by decide⟩
  | r => simp [Policy.templates, policyNew] at ht
  | s =>
    have e : t = "carol" := by simpa [Policy.templates, policyNew] using ht
    subst e
    have hc1 : sampleEnv.CompileRegex "carol" policyNew.StartDelimiter policyNew.EndDelimiter
        = some "^carol$" := rfl
    rw [hc1] at hc
    cases hc
    exact ⟨by decide, by decide⟩

set_option maxRecDepth 100000 in
/-- Witness of the amended C1: `policyNew` on the tables of `storeAB`. -/
theorem Create_Get_roundtrip_witness :
    storeAB.WF sampleEnv ∧ (∀ x ∈ storeAB.p, x.ID ≠ policyNew.ID) ∧
      (Create sampleEnv Faults.none storeAB policyNew).1 = none ∧
      ∃ q, Get sampleEnv Faults.none (Create sampleEnv Faults.none storeAB policyNew).2
          policyNew.ID = .ok q ∧
        q.ID = policyNew.ID ∧ q.Description = policyNew.Description ∧
        q.Effect = policyNew.Effect ∧ q.Conditions = policyNew.Conditions.getD [] ∧
        (∀ t, t ∈ q.Subjects ↔ t ∈ policyNew.Subjects) ∧
        (∀ t, t ∈ q.Actions ↔ t ∈ policyNew.Actions) ∧
        (∀ t, t ∈ q.Resources ↔ t ∈ policyNew.Resources) :=
  ⟨storeAB_wf, by decide,
    Create_Get_roundtrip sampleEnv storeAB policyNew
      (fun _ _ _ _ _ e => sampleEnv_injective e) storeAB_wf (by decide)
      (by decide) (by decide) (by intro d; cases d <;> decide)
      (by intro d; cases d <;> decide) policyNew_noClash
      ⟨"\x7bip=10.0.0.0/8\x7d", rfl, rfl⟩⟩

set_option maxRecDepth 100000 in
/-- The `UNIQUE` constraint on `COMPILED` at work: `storeAB` holds the subject
template `<.+>@example.com`; a policy with the delimiters `[` and `]` and the
subject template `[.+]@example.com` compiles to the same expression under
another digest, the insert is refused and `Create` returns the error. -/
theorem Create_compiled_clash :
    sampleEnv.CompileRegex "[.+]@example.com" '[' ']'
        = sampleEnv.CompileRegex "<.+>@example.com" '<' '>' ∧
      (Create sampleEnv Faults.none storeAB
        { ID := "D", Description := "", Effect := "allow", Conditions := none,
          Subjects := ["[.+]@example.com"], Actions := [], Resources := [],
          StartDelimiter := '[', EndDelimiter := ']' }) = (some Error.constraint, storeAB) :=
  ⟨rfl, rfl⟩

/-! ## What a successful `Create` has done, for any driver -/

theorem Tx.Exec_ok (f : Faults) (tx tx1 : Tx) (stmt : Store → Except Error Store)
    (h : tx.Exec f stmt = .ok tx1) :
    ∃ w, stmt tx.work = .ok w ∧ tx1 = { tx with work := w, n := tx.n + 1 } := by
  unfold Tx.Exec at h
  by_cases hf : f.exec tx.n = true
  · simp [hf] at h
  · cases hs : stmt tx.work with
    | error e => simp [hf, hs] at h
    | ok w =>
      simp only [hf, hs, Bool.false_eq_true, if_false, Except.ok.injEq] at h
      exact ⟨w, rfl, h.symm⟩

theorem insertTemplate_post (d : Dim) (row : TemplateRow) (w w1 : Store)
    (h : insertTemplate d row w = .ok w1) :
    w1.p = w.p ∧ (∀ d1, w1.rel d1 = w.rel d1) ∧ (∀ d1, d1 ≠ d → w1.tpl d1 = w.tpl d1) ∧
      (((∃ x ∈ w.tpl d, x.ID = row.ID) ∧ w1.tpl d = w.tpl d) ∨
        ((∀ x ∈ w.tpl d, x.ID ≠ row.ID ∧ x.COMPILED ≠ row.COMPILED ∧
            x.TEMPLATE ≠ row.TEMPLATE) ∧ w1.tpl d = w.tpl d ++ [row])) := by
  unfold insertTemplate at h
  have hnn : ¬ (row.TEMPLATE = "") := by
    intro hn
    simp [hn] at h
  simp only [hnn, if_false] at h
  by_cases h1 : ∃ x ∈ w.tpl d, x.ID = row.ID
  · simp only [h1, if_true, Except.ok.injEq] at h
    subst h
    exact ⟨rfl, fun _ => rfl, fun _ _ => rfl, Or.inl ⟨h1, rfl⟩⟩
  · by_cases h2 : ∃ x ∈ w.tpl d, x.COMPILED = row.COMPILED ∨ x.TEMPLATE = row.TEMPLATE
    · simp [h1, h2] at h
    · simp only [h1, h2, if_false, Except.ok.injEq] at h
      subst h
      refine ⟨p_setTpl _ _ _, fun d1 => rel_setTpl _ _ _ _, ?_, Or.inr ⟨?_, by simp [tpl_setTpl]⟩⟩
      · intro d1 hd1
        simp [tpl_setTpl, hd1]
      · intro x hx
        exact ⟨fun e => h1 ⟨x, hx, e⟩, fun e => h2 ⟨x, hx, Or.inl e⟩,
          fun e => h2 ⟨x, hx, Or.inr e⟩⟩

theorem insertLink_post (d : Dim) (row : LinkRow) (w w1 : Store)
    (h : insertLink d row w = .ok w1) :
    w1.p = w.p ∧ (∀ d1, w1.tpl d1 = w.tpl d1) ∧ (∀ d1, d1 ≠ d → w1.rel d1 = w.rel d1) ∧
      ((row ∈ w.rel d ∧ w1.rel d = w.rel d) ∨
        (row ∉ w.rel d ∧ (∃ x ∈ w.p, x.ID = row.POLICY) ∧
          (∃ x ∈ w.tpl d, x.ID = row.TEMPLATE_ID) ∧ w1.rel d = w.rel d ++ [row])) := by
  unfold insertLink at h
  by_cases h1 : ∃ x ∈ w.rel d, x.POLICY = row.POLICY ∧ x.TEMPLATE_ID = row.TEMPLATE_ID
  · simp only [h1, if_true, Except.ok.injEq] at h
    subst h
    obtain ⟨x, hx, e1, e2⟩ := h1
    have : x = row := by
      cases x; cases row; simp only at e1 e2; simp [e1, e2]
    exact ⟨rfl, fun _ => rfl, fun _ _ => rfl, Or.inl ⟨this ▸ hx, rfl⟩⟩
  · by_cases h2 : (∃ x ∈ w.p, x.ID = row.POLICY) ∧ (∃ x ∈ w.tpl d, x.ID = row.TEMPLATE_ID)
    · simp only [h1, h2, and_self, if_true, if_false, Except.ok.injEq] at h
      subst h
      refine ⟨p_setRel _ _ _, fun d1 => tpl_setRel _ _ _ _, ?_,
        Or.inr ⟨fun hmem => h1 ⟨row, hmem, rfl, rfl⟩, h2.1, h2.2, by simp [rel_setRel]⟩⟩
      intro d1 hd1
      simp [rel_setRel, hd1]
    · simp [h1, h2] at h

/-- Integrity of the tables passes through the loop of `Create` over the
templates of one dimension, whatever the driver does. -/
theorem createTemplates_wf (env : Env) (f : Faults) (policy : Policy) (d : Dim)
    (ts : List String) :
    ∀ tx tx1 : Tx, createTemplates env f policy d ts tx = .ok tx1 → tx.work.WF env →
      tx1.work.WF env ∧ tx1.work.p = tx.work.p := by
  induction ts with
  | nil =>
    intro tx tx1 h hwf
    simp only [createTemplates, Except.ok.injEq] at h
    subst h
    exact ⟨hwf, rfl⟩
  | cons t rest ih =>
    intro tx tx1 h hwf
    simp only [createTemplates] at h
    cases hc : env.CompileRegex t policy.StartDelimiter policy.EndDelimiter with
    | none => simp [hc] at h
    | some c =>
      simp only [hc] at h
      cases h1 : tx.Exec f (insertTemplate d
          { ID := env.sha256Hex t
            TEMPLATE := t
            COMPILED := c
            HAS_REGEX :=
              decide (stringsIndex t (String.singleton policy.StartDelimiter) > -1) }) with
      | error e => simp [h1] at h
      | ok txa =>
        simp only [h1] at h
        cases h2 : txa.Exec f (insertLink d
            { POLICY := policy.ID, TEMPLATE_ID := env.sha256Hex t }) with
        | error e => simp [h2] at h
        | ok txb =>
          simp only [h2] at h
          obtain ⟨wa, hwa, ea⟩ := Tx.Exec_ok f tx txa _ h1
          obtain ⟨wb, hwb, eb⟩ := Tx.Exec_ok f txa txb _ h2
          subst ea
          subst eb
          simp only at hwb
          obtain ⟨pa, rela, otha, casea⟩ := insertTemplate_post d _ tx.work wa hwa
          obtain ⟨pb, tplb, othb, caseb⟩ := insertLink_post d _ wa wb hwb
          have tplmono : ∀ d1, ∀ tr ∈ tx.work.tpl d1, tr ∈ wb.tpl d1 := by
            intro d1 tr htr
            rw [tplb d1]
            by_cases hd : d1 = d
            · subst hd
              rcases casea with ⟨_, e⟩ | ⟨_, e⟩
              · rw [e]; exact htr
              · rw [e]; exact List.mem_append_left _ htr
            · rw [otha d1 hd]; exact htr
          have hwfb : wb.WF env := by
            refine ⟨?_, ?_, ?_⟩
            · intro d1 tr htr
              rw [tplb d1] at htr
              by_cases hd : d1 = d
              · subst hd
                rcases casea with ⟨_, e⟩ | ⟨_, e⟩
                · rw [e] at htr; exact hwf.tid _ tr htr
                · rw [e] at htr
                  rcases List.mem_append.1 htr with h0 | h0
                  · exact hwf.tid _ tr h0
                  · rw [List.mem_singleton.1 h0]
              · rw [otha d1 hd] at htr; exact hwf.tid d1 tr htr
            · intro d1 l hl
              rw [pb, pa]
              by_cases hd : d1 = d
              · subst hd
                rcases caseb with ⟨_, e⟩ | ⟨_, hp, _, e⟩
                · rw [e, rela] at hl; exact hwf.fk_policy _ l hl
                · rw [e] at hl
                  rcases List.mem_append.1 hl with h0 | h0
                  · rw [rela] at h0; exact hwf.fk_policy _ l h0
                  · rw [List.mem_singleton.1 h0]
                    rw [pa] at hp
                    exact hp
              · rw [othb d1 hd, rela] at hl; exact hwf.fk_policy d1 l hl
            · intro d1 l hl
              by_cases hd : d1 = d
              · subst hd
                rcases caseb with ⟨_, e⟩ | ⟨_, _, ht, e⟩
                · rw [e, rela] at hl
                  obtain ⟨tr, htr, hid⟩ := hwf.fk_template _ l hl
                  exact ⟨tr, tplmono _ tr htr, hid⟩
                · rw [e] at hl
                  rcases List.mem_append.1 hl with h0 | h0
                  · rw [rela] at h0
                    obtain ⟨tr, htr, hid⟩ := hwf.fk_template _ l h0
                    exact ⟨tr, tplmono _ tr htr, hid⟩
                  · rw [List.mem_singleton.1 h0, tplb]
                    exact ht
              · rw [othb d1 hd, rela] at hl
                obtain ⟨tr, htr, hid⟩ := hwf.fk_template d1 l hl
                exact ⟨tr, tplmono _ tr htr, hid⟩
          obtain ⟨hwf1, hp1⟩ := ih _ tx1 h hwfb
          exact ⟨hwf1, by rw [hp1]; simp only; rw [pb, pa]⟩

theorem createRelations_wf (env : Env) (f : Faults) (policy : Policy)
    (vs : List (List String × Dim)) :
    ∀ tx tx1 : Tx, createRelations env f policy vs tx = .ok tx1 → tx.work.WF env →
      tx1.work.WF env ∧ tx1.work.p = tx.work.p := by
  induction vs with
  | nil =>
    intro tx tx1 h hwf
    simp only [createRelations, Except.ok.injEq] at h
    subst h
    exact ⟨hwf, rfl⟩
  | cons v rest ih =>
    intro tx tx1 h hwf
    simp only [createRelations] at h
    cases h1 : createTemplates env f policy v.2 v.1 tx with
    | error e => simp [h1] at h
    | ok txa =>
      simp only [h1] at h
      obtain ⟨hwfa, hpa⟩ := createTemplates_wf env f policy v.2 v.1 tx txa h1 hwf
      obtain ⟨hwf1, hp1⟩ := ih txa tx1 h hwfa
      exact ⟨hwf1, hp1.trans hpa⟩

theorem insertPolicy_wf (env : Env) (row : PolicyRow) (w w1 : Store)
    (h : insertPolicy row w = .ok w1) (hwf : w.WF env) : w1.WF env := by
  unfold insertPolicy at h
  have hnn : ¬ (row.ID = "" ∨ row.EFFECT = "") := by
    intro hn
    simp [hn] at h
  simp only [hnn, if_false] at h
  by_cases h1 : ∃ x ∈ w.p, x.ID = row.ID
  · simp only [h1, if_true, Except.ok.injEq] at h
    subst h
    exact hwf
  · simp only [h1, if_false, Except.ok.injEq] at h
    subst h
    refine ⟨?_, ?_, ?_⟩
    · intro d tr htr
      have : ({ w with p := w.p ++ [row] } : Store).tpl d = w.tpl d := by cases d <;> rfl
      rw [this] at htr
      exact hwf.tid d tr htr
    · intro d l hl
      have : ({ w with p := w.p ++ [row] } : Store).rel d = w.rel d := by cases d <;> rfl
      rw [this] at hl
      obtain ⟨x, hx, hid⟩ := hwf.fk_policy d l hl
      exact ⟨x, List.mem_append_left _ hx, hid⟩
    · intro d l hl
      have e1 : ({ w with p := w.p ++ [row] } : Store).rel d = w.rel d := by cases d <;> rfl
      have e2 : ({ w with p := w.p ++ [row] } : Store).tpl d = w.tpl d := by cases d <;> rfl
      rw [e1] at hl
      rw [e2]
      exact hwf.fk_template d l hl

/-- `Create` keeps the integrity of the committed tables, whatever the driver
does and whatever it returns. -/
theorem Create_wf (env : Env) (f : Faults) (db : Store) (policy : Policy) (hwf : db.WF env) :
    (Create env f db policy).2.WF env := by
  unfold Create
  cases hc : conditionsOf env policy with
  | none => exact hwf
  | some conditions =>
    simp only
    cases hb : Begin f db with
    | error e => exact hwf
    | ok tx =>
      have htx : tx = { base := db, work := db, n := 0 } := by
        unfold Begin at hb
        by_cases hf : f.begin = true
        · simp [hf] at hb
        · simp only [hf, Bool.false_eq_true, if_false, Except.ok.injEq] at hb
          exact hb.symm
      subst htx
      simp only
      cases h1 : Tx.Exec f { base := db, work := db, n := 0 } (insertPolicy
          { ID := policy.ID
            DESCRIPTION := policy.Description
            EFFECT := policy.Effect
            CONDITIONS := conditions }) with
      | error e => simpa [Tx.Rollback] using hwf
      | ok tx1 =>
        obtain ⟨w, hw, e1⟩ := Tx.Exec_ok f _ tx1 _ h1
        have hwf1 : tx1.work.WF env := by
          subst e1
          exact insertPolicy_wf env _ db w hw hwf
        have b1 : tx1.base = db := by subst e1; rfl
        simp only
        cases h2 : createRelations env f policy (relations policy) tx1 with
        | error e =>
          simp only
          rw [(createRelations_base env f policy (relations policy) tx1).2 e h2, b1]
          exact hwf
        | ok tx2 =>
          obtain ⟨hwf2, _⟩ := createRelations_wf env f policy (relations policy) tx1 tx2 h2 hwf1
          have b2 : tx2.base = db :=
            ((createRelations_base env f policy (relations policy) tx1).1 tx2 h2).1.trans b1
          simp only
          cases h3 : tx2.Commit f with
          | error e => simpa [Tx.Rollback, b2] using hwf
          | ok committed =>
            simp only
            unfold Tx.Commit at h3
            by_cases hf : f.commit = true
            · simp [hf] at h3
            · simp only [hf, Bool.false_eq_true, if_false, Except.ok.injEq] at h3
              rw [← h3]
              exact hwf2

/-- `Delete` keeps the integrity of the committed tables. -/
theorem Delete_wf (env : Env) (f : Faults) (db : Store) (id : String) (hwf : db.WF env) :
    (Delete f db id).2.WF env := by
  unfold Delete
  by_cases hf : f.exec 0 = true
  · simpa [hf] using hwf
  · simp only [hf, Bool.false_eq_true, if_false, deletePolicy]
    refine ⟨?_, ?_, ?_⟩
    · intro d tr htr
      cases d
      · exact hwf.tid .a tr htr
      · exact hwf.tid .r tr htr
      · exact hwf.tid .s tr htr
    · intro d l hl
      have key : ∀ (rel : List LinkRow), (∀ l ∈ rel, ∃ x ∈ db.p, x.ID = l.POLICY) →
          l ∈ rel.filter (fun x => decide (x.POLICY ≠ id)) →
          ∃ x ∈ db.p.filter (fun x => decide (x.ID ≠ id)), x.ID = l.POLICY := by
        intro rel hrel hl
        obtain ⟨hl1, hl2⟩ := List.mem_filter.1 hl
        obtain ⟨x, hx, hid⟩ := hrel l hl1
        refine ⟨x, List.mem_filter.2 ⟨hx, ?_⟩, hid⟩
        simp only [ne_eq, decide_not, Bool.not_eq_true', decide_eq_false_iff_not] at hl2 ⊢
        rw [hid]; exact hl2
      cases d
      · exact key db.ar (hwf.fk_policy .a) hl
      · exact key db.rr (hwf.fk_policy .r) hl
      · exact key db.sr (hwf.fk_policy .s) hl
    · intro d l hl
      cases d
      · exact hwf.fk_template .a l (List.mem_filter.1 hl).1
      · exact hwf.fk_template .r l (List.mem_filter.1 hl).1
      · exact hwf.fk_template .s l (List.mem_filter.1 hl).1

/-- Every reachable store keeps its integrity. -/
theorem Reachable.wf (env : Env) (db : Store) (h : Reachable env db) : db.WF env := by
  induction h with
  | empty =>
    exact ⟨by intro d tr htr; cases d <;> simp [Store.empty, Store.tpl] at htr,
      by intro d l hl; cases d <;> simp [Store.empty, Store.rel] at hl,
      by intro d l hl; cases d <;> simp [Store.empty, Store.rel] at hl⟩
  | create f db policy _ ih => exact Create_wf env f db policy ih
  | delete f db id _ ih => exact Delete_wf env f db id ih

/-! ## Properties of the tables that every call keeps -/

/-- A property of the tables that the three insert statements of `Create` keep
passes through the loop over the templates of one dimension. -/
theorem createTemplates_preserves (env : Env) (f : Faults) (policy : Policy) (d : Dim)
    (P : Store → Prop)
    (htpl : ∀ (t c : String) (w w1 : Store),
      env.CompileRegex t policy.StartDelimiter policy.EndDelimiter = some c →
      insertTemplate d
        { ID := env.sha256Hex t
          TEMPLATE := t
          COMPILED := c
          HAS_REGEX := decide (stringsIndex t (String.singleton policy.StartDelimiter) > -1) }
        w = .ok w1 → P w → P w1)
    (hlink : ∀ (t : String) (w w1 : Store),
      insertLink d { POLICY := policy.ID, TEMPLATE_ID := env.sha256Hex t } w = .ok w1 →
      P w → P w1)
    (ts : List String) :
    ∀ tx tx1 : Tx, createTemplates env f policy d ts tx = .ok tx1 → P tx.work → P tx1.work := by
  induction ts with
  | nil =>
    intro tx tx1 h hP
    simp only [createTemplates, Except.ok.injEq] at h
    subst h
    exact hP
  | cons t rest ih =>
    intro tx tx1 h hP
    simp only [createTemplates] at h
    cases hc : env.CompileRegex t policy.StartDelimiter policy.EndDelimiter with
    | none => simp [hc] at h
    | some c =>
      simp only [hc] at h
      cases h1 : tx.Exec f (insertTemplate d
          { ID := env.sha256Hex t
            TEMPLATE := t
            COMPILED := c
            HAS_REGEX :=
              decide (stringsIndex t (String.singleton policy.StartDelimiter) > -1) }) with
      | error e => simp [h1] at h
      | ok txa =>
        simp only [h1] at h
        cases h2 : txa.Exec f (insertLink d
            { POLICY := policy.ID, TEMPLATE_ID := env.sha256Hex t }) with
        | error e => simp [h2] at h
        | ok txb =>
          simp only [h2] at h
          obtain ⟨wa, hwa, ea⟩ := Tx.Exec_ok f tx txa _ h1
          obtain ⟨wb, hwb, eb⟩ := Tx.Exec_ok f txa txb _ h2
          subst ea
          subst eb
          simp only at hwb
          exact ih _ tx1 h (hlink t wa wb hwb (htpl t c tx.work wa hc hwa hP))

/-- A property of the tables that the insert statements of `Create` keep holds
for the committed tables after `Create`, whatever the driver does and whatever
`Create` returns. -/
theorem Create_preserves (env : Env) (f : Faults) (db : Store) (policy : Policy)
    (P : Store → Prop)
    (hpol : ∀ (row : PolicyRow) (w w1 : Store), row.ID = policy.ID →
      insertPolicy row w = .ok w1 → P w → P w1)
    (htpl : ∀ (d : Dim) (t c : String) (w w1 : Store),
      env.CompileRegex t policy.StartDelimiter policy.EndDelimiter = some c →
      insertTemplate d
        { ID := env.sha256Hex t
          TEMPLATE := t
          COMPILED := c
          HAS_REGEX := decide (stringsIndex t (String.singleton policy.StartDelimiter) > -1) }
        w = .ok w1 → P w → P w1)
    (hlink : ∀ (d : Dim) (t : String) (w w1 : Store),
      insertLink d { POLICY := policy.ID, TEMPLATE_ID := env.sha256Hex t } w = .ok w1 →
      P w → P w1)
    (hP : P db) : P (Create env f db policy).2 := by
  unfold Create
  cases hc : conditionsOf env policy with
  | none => exact hP
  | some conditions =>
    simp only
    cases hb : Begin f db with
    | error e => exact hP
    | ok tx =>
      have htx : tx = { base := db, work := db, n := 0 } := by
        unfold Begin at hb
        by_cases hf : f.begin = true
        · simp [hf] at hb
        · simp only [hf, Bool.false_eq_true, if_false, Except.ok.injEq] at hb
          exact hb.symm
      subst htx
      simp only
      cases h1 : Tx.Exec f { base := db, work := db, n := 0 } (insertPolicy
          { ID := policy.ID
            DESCRIPTION := policy.Description
            EFFECT := policy.Effect
            CONDITIONS := conditions }) with
      | error e => simpa [Tx.Rollback] using hP
      | ok tx1 =>
        obtain ⟨w, hw, e1⟩ := Tx.Exec_ok f _ tx1 _ h1
        have hP1 : P tx1.work := by
          subst e1
          exact hpol _ db w rfl hw hP
        have b1 : tx1.base = db := by subst e1; rfl
        simp only
        cases h2 : createRelations env f policy (relations policy) tx1 with
        | error e =>
          simp only
          rw [(createRelations_base env f policy (relations policy) tx1).2 e h2, b1]
          exact hP
        | ok tx2 =>
          have b2 : tx2.base = db :=
            ((createRelations_base env f policy (relations policy) tx1).1 tx2 h2).1.trans b1
          have hP2 : P tx2.work := by
            simp only [relations, createRelations] at h2
            cases ha : createTemplates env f policy .a policy.Actions tx1 with
            | error e => simp [ha] at h2
            | ok txa =>
              simp only [ha] at h2
              cases hr : createTemplates env f policy .r policy.Resources txa with
              | error e => simp [hr] at h2
              | ok txr =>
                simp only [hr] at h2
                cases hs : createTemplates env f policy .s policy.Subjects txr with
                | error e => simp [hs] at h2
                | ok txs =>
                  simp only [hs, Except.ok.injEq] at h2
                  subst h2
                  exact createTemplates_preserves env f policy .s P (htpl .s) (hlink .s) _ txr txs
                    hs (createTemplates_preserves env f policy .r P (htpl .r) (hlink .r) _ txa
                      txr hr (createTemplates_preserves env f policy .a P (htpl .a) (hlink .a) _
                        tx1 txa ha hP1))
          simp only
          cases h3 : tx2.Commit f with
          | error e => simpa [Tx.Rollback, b2] using hP
          | ok committed =>
            simp only
            unfold Tx.Commit at h3
            by_cases hf : f.commit = true
            · simp [hf] at h3
            · simp only [hf, Bool.false_eq_true, if_false, Except.ok.injEq] at h3
              rw [← h3]
              exact hP2

theorem nodup_map_snoc {α β : Type} (g : α → β) (l : List α) (a : α)
    (h : (l.map g).Nodup) (hne : ∀ x ∈ l, g x ≠ g a) : ((l ++ [a]).map g).Nodup := by
  rw [List.map_append, List.nodup_append]
  refine ⟨h, by simp, ?_⟩
  intro b hb hb1
  simp only [List.map_cons, List.map_nil, List.mem_singleton] at hb1
  obtain ⟨x, hx, rfl⟩ := List.mem_map.1 hb
  exact hne x hx hb1

theorem insertPolicy_keys (row : PolicyRow) (w w1 : Store) (h : insertPolicy row w = .ok w1)
    (hk : w.Keys) : w1.Keys := by
  unfold insertPolicy at h
  have hnn : ¬ (row.ID = "" ∨ row.EFFECT = "") := by
    intro hn
    simp [hn] at h
  simp only [hnn, if_false] at h
  by_cases h1 : ∃ x ∈ w.p, x.ID = row.ID
  · simp only [h1, if_true, Except.ok.injEq] at h
    subst h
    exact hk
  · simp only [h1, if_false, Except.ok.injEq] at h
    subst h
    have e1 : ∀ d, ({ w with p := w.p ++ [row] } : Store).tpl d = w.tpl d := by
      intro d; cases d <;> rfl
    have e2 : ∀ d, ({ w with p := w.p ++ [row] } : Store).rel d = w.rel d := by
      intro d; cases d <;> rfl
    refine ⟨?_, ?_, ?_, ?_, ?_⟩
    · exact nodup_map_snoc _ _ _ hk.policy_pk (fun x hx e => h1 ⟨x, hx, e⟩)
    · intro d; rw [e1]; exact hk.template_pk d
    · intro d; rw [e1]; exact hk.template_text d
    · intro d; rw [e1]; exact hk.template_compiled d
    · intro d; rw [e2]; exact hk.link_pk d

theorem insertTemplate_keys (d : Dim) (row : TemplateRow) (w w1 : Store)
    (h : insertTemplate d row w = .ok w1) (hk : w.Keys) : w1.Keys := by
  obtain ⟨hp, hrel, hoth, hcase⟩ := insertTemplate_post d row w w1 h
  have htpl : ∀ d1, ((w1.tpl d1).map fun x => x.ID).Nodup ∧
      ((w1.tpl d1).map fun x => x.TEMPLATE).Nodup ∧
      ((w1.tpl d1).map fun x => x.COMPILED).Nodup := by
    intro d1
    by_cases hd : d1 = d
    · subst hd
      rcases hcase with ⟨_, e⟩ | ⟨hne, e⟩
      · rw [e]
        exact ⟨hk.template_pk _, hk.template_text _, hk.template_compiled _⟩
      · rw [e]
        exact ⟨nodup_map_snoc _ _ _ (hk.template_pk _) (fun x hx => (hne x hx).1),
          nodup_map_snoc _ _ _ (hk.template_text _) (fun x hx => (hne x hx).2.2),
          nodup_map_snoc _ _ _ (hk.template_compiled _) (fun x hx => (hne x hx).2.1)⟩
    · rw [hoth d1 hd]
      exact ⟨hk.template_pk _, hk.template_text _, hk.template_compiled _⟩
  exact ⟨by rw [hp]; exact hk.policy_pk, fun d1 => (htpl d1).1, fun d1 => (htpl d1).2.1,
    fun d1 => (htpl d1).2.2, fun d1 => by rw [hrel d1]; exact hk.link_pk d1⟩

theorem insertLink_keys (d : Dim) (row : LinkRow) (w w1 : Store)
    (h : insertLink d row w = .ok w1) (hk : w.Keys) : w1.Keys := by
  obtain ⟨hp, htpl, hoth, hcase⟩ := insertLink_post d row w w1 h
  refine ⟨by rw [hp]; exact hk.policy_pk, fun d1 => by rw [htpl d1]; exact hk.template_pk d1,
    fun d1 => by rw [htpl d1]; exact hk.template_text d1,
    fun d1 => by rw [htpl d1]; exact hk.template_compiled d1, ?_⟩
  intro d1
  by_cases hd : d1 = d
  · subst hd
    rcases hcase with ⟨_, e⟩ | ⟨hnot, _, _, e⟩
    · rw [e]; exact hk.link_pk _
    · rw [e]
      exact List.Nodup.append (hk.link_pk _) (List.nodup_singleton _) (by simpa using hnot)
  · rw [hoth d1 hd]; exact hk.link_pk d1

/-- `Create` keeps the keys of the schema, whatever the driver does. -/
theorem Create_keys (env : Env) (f : Faults) (db : Store) (policy : Policy) (hk : db.Keys) :
    (Create env f db policy).2.Keys :=
  Create_preserves env f db policy (fun w => w.Keys)
    (fun row w w1 _ h => insertPolicy_keys row w w1 h)
    (fun d _ _ w w1 _ h => insertTemplate_keys d _ w w1 h)
    (fun d _ w w1 h => insertLink_keys d _ w w1 h) hk

/-- `Delete` keeps the keys of the schema. -/
theorem Delete_keys (f : Faults) (db : Store) (id : String) (hk : db.Keys) :
    (Delete f db id).2.Keys := by
  unfold Delete
  by_cases hf : f.exec 0 = true
  · simpa [hf] using hk
  · simp only [hf, Bool.false_eq_true, if_false, deletePolicy]
    have hsub : ∀ {α β : Type} (g : α → β) (l : List α) (p : α → Bool),
        (l.map g).Nodup → ((l.filter p).map g).Nodup :=
      fun g l p h => h.sublist ((List.filter_sublist l).map g)
    refine ⟨hsub _ _ _ hk.policy_pk, ?_, ?_, ?_, ?_⟩
    · intro d; cases d
      · exact hk.template_pk .a
      · exact hk.template_pk .r
      · exact hk.template_pk .s
    · intro d; cases d
      · exact hk.template_text .a
      · exact hk.template_text .r
      · exact hk.template_text .s
    · intro d; cases d
      · exact hk.template_compiled .a
      · exact hk.template_compiled .r
      · exact hk.template_compiled .s
    · intro d; cases d
      · exact (hk.link_pk .a).filter _
      · exact (hk.link_pk .r).filter _
      · exact (hk.link_pk .s).filter _

/-- Every reachable store satisfies the keys of the schema. -/
theorem Reachable.keys (env : Env) (db : Store) (h : Reachable env db) : db.Keys := by
  induction h with
  | empty =>
    exact ⟨by simp [Store.empty], by intro d; cases d <;> simp [Store.empty, Store.tpl],
      by intro d; cases d <;> simp [Store.empty, Store.tpl],
      by intro d; cases d <;> simp [Store.empty, Store.tpl],
      by intro d; cases d <;> simp [Store.empty, Store.rel]⟩
  | create f db policy _ ih => exact Create_keys env f db policy ih
  | delete f db id _ ih => exact Delete_keys f db id ih

/-- The tables of `storeAB` are reachable. -/
theorem storeAB_reachable : Reachable sampleEnv storeAB :=
  Reachable.create Faults.none _ policyB (Reachable.create Faults.none _ policyA Reachable.empty)

/-- C11: template identity. In every store reachable from the empty store by
calls of `Create` and `Delete`, whatever the driver did in each call, every
row of a template table has as identifier the digest of its template text,
and no template table holds two rows with the same template text: two rows
with the same text are one row. -/
theorem template_identity (env : Env) (db : Store) (h : Reachable env db) (d : Dim) :
    (∀ tr ∈ db.tpl d, tr.ID = env.sha256Hex tr.TEMPLATE) ∧
      ((db.tpl d).map fun tr => tr.TEMPLATE).Nodup ∧
      (∀ i j (hi : i < (db.tpl d).length) (hj : j < (db.tpl d).length),
        ((db.tpl d).get ⟨i, hi⟩).TEMPLATE = ((db.tpl d).get ⟨j, hj⟩).TEMPLATE → i = j) := by
  have hnd := (Reachable.keys env db h).template_text d
  refine ⟨(Reachable.wf env db h).tid d, hnd, ?_⟩
  intro i j hi hj hij
  have h1 : i < ((db.tpl d).map fun tr => tr.TEMPLATE).length := by simpa using hi
  have h2 : j < ((db.tpl d).map fun tr => tr.TEMPLATE).length := by simpa using hj
  have := (List.Nodup.get_inj_iff hnd (i := ⟨i, h1⟩) (j := ⟨j, h2⟩)).1 (by simpa using hij)
  simpa using this

set_option maxRecDepth 100000 in
/-- Witness of C11 on `storeAB`, whose two policies share the resource template
`doc`: the resource table holds one row for it. -/
theorem template_identity_witness :
    Reachable sampleEnv storeAB ∧
      storeAB.r = [⟨"#doc", false, "^doc$", "doc"⟩] ∧
      (∀ tr ∈ storeAB.tpl .r, tr.ID = sampleEnv.sha256Hex tr.TEMPLATE) ∧
      ((storeAB.tpl .r).map fun tr => tr.TEMPLATE).Nodup :=
  ⟨storeAB_reachable, rfl, (template_identity sampleEnv storeAB storeAB_reachable .r).1,
    (template_identity sampleEnv storeAB storeAB_reachable .r).2.1⟩

/-! ## The `NOT NULL` columns -/

theorem insertPolicy_notNull (row : PolicyRow) (w w1 : Store)
    (h : insertPolicy row w = .ok w1) (hn : w.NotNull) : w1.NotNull := by
  unfold insertPolicy at h
  have hnn : ¬ (row.ID = "" ∨ row.EFFECT = "") := by
    intro hn
    simp [hn] at h
  simp only [hnn, if_false] at h
  by_cases h1 : ∃ x ∈ w.p, x.ID = row.ID
  · simp only [h1, if_true, Except.ok.injEq] at h
    subst h
    exact hn
  · simp only [h1, if_false, Except.ok.injEq] at h
    subst h
    have e1 : ∀ d, ({ w with p := w.p ++ [row] } : Store).tpl d = w.tpl d := by
      intro d; cases d <;> rfl
    refine ⟨?_, ?_, fun d => by rw [e1]; exact hn.template d⟩
    · intro x hx
      rcases List.mem_append.1 hx with h2 | h2
      · exact hn.policy_id x h2
      · rw [List.mem_singleton.1 h2]
        exact fun e => hnn (Or.inl e)
    · intro x hx
      rcases List.mem_append.1 hx with h2 | h2
      · exact hn.policy_effect x h2
      · rw [List.mem_singleton.1 h2]
        exact fun e => hnn (Or.inr e)

theorem insertTemplate_notEmpty (d : Dim) (row : TemplateRow) (w w1 : Store)
    (h : insertTemplate d row w = .ok w1) : row.TEMPLATE ≠ "" := by
  intro hn
  simp [insertTemplate, hn] at h

theorem insertTemplate_notNull (d : Dim) (row : TemplateRow) (w w1 : Store)
    (h : insertTemplate d row w = .ok w1) (hn : w.NotNull) : w1.NotNull := by
  obtain ⟨hp, _, hoth, hcase⟩ := insertTemplate_post d row w w1 h
  refine ⟨by rw [hp]; exact hn.policy_id, by rw [hp]; exact hn.policy_effect, ?_⟩
  intro d1 tr htr
  by_cases hd : d1 = d
  · subst hd
    rcases hcase with ⟨_, e⟩ | ⟨_, e⟩
    · rw [e] at htr; exact hn.template d1 tr htr
    · rw [e] at htr
      rcases List.mem_append.1 htr with h1 | h1
      · exact hn.template d1 tr h1
      · rw [List.mem_singleton.1 h1]
        exact insertTemplate_notEmpty d1 row w w1 h
  · rw [hoth d1 hd] at htr; exact hn.template d1 tr htr

theorem insertLink_notNull (d : Dim) (row : LinkRow) (w w1 : Store)
    (h : insertLink d row w = .ok w1) (hn : w.NotNull) : w1.NotNull := by
  obtain ⟨hp, htpl, _, _⟩ := insertLink_post d row w w1 h
  exact ⟨by rw [hp]; exact hn.policy_id, by rw [hp]; exact hn.policy_effect,
    fun d1 => by rw [htpl d1]; exact hn.template d1⟩

/-- `Create` never stores an empty string in a `NOT NULL` column that its
caller fills, whatever the driver does. -/
theorem Create_notNull (env : Env) (f : Faults) (db : Store) (policy : Policy)
    (hn : db.NotNull) : (Create env f db policy).2.NotNull :=
  Create_preserves env f db policy (fun w => w.NotNull)
    (fun row w w1 _ h => insertPolicy_notNull row w w1 h)
    (fun d _ _ w w1 _ h => insertTemplate_notNull d _ w w1 h)
    (fun d _ w w1 h => insertLink_notNull d _ w w1 h) hn

theorem Delete_notNull (f : Faults) (db : Store) (id : String) (hn : db.NotNull) :
    (Delete f db id).2.NotNull := by
  unfold Delete
  by_cases hf : f.exec 0 = true
  · simpa [hf] using hn
  · simp only [hf, Bool.false_eq_true, if_false, deletePolicy]
    refine ⟨fun x hx => hn.policy_id x (List.mem_of_mem_filter hx),
      fun x hx => hn.policy_effect x (List.mem_of_mem_filter hx), ?_⟩
    intro d; cases d
    · exact hn.template .a
    · exact hn.template .r
    · exact hn.template .s

/-- No store that `Create` and `Delete` produce from the empty tables holds an
empty policy identifier, effect or template text. -/
theorem Reachable.notNull (env : Env) (db : Store) (h : Reachable env db) : db.NotNull := by
  induction h with
  | empty =>
    exact ⟨by simp [Store.empty], by simp [Store.empty],
      by intro d; cases d <;> simp [Store.empty, Store.tpl]⟩
  | create f db policy _ ih => exact Create_notNull env f db policy ih
  | delete f db id _ ih => exact Delete_notNull f db id ih

/-- In every store that `Create` and `Delete` produce a linked template is
never empty. -/
theorem Reachable.linked_ne_empty (env : Env) (db : Store) (h : Reachable env db) (d : Dim)
    (id t : String) (hl : Linked db d id t) : t ≠ "" :=
  Linked.ne_empty db d id t (Reachable.notNull env db h).template hl

/-! ## `Delete` -/

theorem filter_eq_self_of_forall {α : Type} (l : List α) (p : α → Bool)
    (h : ∀ x ∈ l, p x = true) : l.filter p = l :=
  List.filter_eq_self.2 h

/-- What a `Delete` that the driver runs leaves in the tables. -/
theorem Delete_ok (f : Faults) (db : Store) (id : String) (hexec : f.exec 0 = false) :
    (Delete f db id).1 = none ∧
      (Delete f db id).2.p = db.p.filter (fun x => decide (x.ID ≠ id)) ∧
      (∀ d, (Delete f db id).2.rel d = (db.rel d).filter (fun l => decide (l.POLICY ≠ id))) ∧
      (∀ d, (Delete f db id).2.tpl d = db.tpl d) := by
  have e : Delete f db id = (none, { db with
      p := db.p.filter (fun x => x.ID ≠ id)
      sr := db.sr.filter (fun x => x.POLICY ≠ id)
      ar := db.ar.filter (fun x => x.POLICY ≠ id)
      rr := db.rr.filter (fun x => x.POLICY ≠ id) }) := by
    simp [Delete, hexec, deletePolicy]
  rw [e]
  refine ⟨rfl, rfl, ?_, ?_⟩
  · intro d; cases d <;> rfl
  · intro d; cases d <;> rfl

/-- A `Delete` that the driver refuses changes nothing. -/
theorem Delete_refused (f : Faults) (db : Store) (id : String) (hexec : f.exec 0 = true) :
    Delete f db id = (some .driver, db) := by
  simp [Delete, hexec]

/-- C14: `Delete` of an absent identifier. When the driver runs the statement
and the link tables respect their foreign key to the policy table, `Delete(id)`
for an identifier that no policy row has returns no error and leaves every
table as it was. -/
theorem Delete_absent (f : Faults) (db : Store) (id : String) (hexec : f.exec 0 = false)
    (hfk : ∀ d, ∀ l ∈ db.rel d, ∃ x ∈ db.p, x.ID = l.POLICY)
    (habs : ∀ x ∈ db.p, x.ID ≠ id) : Delete f db id = (none, db) := by
  have hrel : ∀ d, ∀ l ∈ db.rel d, l.POLICY ≠ id := by
    intro d l hl
    obtain ⟨x, hx, hxl⟩ := hfk d l hl
    exact hxl ▸ habs x hx
  unfold Delete
  simp only [hexec, Bool.false_eq_true, if_false, deletePolicy]
  have e1 : db.p.filter (fun x => decide (x.ID ≠ id)) = db.p :=
    filter_eq_self_of_forall _ _ (fun x hx => decide_eq_true (habs x hx))
  have e2 : db.sr.filter (fun x => decide (x.POLICY ≠ id)) = db.sr :=
    filter_eq_self_of_forall _ _ (fun x hx => decide_eq_true (hrel .s x hx))
  have e3 : db.ar.filter (fun x => decide (x.POLICY ≠ id)) = db.ar :=
    filter_eq_self_of_forall _ _ (fun x hx => decide_eq_true (hrel .a x hx))
  have e4 : db.rr.filter (fun x => decide (x.POLICY ≠ id)) = db.rr :=
    filter_eq_self_of_forall _ _ (fun x hx => decide_eq_true (hrel .r x hx))
  rw [e1, e2, e3, e4]

set_option maxRecDepth 100000 in
/-- Witness of C14: no policy of `storeAB` is called `C`. -/
theorem Delete_absent_witness : Delete Faults.none storeAB "C" = (none, storeAB) :=
  Delete_absent Faults.none storeAB "C" rfl storeAB_wf.fk_policy (by decide)

/-- With no policy row under `id`, `Get(id)` fails with `NotFound` unless the
driver fails otherwise. -/
theorem Get_notFound_of_absent (env : Env) (f : Faults) (db : Store) (id : String)
    (hq : f.query ≠ some SqlError.other) (habs : ∀ x ∈ db.p, x.ID ≠ id) :
    Get env f db id = .error .notFound := by
  unfold Get
  cases hfq : f.query with
  | some e =>
    cases e with
    | errNoRows => rfl
    | other => exact absurd hfq hq
  | none =>
    have hnil := (selected_eq_nil_iff env db id).2 habs
    simp only [hnil, (scanRows_nil_iff env f []).2 rfl]

theorem leftJoin_filter_ne (rel : List LinkRow) (id pid : String) (h : pid ≠ id) :
    leftJoin (rel.filter fun l => decide (l.POLICY ≠ id)) (fun l => decide (l.POLICY = pid))
      = leftJoin rel (fun l => decide (l.POLICY = pid)) := by
  have : (rel.filter fun l => decide (l.POLICY ≠ id)).filter (fun l => decide (l.POLICY = pid))
      = rel.filter (fun l => decide (l.POLICY = pid)) := by
    rw [List.filter_filter]
    apply List.filter_congr
    intro l _
    by_cases hl : l.POLICY = pid
    · simp [hl, h]
    · simp [hl]
  unfold leftJoin
  rw [this]

/-- The rows that `Get` selects for another identifier are the same before and
after `Delete(id)`. -/
theorem selected_after_Delete (f : Faults) (db : Store) (id id2 : String)
    (hexec : f.exec 0 = false) (hne : id2 ≠ id) :
    ((policyGetAllQuery (Delete f db id).2).filter fun row => decide (row.ID = id2))
      = (policyGetAllQuery db).filter fun row => decide (row.ID = id2) := by
  unfold Delete
  simp only [hexec, Bool.false_eq_true, if_false, deletePolicy]
  unfold policyGetAllQuery
  simp only
  generalize db.p = ps
  induction ps with
  | nil => rfl
  | cons p ps ih =>
    by_cases hp : p.ID = id
    · have hskip : (p :: ps).filter (fun x => decide (x.ID ≠ id))
          = ps.filter (fun x => decide (x.ID ≠ id)) := by
        simp [List.filter_cons, hp]
      rw [hskip, ih, List.flatMap_cons, List.filter_append]
      have hnil : ∀ (l : List Row), (∀ row ∈ l, row.ID = p.ID) →
          l.filter (fun row => decide (row.ID = id2)) = [] := by
        intro l hl
        rw [List.filter_eq_nil_iff]
        intro row hrow
        have := hl row hrow
        simp [this, hp, Ne.symm hne]
      rw [List.self_eq_append_left]
      apply hnil
      · intro row hrow
        simp only [List.mem_flatMap, List.mem_map] at hrow
        obtain ⟨_, _, _, _, _, _, _, _, _, _, _, _, rfl⟩ := hrow
        rfl
    · have hkeep : (p :: ps).filter (fun x => decide (x.ID ≠ id))
          = p :: ps.filter (fun x => decide (x.ID ≠ id)) := by
        simp [List.filter_cons, hp]
      rw [hkeep, List.flatMap_cons, List.flatMap_cons, List.filter_append, List.filter_append, ih,
        leftJoin_filter_ne db.sr id p.ID hp, leftJoin_filter_ne db.ar id p.ID hp,
        leftJoin_filter_ne db.rr id p.ID hp]

/-- C15: what `Delete` removes and what it keeps. When the driver runs the
statement, `Delete(id)` returns no error; afterwards the policy table is the
old one without the rows of `id`, each link table is the old one without the
link rows of `id`, so that `Get(id)` fails with `NotFound`; every template
table is exactly as before, and `Get` of any other identifier returns what it
returned before. -/
theorem Delete_frame (env : Env) (f f2 : Faults) (db : Store) (id : String)
    (hexec : f.exec 0 = false) (hq : f2.query ≠ some SqlError.other) :
    (Delete f db id).1 = none ∧
      (Delete f db id).2.p = db.p.filter (fun x => decide (x.ID ≠ id)) ∧
      (∀ x ∈ (Delete f db id).2.p, x.ID ≠ id) ∧
      (∀ d, (Delete f db id).2.rel d = (db.rel d).filter (fun l => decide (l.POLICY ≠ id))) ∧
      (∀ d, ∀ l ∈ (Delete f db id).2.rel d, l.POLICY ≠ id) ∧
      Get env f2 (Delete f db id).2 id = .error .notFound ∧
      (∀ d, (Delete f db id).2.tpl d = db.tpl d) ∧
      (∀ id2, id2 ≠ id → Get env f2 (Delete f db id).2 id2 = Get env f2 db id2) := by
  obtain ⟨h1, h2, h3, h4⟩ := Delete_ok f db id hexec
  have hgone : ∀ x ∈ (Delete f db id).2.p, x.ID ≠ id := by
    intro x hx
    rw [h2] at hx
    simpa using (List.mem_filter.1 hx).2
  refine ⟨h1, h2, hgone, h3, ?_, Get_notFound_of_absent env f2 _ id hq hgone, h4, ?_⟩
  · intro d l hl
    rw [h3 d] at hl
    simpa using (List.mem_filter.1 hl).2
  · intro id2 hne
    unfold Get
    rw [selected_after_Delete f db id id2 hexec hne]

set_option maxRecDepth 100000 in
/-- Witness of C15: deleting policy `A` from `storeAB` keeps the shared resource
template and the rows of policy `B`. -/
theorem Delete_frame_witness :
    (Delete Faults.none storeAB "A").2.p = storeAB.p.filter (fun x => decide (x.ID ≠ "A")) ∧
      Get sampleEnv Faults.none (Delete Faults.none storeAB "A").2 "A" = .error .notFound ∧
      (Delete Faults.none storeAB "A").2.r = storeAB.r ∧
      Get sampleEnv Faults.none (Delete Faults.none storeAB "A").2 "B"
        = Get sampleEnv Faults.none storeAB "B" :=
  have h := Delete_frame sampleEnv Faults.none Faults.none storeAB "A" rfl (by decide)
  ⟨h.2.1, h.2.2.2.2.2.1, h.2.2.2.2.2.2.1 .r, h.2.2.2.2.2.2.2 "B" (by decide)⟩

/-! ## Link rows -/

/-- C16: link rows are valid. In every store reachable from the empty store by
calls of `Create` and `Delete`, whatever the driver did in each call, every
row of a link table names a policy row that is stored and a template row that
is stored in the template table of the same dimension. -/
theorem link_validity (env : Env) (db : Store) (h : Reachable env db) (d : Dim) :
    ∀ l ∈ db.rel d, (∃ x ∈ db.p, x.ID = l.POLICY) ∧ (∃ tr ∈ db.tpl d, tr.ID = l.TEMPLATE_ID) :=
  fun l hl => ⟨(Reachable.wf env db h).fk_policy d l hl, (Reachable.wf env db h).fk_template d l hl⟩

set_option maxRecDepth 100000 in
/-- Witness of C16 on the subject links of `storeAB`. -/
theorem link_validity_witness :
    Reachable sampleEnv storeAB ∧ storeAB.rel .s ≠ [] ∧
      ∀ l ∈ storeAB.rel .s,
        (∃ x ∈ storeAB.p, x.ID = l.POLICY) ∧ (∃ tr ∈ storeAB.tpl .s, tr.ID = l.TEMPLATE_ID) :=
  ⟨storeAB_reachable, by decide, link_validity sampleEnv storeAB storeAB_reachable .s⟩

/-! ## The pattern flag -/

theorem stringsIndexFrom_singleton (c : Char) (l : List Char) :
    ∀ i : Nat, (stringsIndexFrom [c] l i > -1 ↔ c ∈ l) ∧
      (stringsIndexFrom [c] l i = -1 ∨ (i : Int) ≤ stringsIndexFrom [c] l i) := by
  induction l with
  | nil => intro i; simp [stringsIndexFrom]
  | cons x xs ih =>
    intro i
    by_cases hx : c = x
    · subst hx
      simp only [stringsIndexFrom, List.isPrefixOf, beq_self_eq_true, Bool.and_self, if_true,
        List.mem_cons, true_or, iff_true]
      constructor
      · omega
      · right; exact le_refl _
    · have hb : (c == x) = false := by simpa using hx
      simp only [stringsIndexFrom, List.isPrefixOf, hb, Bool.false_and, Bool.false_eq_true,
        if_false, List.mem_cons, hx, false_or]
      refine ⟨(ih (i + 1)).1, ?_⟩
      rcases (ih (i + 1)).2 with h | h
      · left; exact h
      · right; push_cast at h; omega

/-- The flag computed by `strings.Index(template, string(delimiter)) > -1`. -/
theorem flag_iff (template : String) (c : Char) :
    decide (stringsIndex template (String.singleton c) > -1) = true ↔ c ∈ template.toList := by
  rw [decide_eq_true_iff]
  exact (stringsIndexFrom_singleton c template.toList 0).1

/-- C17: the pattern flag. The value that `Create` computes for `HAS_REGEX` is
true exactly when the start delimiter of the policy occurs in the template
text; and whatever the driver does, every template row that is in a template
table after `Create` and was not there before carries the flag computed from
its own text and the start delimiter of the created policy. -/
theorem has_regex_flag (env : Env) (f : Faults) (db : Store) (policy : Policy) :
    (∀ template : String,
      decide (stringsIndex template (String.singleton policy.StartDelimiter) > -1) = true
        ↔ policy.StartDelimiter ∈ template.toList) ∧
      ∀ d, ∀ tr ∈ (Create env f db policy).2.tpl d,
        tr ∈ db.tpl d ∨ (tr.HAS_REGEX = true ↔ policy.StartDelimiter ∈ tr.TEMPLATE.toList) := by
  refine ⟨fun template => flag_iff template _, ?_⟩
  refine Create_preserves env f db policy
    (fun w => ∀ d, ∀ tr ∈ w.tpl d,
      tr ∈ db.tpl d ∨ (tr.HAS_REGEX = true ↔ policy.StartDelimiter ∈ tr.TEMPLATE.toList))
    ?_ ?_ ?_ (fun d tr h => Or.inl h)
  · intro row w w1 _ h hP d tr htr
    have hw : w1.tpl d = w.tpl d := by
      unfold insertPolicy at h
      have hnn : ¬ (row.ID = "" ∨ row.EFFECT = "") := by
        intro hn
        simp [hn] at h
      simp only [hnn, if_false] at h
      by_cases h1 : ∃ x ∈ w.p, x.ID = row.ID
      · simp only [h1, if_true, Except.ok.injEq] at h
        subst h; rfl
      · simp only [h1, if_false, Except.ok.injEq] at h
        subst h; cases d <;> rfl
    rw [hw] at htr
    exact hP d tr htr
  · intro d t c w w1 _ h hP d1 tr htr
    obtain ⟨_, _, hoth, hcase⟩ := insertTemplate_post d _ w w1 h
    by_cases hd : d1 = d
    · subst hd
      rcases hcase with ⟨_, e⟩ | ⟨_, e⟩
      · rw [e] at htr; exact hP d1 tr htr
      · rw [e] at htr
        rcases List.mem_append.1 htr with h1 | h1
        · exact hP d1 tr h1
        · rw [List.mem_singleton.1 h1]
          exact Or.inr (flag_iff t _)
    · rw [hoth d1 hd] at htr; exact hP d1 tr htr
  · intro d t w w1 h hP d1 tr htr
    obtain ⟨_, htpl, _, _⟩ := insertLink_post d _ w w1 h
    rw [htpl d1] at htr
    exact hP d1 tr htr

set_option maxRecDepth 100000 in
/-- The pattern flags of the subject templates of `storeAB`. -/
theorem storeAB_flags :
    (storeAB.s.map fun tr => (tr.TEMPLATE, tr.HAS_REGEX))
      = [("alice", false), ("<.+>@example.com", true)] := by
  decide

/-! ## `Create` under a stored identifier -/

theorem query_row_of (db : Store) (p : PolicyRow) (hp : p ∈ db.p) :
    ∃ row ∈ policyGetAllQuery db, row.ID = p.ID ∧ row.CONDITIONS = p.CONDITIONS := by
  obtain ⟨rs, hrs⟩ := exists_mem_leftJoin db.sr (fun rs => decide (rs.POLICY = p.ID))
  obtain ⟨ra, hra⟩ := exists_mem_leftJoin db.ar (fun ra => decide (ra.POLICY = p.ID))
  obtain ⟨rr, hrr⟩ := exists_mem_leftJoin db.rr (fun rr => decide (rr.POLICY = p.ID))
  obtain ⟨ts, hts⟩ := exists_mem_leftJoin db.s (linkOn rs)
  obtain ⟨ta, hta⟩ := exists_mem_leftJoin db.a (linkOn ra)
  obtain ⟨tr, htr⟩ := exists_mem_leftJoin db.r (linkOn rr)
  exact ⟨selectRow p ts tr ta,
    (mem_policyGetAllQuery db _).2 ⟨p, hp, rs, hrs, ra, hra, rr, hrr, ts, hts, ta, hta, tr, htr, rfl⟩,
    rfl, rfl⟩

/-- When `Get(id)` returns a policy, the conditions of every policy row stored
under `id` decode. -/
theorem Get_decodes (env : Env) (f : Faults) (db : Store) (id : String) (q : DefaultPolicy)
    (hq : f.query = none) (h : Get env f db id = .ok q) :
    ∀ p ∈ db.p, p.ID = id → env.Unmarshal p.CONDITIONS ≠ none := by
  intro p hp hid
  unfold Get at h
  simp only [hq] at h
  cases hsr : scanRows env f
      (env.rowOrder ((policyGetAllQuery db).filter fun row => decide (row.ID = id))) with
  | error e => simp [hsr] at h
  | ok ps =>
    obtain ⟨row, hrow, hrid, hrc⟩ := query_row_of db p hp
    have := ((scanRows_ok_iff env f _).1 ⟨ps, hsr⟩ row
      ((mem_selected env db id row).2 ⟨hrow, hrid.trans hid⟩)).2
    rwa [hrc] at this

/-- C13, amended: `Create` under a stored identifier. On a healthy driver, with
a digest that has no collision among the stored texts and the templates of
`p`, and tables that keep their integrity and their primary key: when
`Get(i)` returns a policy, and `p.ID = i`, the identifier and the effect of
`p` are not empty, the conditions of `p` marshal, its templates compile and
are not empty, and its compiled expressions do not hit the `UNIQUE`
constraint, then `Create(p)` returns no error and leaves the policy table as
it was; `Get(i)` afterwards returns a policy with the same identifier,
description, effect and conditions as before, whose subjects, actions and
resources are those returned before together with the templates of `p`. -/
theorem Create_existing (env : Env) (db : Store) (policy : Policy) (q0 : DefaultPolicy)
    (hinj : ∀ d,
      DigestInjOn env ((db.tpl d).map (fun tr => tr.TEMPLATE) ++ policy.templates d))
    (hwf : db.WF env)
    (hpk : (db.p.map fun x => x.ID).Nodup)
    (hid : policy.ID ≠ "") (heff : policy.Effect ≠ "")
    (hnonempty : ∀ d, ∀ t ∈ policy.templates d, t ≠ "")
    (hcompile : ∀ d, ∀ t ∈ policy.templates d,
      env.CompileRegex t policy.StartDelimiter policy.EndDelimiter ≠ none)
    (hclash : NoCompiledClash env db policy)
    (hmarshal : conditionsOf env policy ≠ none)
    (hget : Get env Faults.none db policy.ID = .ok q0) :
    (Create env Faults.none db policy).1 = none ∧
      (Create env Faults.none db policy).2.p = db.p ∧
      ∃ q1, Get env Faults.none (Create env Faults.none db policy).2 policy.ID = .ok q1 ∧
        q1.ID = q0.ID ∧ q1.Description = q0.Description ∧ q1.Effect = q0.Effect ∧
        q1.Conditions = q0.Conditions ∧
        (∀ t, t ∈ q1.Subjects ↔ t ∈ q0.Subjects ∨ t ∈ policy.Subjects) ∧
        (∀ t, t ∈ q1.Actions ↔ t ∈ q0.Actions ∨ t ∈ policy.Actions) ∧
        (∀ t, t ∈ q1.Resources ↔ t ∈ q0.Resources ∨ t ∈ policy.Resources) := by
  obtain ⟨hid0, hsub0, hact0, hres0, p0, hp0, hpid0, he0, hd0, hc0⟩ :=
    Get_content env Faults.none db policy.ID q0 rfl hget
  obtain ⟨b, hb⟩ := Option.ne_none_iff_exists'.1 hmarshal
  obtain ⟨db1, hcreate, hp1, hdone⟩ :=
    Create_ok env db policy b hwf.tid hb hcompile hclash hid heff hnonempty
  have hstored : ∃ x ∈ db.p, x.ID = policy.ID := ⟨p0, hp0, hpid0⟩
  simp only [hstored, if_true] at hp1
  rw [hcreate]
  have hdec := Get_decodes env Faults.none db policy.ID q0 rfl hget
  obtain ⟨q1, hget1⟩ := Get_ok env Faults.none db1 policy.ID rfl (fun _ => rfl)
    (by rw [hp1]; exact hstored) (by rw [hp1]; exact hdec)
  obtain ⟨hid1, hsub1, hact1, hres1, p1, hpm1, hpid1, he1, hd1, hc1⟩ :=
    Get_content env Faults.none db1 policy.ID q1 rfl hget1
  rw [hp1] at hpm1
  have hsame : p1 = p0 :=
    List.inj_on_of_nodup_map hpk hpm1 hp0 (hpid1.trans hpid0.symm)
  subst hsame
  have hlinked : ∀ d t, (Linked db1 d policy.ID t ∧ t ≠ "") ↔
      (Linked db d policy.ID t ∧ t ≠ "") ∨ t ∈ policy.templates d := by
    intro d t
    rw [Linked_after_Create env db db1 policy d (hinj d) hwf (hdone d) policy.ID t]
    constructor
    · rintro ⟨h | ⟨_, h⟩, hne⟩
      · exact Or.inl ⟨h, hne⟩
      · exact Or.inr h
    · rintro (⟨h, hne⟩ | h)
      · exact ⟨Or.inl h, hne⟩
      · exact ⟨Or.inr ⟨rfl, h⟩, hnonempty d t h⟩
  refine ⟨rfl, hp1, q1, hget1, hid1.trans hid0.symm, hd1.trans hd0.symm, he1.trans he0.symm,
    ?_, ?_, ?_, ?_⟩
  · exact Option.some.inj (hc1.symm.trans hc0)
  · intro t; rw [hsub1 t, hsub0 t]; exact hlinked .s t
  · intro t; rw [hact1 t, hact0 t]; exact hlinked .a t
  · intro t; rw [hres1 t, hres0 t]; exact hlinked .r t

/-- A check of `NoCompiledClash` that mentions no compiled expression but
those of the templates at hand. -/
theorem noCompiledClash_of_check (env : Env) (db : Store) (policy : Policy)
    (h : ∀ d, ∀ t ∈ policy.templates d,
      (∀ tr ∈ db.tpl d,
        some tr.COMPILED = env.CompileRegex t policy.StartDelimiter policy.EndDelimiter →
          tr.TEMPLATE = t) ∧
      (∀ t1 ∈ policy.templates d,
        env.CompileRegex t1 policy.StartDelimiter policy.EndDelimiter
          = env.CompileRegex t policy.StartDelimiter policy.EndDelimiter →
        env.CompileRegex t policy.StartDelimiter policy.EndDelimiter ≠ none → t1 = t)) :
    NoCompiledClash env db policy := by
  intro d t ht c hc
  refine ⟨fun tr htr e => (h d t ht).1 tr htr (by rw [hc, e]), fun t1 ht1 h1 => ?_⟩
  exact (h d t ht).2 t1 ht1 (h1.trans hc.symm) (by rw [hc]; exact fun h => by cases h)

set_option maxRecDepth 100000 in
theorem policyAgain_noClash : NoCompiledClash sampleEnv storeAB policyAgain :=
  noCompiledClash_of_check sampleEnv storeAB policyAgain (by intro d; cases d <;> decide)

set_option maxRecDepth 100000 in
/-- C13 fails as stated: `storeAB` holds a policy `A`, the templates of
`policyAgain` compile and its identifier is `A`; `Create(policyAgain)` returns
no error, and `Get` of `A`, which returned `foldedA` before, now returns a
policy with the additional subject `mallory`. -/
theorem Create_existing_adds_templates :
    policyAgain.ID = "A" ∧ (∃ x ∈ storeAB.p, x.ID = "A") ∧
      (∀ d, ∀ t ∈ policyAgain.templates d,
        sampleEnv.CompileRegex t policyAgain.StartDelimiter policyAgain.EndDelimiter ≠ none) ∧
      Get sampleEnv Faults.none storeAB "A" = .ok foldedA ∧
      (Create sampleEnv Faults.none storeAB policyAgain).1 = none ∧
      Get sampleEnv Faults.none (Create sampleEnv Faults.none storeAB policyAgain).2 "A"
        = .ok foldedAgain ∧
      foldedAgain ≠ foldedA ∧ "mallory" ∈ foldedAgain.Subjects ∧ "mallory" ∉ foldedA.Subjects :=
  ⟨rfl, by decide, by intro d; cases d <;> decide, rfl, rfl, rfl, by decide, by decide,
    by decide⟩

set_option maxRecDepth 100000 in
/-- Witness of the amended C13: `policyAgain` on the tables of `storeAB`. -/
theorem Create_existing_witness :
    Get sampleEnv Faults.none storeAB policyAgain.ID = .ok foldedA ∧
      (Create sampleEnv Faults.none storeAB policyAgain).1 = none ∧
      (Create sampleEnv Faults.none storeAB policyAgain).2.p = storeAB.p ∧
      ∃ q1, Get sampleEnv Faults.none (Create sampleEnv Faults.none storeAB policyAgain).2
          policyAgain.ID = .ok q1 ∧
        q1.ID = foldedA.ID ∧ q1.Description = foldedA.Description ∧
        q1.Effect = foldedA.Effect ∧ q1.Conditions = foldedA.Conditions ∧
        (∀ t, t ∈ q1.Subjects ↔ t ∈ foldedA.Subjects ∨ t ∈ policyAgain.Subjects) ∧
        (∀ t, t ∈ q1.Actions ↔ t ∈ foldedA.Actions ∨ t ∈ policyAgain.Actions) ∧
        (∀ t, t ∈ q1.Resources ↔ t ∈ foldedA.Resources ∨ t ∈ policyAgain.Resources) :=
  ⟨rfl, Create_existing sampleEnv storeAB policyAgain foldedA
    (fun _ _ _ _ _ e => sampleEnv_injective e) storeAB_wf
    (by decide) (by decide) (by decide) (by intro d; cases d <;> decide)
    (by intro d; cases d <;> decide) policyAgain_noClash (by decide) rfl⟩

/-! ## Two policies with a common template -/

theorem mem_p_after (dbp dbp1 : List PolicyRow) (row : PolicyRow)
    (h : dbp1 = (if ∃ x ∈ dbp, x.ID = row.ID then dbp else dbp ++ [row])) :
    (∃ x ∈ dbp1, x.ID = row.ID) ∧ (∀ x ∈ dbp, x ∈ dbp1) ∧ (∀ x ∈ dbp1, x ∈ dbp ∨ x = row) := by
  by_cases hex : ∃ x ∈ dbp, x.ID = row.ID
  · simp only [hex, if_true] at h
    subst h
    exact ⟨hex, fun x hx => hx, fun x hx => Or.inl hx⟩
  · simp only [hex, if_false] at h
    subst h
    refine ⟨⟨row, by simp, rfl⟩, fun x hx => List.mem_append_left _ hx, fun x hx => ?_⟩
    rcases List.mem_append.1 hx with h1 | h1
    · exact Or.inl h1
    · exact Or.inr (List.mem_singleton.1 h1)

theorem empty_wf (env : Env) : Store.empty.WF env :=
  Reachable.wf env Store.empty Reachable.empty

/-- C12, amended: a template that two policies share. On a healthy driver,
with a digest that has no collision among the stored texts and the templates
of `p1` and `p2`, and tables that keep their integrity and whose stored
conditions decode: for policies `p1` and `p2` whose identifiers and effects are
not empty, whose conditions pass the codec, whose templates compile and are
not empty, and whose compiled expressions hit the `UNIQUE` constraint neither
against the stored rows nor against each other, `Create(p1)` followed by
`Create(p2)` both return no error, `Get` returns a policy for the identifier
of each, and every subject template that the two policies share is among the
subjects of both. -/
theorem Create_shared_template (env : Env) (db : Store) (p1 p2 : Policy)
    (hinj : ∀ d, DigestInjOn env
      ((db.tpl d).map (fun tr => tr.TEMPLATE) ++ p1.templates d ++ p2.templates d))
    (hwf : db.WF env)
    (hid1 : p1.ID ≠ "") (heff1 : p1.Effect ≠ "") (hid2 : p2.ID ≠ "") (heff2 : p2.Effect ≠ "")
    (hnonempty1 : ∀ d, ∀ t ∈ p1.templates d, t ≠ "")
    (hnonempty2 : ∀ d, ∀ t ∈ p2.templates d, t ≠ "")
    (hdec : ∀ x ∈ db.p, env.Unmarshal x.CONDITIONS ≠ none)
    (hcodec1 : ∃ b, conditionsOf env p1 = some b ∧ env.Unmarshal b ≠ none)
    (hcodec2 : ∃ b, conditionsOf env p2 = some b ∧ env.Unmarshal b ≠ none)
    (hcompile1 : ∀ d, ∀ t ∈ p1.templates d,
      env.CompileRegex t p1.StartDelimiter p1.EndDelimiter ≠ none)
    (hcompile2 : ∀ d, ∀ t ∈ p2.templates d,
      env.CompileRegex t p2.StartDelimiter p2.EndDelimiter ≠ none)
    (hclash1 : NoCompiledClash env db p1) (hclash2 : NoCompiledClash env db p2)
    (hcross : ∀ d, ∀ t1 ∈ p1.templates d, ∀ t2 ∈ p2.templates d,
      env.CompileRegex t1 p1.StartDelimiter p1.EndDelimiter
        = env.CompileRegex t2 p2.StartDelimiter p2.EndDelimiter → t1 = t2) :
    (Create env Faults.none db p1).1 = none ∧
      (Create env Faults.none (Create env Faults.none db p1).2 p2).1 = none ∧
      ∃ q1 q2,
        Get env Faults.none (Create env Faults.none (Create env Faults.none db p1).2 p2).2 p1.ID
          = .ok q1 ∧
        Get env Faults.none (Create env Faults.none (Create env Faults.none db p1).2 p2).2 p2.ID
          = .ok q2 ∧
        q1.ID = p1.ID ∧ q2.ID = p2.ID ∧
        ∀ t, t ∈ p1.Subjects → t ∈ p2.Subjects → t ∈ q1.Subjects ∧ t ∈ q2.Subjects := by
  obtain ⟨b1, hb1, hu1⟩ := hcodec1
  obtain ⟨b2, hb2, hu2⟩ := hcodec2
  obtain ⟨db1, hc1, hp1, hdone1⟩ :=
    Create_ok env db p1 b1 hwf.tid hb1 hcompile1 hclash1 hid1 heff1 hnonempty1
  have hwf1 : db1.WF env := by
    have := Create_wf env Faults.none db p1 hwf
    rwa [hc1] at this
  have hclash2a : NoCompiledClash env db1 p2 := by
    intro d t ht c hc
    refine ⟨fun tr htr e => ?_, (hclash2 d t ht c hc).2⟩
    rcases (hdone1 d).tpl_new tr htr with h | ⟨hm, _, hcomp, _⟩
    · exact (hclash2 d t ht c hc).1 tr h e
    · exact hcross d tr.TEMPLATE hm t ht (by rw [hcomp, hc, e])
  obtain ⟨db2, hc2, hp2, hdone2⟩ :=
    Create_ok env db1 p2 b2 hwf1.tid hb2 hcompile2 hclash2a hid2 heff2 hnonempty2
  have hinj1 : ∀ d, DigestInjOn env
      ((db.tpl d).map (fun tr => tr.TEMPLATE) ++ p1.templates d) := by
    intro d t1 h1 t2 h2 e
    exact hinj d t1 (List.mem_append_left _ h1) t2 (List.mem_append_left _ h2) e
  have hinj2 : ∀ d, DigestInjOn env
      ((db1.tpl d).map (fun tr => tr.TEMPLATE) ++ p2.templates d) := by
    have hsub : ∀ d, ∀ t ∈ (db1.tpl d).map (fun tr => tr.TEMPLATE) ++ p2.templates d,
        t ∈ (db.tpl d).map (fun tr => tr.TEMPLATE) ++ p1.templates d ++ p2.templates d := by
      intro d t ht
      rcases List.mem_append.1 ht with h | h
      · obtain ⟨tr, htr, rfl⟩ := List.mem_map.1 h
        rcases (hdone1 d).tpl_new tr htr with h0 | h0
        · exact List.mem_append_left _ (List.mem_append_left _ (List.mem_map_of_mem _ h0))
        · exact List.mem_append_left _ (List.mem_append_right _ h0.1)
      · exact List.mem_append_right _ h
    intro d t1 h1 t2 h2 e
    exact hinj d t1 (hsub d t1 h1) t2 (hsub d t2 h2) e
  rw [hc1]
  simp only
  rw [hc2]
  simp only
  obtain ⟨hex1, hmono1, hnew1⟩ := mem_p_after db.p db1.p ⟨p1.ID, p1.Description, p1.Effect, b1⟩ hp1
  obtain ⟨hex2, hmono2, hnew2⟩ := mem_p_after db1.p db2.p ⟨p2.ID, p2.Description, p2.Effect, b2⟩ hp2
  have hdec2 : ∀ x ∈ db2.p, env.Unmarshal x.CONDITIONS ≠ none := by
    intro x hx
    rcases hnew2 x hx with h | h
    · rcases hnew1 x h with h0 | h0
      · exact hdec x h0
      · rw [h0]; exact hu1
    · rw [h]; exact hu2
  have hex1a : ∃ x ∈ db2.p, x.ID = p1.ID := by
    obtain ⟨x, hx, hid⟩ := hex1
    exact ⟨x, hmono2 x hx, hid⟩
  obtain ⟨q1, hget1⟩ := Get_ok env Faults.none db2 p1.ID rfl (fun _ => rfl) hex1a
    (fun p hp _ => hdec2 p hp)
  obtain ⟨q2, hget2⟩ := Get_ok env Faults.none db2 p2.ID rfl (fun _ => rfl) hex2
    (fun p hp _ => hdec2 p hp)
  obtain ⟨hid1, hsub1, _⟩ := Get_content env Faults.none db2 p1.ID q1 rfl hget1
  obtain ⟨hid2, hsub2, _⟩ := Get_content env Faults.none db2 p2.ID q2 rfl hget2
  refine ⟨trivial, trivial, q1, q2, hget1, hget2, hid1, hid2, ?_⟩
  intro t ht1 ht2
  have hne : t ≠ "" := hnonempty1 .s t ht1
  constructor
  · rw [hsub1 t]
    refine ⟨?_, hne⟩
    rw [Linked_after_Create env db1 db2 p2 .s (hinj2 .s) hwf1 (hdone2 .s) p1.ID t]
    left
    rw [Linked_after_Create env db db1 p1 .s (hinj1 .s) hwf (hdone1 .s) p1.ID t]
    exact Or.inr ⟨rfl, ht1⟩
  · rw [hsub2 t]
    refine ⟨?_, hne⟩
    rw [Linked_after_Create env db1 db2 p2 .s (hinj2 .s) hwf1 (hdone2 .s) p2.ID t]
    exact Or.inr ⟨rfl, ht2⟩

set_option maxRecDepth 100000 in
/-- C12 fails as stated. First, `policyB` and `policyBracket` have distinct
identifiers, all their templates compile and they share the subject template
`<.+>@example.com`; `Create(policyB)` returns no error and
`Create(policyBracket)` fails on the `UNIQUE` constraint of `COMPILED`, since
the other subject template of `policyBracket` compiles to the expression
stored for the shared one. Second, `policyBlank1` and `policyBlank2` have
distinct identifiers, their templates compile and they share the empty subject
template; `Create(policyBlank1)` fails already, since the column `TEMPLATE` is
`NOT NULL`, and stores nothing. -/
theorem Create_shared_template_fails :
    (policyB.ID ≠ policyBracket.ID ∧
      (∀ d, ∀ t ∈ policyB.templates d,
        sampleEnv.CompileRegex t policyB.StartDelimiter policyB.EndDelimiter ≠ none) ∧
      (∀ d, ∀ t ∈ policyBracket.templates d,
        sampleEnv.CompileRegex t policyBracket.StartDelimiter policyBracket.EndDelimiter
          ≠ none) ∧
      "<.+>@example.com" ∈ policyB.Subjects ∧ "<.+>@example.com" ∈ policyBracket.Subjects ∧
      (Create sampleEnv Faults.none Store.empty policyB).1 = none ∧
      (Create sampleEnv Faults.none (Create sampleEnv Faults.none Store.empty policyB).2
        policyBracket).1 = some Error.constraint) ∧
    (policyBlank1.ID ≠ policyBlank2.ID ∧
      (∀ d, ∀ t ∈ policyBlank1.templates d,
        sampleEnv.CompileRegex t policyBlank1.StartDelimiter policyBlank1.EndDelimiter
          ≠ none) ∧
      (∀ d, ∀ t ∈ policyBlank2.templates d,
        sampleEnv.CompileRegex t policyBlank2.StartDelimiter policyBlank2.EndDelimiter
          ≠ none) ∧
      "" ∈ policyBlank1.Subjects ∧ "" ∈ policyBlank2.Subjects ∧
      Create sampleEnv Faults.none Store.empty policyBlank1
        = (some Error.constraint, Store.empty)) :=
  ⟨⟨by decide, by intro d; cases d <;> decide, by intro d; cases d <;> decide, by decide,
      by decide, rfl, rfl⟩,
    ⟨by decide, by intro d; cases d <;> decide, by intro d; cases d <;> decide, by decide,
      by decide, rfl⟩⟩

set_option maxRecDepth 100000 in
/-- Witness of the amended C12: `policyA` and `policyAlso` on empty tables share
the subject template `alice`. -/
theorem Create_shared_template_witness :
    "alice" ∈ policyA.Subjects ∧ "alice" ∈ policyAlso.Subjects ∧
      (Create sampleEnv Faults.none Store.empty policyA).1 = none ∧
      (Create sampleEnv Faults.none (Create sampleEnv Faults.none Store.empty policyA).2
        policyAlso).1 = none ∧
      ∃ q1 q2,
        Get sampleEnv Faults.none
          (Create sampleEnv Faults.none (Create sampleEnv Faults.none Store.empty policyA).2
            policyAlso).2 policyA.ID = .ok q1 ∧
        Get sampleEnv Faults.none
          (Create sampleEnv Faults.none (Create sampleEnv Faults.none Store.empty policyA).2
            policyAlso).2 policyAlso.ID = .ok q2 ∧
        q1.ID = policyA.ID ∧ q2.ID = policyAlso.ID ∧
        ∀ t, t ∈ policyA.Subjects → t ∈ policyAlso.Subjects →
          t ∈ q1.Subjects ∧ t ∈ q2.Subjects :=
  ⟨by decide, by decide,
    Create_shared_template sampleEnv Store.empty policyA policyAlso
      (fun _ _ _ _ _ e => sampleEnv_injective e) (empty_wf sampleEnv) (by decide) (by decide) (by decide) (by decide)
      (by intro d; cases d <;> decide) (by intro d; cases d <;> decide)
      (fun x hx => by cases hx) ⟨"\x7b\x7d", rfl, by decide⟩
      ⟨"\x7b\x7d", rfl, by decide⟩ (by intro d; cases d <;> decide)
      (by intro d; cases d <;> decide)
      (noCompiledClash_of_check sampleEnv Store.empty policyA (by intro d; cases d <;> decide))
      (noCompiledClash_of_check sampleEnv Store.empty policyAlso
        (by intro d; cases d <;> decide))
      (by intro d; cases d <;> decide)⟩

/-! ## Lists stored in one column -/

theorem map_mk_toList (l : List String) : (l.map String.toList).map String.mk = l := by
  rw [List.map_map]
  conv_rhs => rw [← List.map_id l]
  rfl

/-- The function `strings.Split` undoes `strings.Join` on a non-empty list
whose elements do not contain the separator. -/
theorem stringsSplit_stringsJoin (l : List String) (c : Char) (hne : l ≠ [])
    (h : ∀ x ∈ l, c ∉ x.toList) : stringsSplit (stringsJoin l c) c = l := by
  unfold stringsSplit stringsJoin
  have hsplit : (List.intercalate [c] (l.map String.toList)).splitOn c = l.map String.toList := by
    apply List.splitOn_intercalate
    · intro x hx
      obtain ⟨s, hs, rfl⟩ := List.mem_map.1 hx
      exact h s hs
    · simpa using hne
  have e : (String.mk (List.intercalate [c] (l.map String.toList))).toList
      = List.intercalate [c] (l.map String.toList) := rfl
  rw [e, hsplit, map_mk_toList]

/-- The function `strings.Split` on the join of no element. -/
theorem stringsSplit_stringsJoin_nil (c : Char) : stringsSplit (stringsJoin [] c) c = [""] := by
  rfl

/-- The function `pkg.SplitNonEmpty` undoes `strings.Join` on a list of non-empty
elements that do not contain the separator. -/
theorem SplitNonEmpty_stringsJoin (l : List String) (c : Char)
    (h : ∀ x ∈ l, x ≠ "" ∧ c ∉ x.toList) : SplitNonEmpty (stringsJoin l c) c = l := by
  unfold SplitNonEmpty
  cases l with
  | nil => rw [stringsSplit_stringsJoin_nil]; rfl
  | cons a rest =>
    rw [stringsSplit_stringsJoin (a :: rest) c (by simp) (fun x hx => (h x hx).2)]
    apply List.filter_eq_self.2
    intro x hx
    have hx1 := (h x hx).1
    apply decide_eq_true
    rcases x with ⟨data⟩
    cases data with
    | nil => exact absurd rfl hx1
    | cons y ys => simp [String.length]

/-- C18: the list fields of a client. For every client whose redirect URIs,
grant types, response types and contacts are non-empty strings without the
character `|`, `ToClient` of `clientSqlDataFromClient` gives back the client:
every scalar field and the four lists, element for element and in order. -/
theorem ToClient_clientSqlDataFromClient (c : Client)
    (h1 : ∀ x ∈ c.RedirectURIs, x ≠ "" ∧ '|' ∉ x.toList)
    (h2 : ∀ x ∈ c.GrantTypes, x ≠ "" ∧ '|' ∉ x.toList)
    (h3 : ∀ x ∈ c.ResponseTypes, x ≠ "" ∧ '|' ∉ x.toList)
    (h4 : ∀ x ∈ c.Contacts, x ≠ "" ∧ '|' ∉ x.toList) :
    (clientSqlDataFromClient c).ToClient = c := by
  unfold clientSqlDataFromClient clientSqlData.ToClient
  simp only [SplitNonEmpty_stringsJoin _ _ h1, SplitNonEmpty_stringsJoin _ _ h2,
    SplitNonEmpty_stringsJoin _ _ h3, SplitNonEmpty_stringsJoin _ _ h4]

set_option maxRecDepth 100000 in
/-- Witness of C18 on `sampleClient`, whose redirect URIs are stored as
`https://a.example/cb|https://b.example/cb` and whose contacts are stored as
the empty string. -/
theorem ToClient_clientSqlDataFromClient_witness :
    (clientSqlDataFromClient sampleClient).RedirectURIs
        = "https://a.example/cb|https://b.example/cb" ∧
      (clientSqlDataFromClient sampleClient).Contacts = "" ∧
      (clientSqlDataFromClient sampleClient).ToClient = sampleClient :=
  ⟨by decide, by decide,
    ToClient_clientSqlDataFromClient sampleClient (by decide) (by decide) (by decide)
      (by decide)⟩

/-! ## Scopes of a stored session -/

/-- What `toRequest` returns for the row that `fositeSqlSchemaFromRequest` made. -/
theorem toRequest_fields (env : SessionEnv) (sig : String) (r : fosite.Request)
    (session : Option fosite.Session) (d : sqlData) (r1 : fosite.Request)
    (hstore : fositeSqlSchemaFromRequest env sig r = .ok d)
    (hread : d.toRequest env session = .ok r1) :
    r1.ID = r.ID ∧ r1.RequestedAt = r.RequestedAt ∧
      r1.Scopes = stringsSplit (stringsJoin r.Scopes '|') '|' ∧
      r1.GrantedScopes = stringsSplit (stringsJoin r.GrantedScopes '|') '|' := by
  unfold fositeSqlSchemaFromRequest at hstore
  cases hm : env.Marshal r.Session with
  | none => simp [hm] at hstore
  | some b =>
    simp only [hm, Except.ok.injEq] at hstore
    subst hstore
    simp only [sqlData.toRequest] at hread
    split at hread
    · cases hread
    · split at hread
      · cases hread
      · split at hread
        · cases hread
        · simp only [Except.ok.injEq] at hread
          subst hread
          exact ⟨rfl, rfl, rfl, rfl⟩

/-- The mapping returns a request when the library calls succeed. -/
theorem toRequest_ok (env : SessionEnv) (sig : String) (r : fosite.Request)
    (session : Option fosite.Session) (b : String) (hm : env.Marshal r.Session = some b)
    (hu : ∀ target, session = some target → env.Unmarshal b target ≠ none)
    (hc : env.GetClient r.Client.ID ≠ none)
    (hf : env.ParseQuery (env.Encode r.Form) ≠ none) :
    ∃ d r1, fositeSqlSchemaFromRequest env sig r = .ok d ∧ d.toRequest env session = .ok r1 := by
  obtain ⟨c, hc1⟩ := Option.ne_none_iff_exists'.1 hc
  obtain ⟨v, hf1⟩ := Option.ne_none_iff_exists'.1 hf
  have hstore : fositeSqlSchemaFromRequest env sig r = .ok
      { Request := r.ID, Signature := sig, RequestedAt := r.RequestedAt, Client := r.Client.ID,
        Scopes := stringsJoin r.Scopes '|', GrantedScopes := stringsJoin r.GrantedScopes '|',
        Form := env.Encode r.Form, Session := b } := by
    simp only [fositeSqlSchemaFromRequest, hm]
  cases session with
  | none =>
    exact ⟨_, _, hstore, by simp only [sqlData.toRequest, sqlData.decodeSession, hc1, hf1]; rfl⟩
  | some target =>
    obtain ⟨s1, hs1⟩ := Option.ne_none_iff_exists'.1 (hu target rfl)
    exact ⟨_, _, hstore,
      by simp only [sqlData.toRequest, sqlData.decodeSession, hs1, hc1, hf1]; rfl⟩

/-- C19, amended: the scopes of a stored session. For every request whose
requested scopes and granted scopes are non-empty lists of strings without the
character `|`: whenever `fositeSqlSchemaFromRequest` returns a row and
`toRequest` returns a request for that row, the request has the scopes and
the granted scopes of the stored one, element for element; and both return
when the session marshals and decodes, the client is found and the encoded
form parses. -/
theorem toRequest_scopes (env : SessionEnv) (sig : String) (r : fosite.Request)
    (session : Option fosite.Session)
    (hs : r.Scopes ≠ []) (hsep : ∀ x ∈ r.Scopes, '|' ∉ x.toList)
    (hg : r.GrantedScopes ≠ []) (hgsep : ∀ x ∈ r.GrantedScopes, '|' ∉ x.toList) :
    (∀ d r1, fositeSqlSchemaFromRequest env sig r = .ok d → d.toRequest env session = .ok r1 →
        r1.Scopes = r.Scopes ∧ r1.GrantedScopes = r.GrantedScopes) ∧
      (∀ b, env.Marshal r.Session = some b →
        (∀ target, session = some target → env.Unmarshal b target ≠ none) →
        env.GetClient r.Client.ID ≠ none → env.ParseQuery (env.Encode r.Form) ≠ none →
        ∃ d r1, fositeSqlSchemaFromRequest env sig r = .ok d ∧
          d.toRequest env session = .ok r1) := by
  refine ⟨?_, fun b hm hu hc hf => toRequest_ok env sig r session b hm hu hc hf⟩
  intro d r1 hstore hread
  obtain ⟨_, _, h1, h2⟩ := toRequest_fields env sig r session d r1 hstore hread
  rw [h1, h2, stringsSplit_stringsJoin _ _ hs hsep, stringsSplit_stringsJoin _ _ hg hgsep]
  exact ⟨rfl, rfl⟩

set_option maxRecDepth 100000 in
/-- C19 fails as stated: the row made from `sampleRequestBad`, which has no
requested scope and the granted scope `a|b`, is read back as a request with
one requested scope, the empty string, and with the two granted scopes `a`
and `b`. -/
theorem toRequest_scopes_empty :
    ∃ d r1, fositeSqlSchemaFromRequest sampleSessionEnv "sig" sampleRequestBad = .ok d ∧
      d.toRequest sampleSessionEnv (some "") = .ok r1 ∧
      sampleRequestBad.Scopes = [] ∧ r1.Scopes = [""] ∧
      sampleRequestBad.GrantedScopes = ["a|b"] ∧ r1.GrantedScopes = ["a", "b"] :=
  ⟨_, _, rfl, rfl, rfl, by decide, rfl, by decide⟩

set_option maxRecDepth 100000 in
/-- Witness of the amended C19 on `sampleRequest`. -/
theorem toRequest_scopes_witness :
    (∃ d r1, fositeSqlSchemaFromRequest sampleSessionEnv "sig" sampleRequest = .ok d ∧
      d.toRequest sampleSessionEnv (some "") = .ok r1) ∧
      ∀ d r1, fositeSqlSchemaFromRequest sampleSessionEnv "sig" sampleRequest = .ok d →
        d.toRequest sampleSessionEnv (some "") = .ok r1 →
        r1.Scopes = ["openid", "offline"] ∧ r1.GrantedScopes = ["openid", "offline"] :=
  have h := toRequest_scopes sampleSessionEnv "sig" sampleRequest (some "") (by decide)
    (by decide) (by decide) (by decide)
  ⟨h.2 "session-1" rfl (fun _ _ h => Option.noConfusion h) (by decide) (by decide), h.1⟩

/-! ## Group members -/

/-- The method `AddGroupMembers` is all or nothing: when it returns an error, the
committed tables are those before the call. -/
theorem AddGroupMembers_all_or_nothing (f : Faults) (db : GroupStore) (group : String)
    (subjects : List String) (h : (GroupManager.AddGroupMembers f db group subjects).1 ≠ none) :
    (GroupManager.AddGroupMembers f db group subjects).2 = db := by
  unfold GroupManager.AddGroupMembers at h ⊢
  by_cases hb : f.begin = true
  · simp [hb]
  · simp only [hb, Bool.false_eq_true, if_false] at h ⊢
    cases hl : GroupManager.addLoop f group subjects db 0 with
    | error e => rfl
    | ok work =>
      simp only [hl] at h ⊢
      by_cases hc : f.commit = true
      · simp [hc]
      · simp [hc] at h

/-- With a healthy driver `RemoveGroupMembers` returns no error. -/
theorem RemoveGroupMembers_ok (db : GroupStore) (group : String) (subjects : List String) :
    (GroupManager.RemoveGroupMembers Faults.none db group subjects).1 = none := by
  have key : ∀ (subjects : List String) (db : GroupStore) (n : Nat),
      ∃ db1, GroupManager.removeLoop Faults.none group subjects db n = .ok db1 := by
    intro subjects
    induction subjects with
    | nil => intro db n; exact ⟨db, rfl⟩
    | cons s rest ih =>
      intro db n
      obtain ⟨db1, h1⟩ := ih
        { db with
          members := db.members.filter fun x => !(decide (x.member = s ∧ x.group_id = group)) }
        (n + 1)
      exact ⟨db1, by simpa [GroupManager.removeLoop, GroupManager.deleteMember, Faults.none] using h1⟩
  obtain ⟨db1, h1⟩ := key subjects db 0
  have hb : Faults.none.begin = false := rfl
  have hc : Faults.none.commit = false := rfl
  simp only [GroupManager.RemoveGroupMembers, hb, hc, h1, Bool.false_eq_true, if_false]

/-- The loop of `RemoveGroupMembers` when the driver runs the statements for the
subjects `pre` and fails on the next one: the loop stops with the driver
error, and the memberships of `pre` in the group are gone from the committed
tables. -/
theorem removeLoop_partial (f : Faults) (group : String) (s : String) (post : List String) :
    ∀ (pre : List String) (db : GroupStore) (n : Nat),
      (∀ i, i < pre.length → f.exec (n + i) = false) → f.exec (n + pre.length) = true →
      GroupManager.removeLoop f group (pre ++ s :: post) db n
        = .error (Error.driver,
            { db with
              members := db.members.filter fun x =>
                !(decide (x.group_id = group ∧ x.member ∈ pre)) }) := by
  intro pre
  induction pre with
  | nil =>
    intro db n _ hfail
    have hfail1 : f.exec n = true := by simpa using hfail
    have hm : (db.members.filter fun x => !(decide (x.group_id = group ∧ x.member ∈ ([] : List String))))
        = db.members := by
      apply List.filter_eq_self.2
      intro x _
      simp
    simp only [List.nil_append, GroupManager.removeLoop, hfail1, if_true, hm]
  | cons p pre ih =>
    intro db n hok hfail
    have h0 : f.exec n = false := by simpa using hok 0 (by simp)
    have hok1 : ∀ i, i < pre.length → f.exec (n + 1 + i) = false := by
      intro i hi
      have := hok (i + 1) (by simpa using hi)
      rwa [show n + (i + 1) = n + 1 + i by omega] at this
    have hfail1 : f.exec (n + 1 + pre.length) = true := by
      rwa [show n + (p :: pre).length = n + 1 + pre.length by simp; omega] at hfail
    simp only [List.cons_append, GroupManager.removeLoop, h0, Bool.false_eq_true, if_false,
      GroupManager.deleteMember]
    rw [List.append_eq, ih _ (n + 1) hok1 hfail1]
    simp only [List.filter_filter]
    congr 3
    apply List.filter_congr
    intro x _
    by_cases hg : x.group_id = group
    · by_cases hp : x.member = p
      · simp [hg, hp]
      · simp [hg, hp]
    · simp [hg]

/-- The method `RemoveGroupMembers` when the driver fails on the statement after
those for the subjects `pre`: an error is returned and the memberships of
`pre` in the group are removed all the same. -/
theorem RemoveGroupMembers_partial (f : Faults) (db : GroupStore) (group : String)
    (pre : List String) (s : String) (post : List String) (hb : f.begin = false)
    (hok : ∀ i, i < pre.length → f.exec i = false) (hfail : f.exec pre.length = true) :
    GroupManager.RemoveGroupMembers f db group (pre ++ s :: post)
      = (some Error.driver,
          { db with
            members := db.members.filter fun x =>
              !(decide (x.group_id = group ∧ x.member ∈ pre)) }) := by
  have h := removeLoop_partial f group s post pre db 0 (by simpa using hok) (by simpa using hfail)
  simp only [GroupManager.RemoveGroupMembers, hb, Bool.false_eq_true, if_false, h, ite_self]

set_option maxRecDepth 100000 in
/-- C20 fails: on the group `g` with the members `a` and `b`, with a driver that
fails on the second statement, `RemoveGroupMembers(g, [a, b])` returns an
error and the membership of `a` is gone all the same; `AddGroupMembers` with
the same driver returns an error and leaves the tables as they were. -/
theorem RemoveGroupMembers_not_transactional :
    (GroupManager.RemoveGroupMembers failSecond sampleGroups "g" ["a", "b"]).1
        = some Error.driver ∧
      (GroupManager.RemoveGroupMembers failSecond sampleGroups "g" ["a", "b"]).2.members
        = [⟨"b", "g"⟩] ∧
      (⟨"a", "g"⟩ : MemberRow) ∈ sampleGroups.members ∧
      (GroupManager.AddGroupMembers failSecond sampleGroups "g" ["c", "d"]).1
        = some Error.driver ∧
      (GroupManager.AddGroupMembers failSecond sampleGroups "g" ["c", "d"]).2 = sampleGroups :=
  ⟨by decide, by decide, by decide, by decide, by decide⟩

/-! ## The bounds of the slice of `GetAll` -/

/-- When `GetAll` fails on its slice expression: for `limit, offset >= 0`, the
slice is out of range exactly when the clamp is skipped and either `limit` is
below `offset` or `limit` is above the number of policies. -/
theorem GetAll_sliceBounds_iff (env : Env) (f : Faults) (db : Store) (limit offset : Int)
    (pols : List DefaultPolicy) (hq : f.query = none)
    (hpols : scanRows env f (env.rowOrder (policyGetAllQuery db)) = .ok pols)
    (ho : 0 ≤ offset) :
    GetAll env f db limit offset = .error .sliceBounds ↔
      ¬ (wrapInt64 (offset + limit) > (pols.length : Int)) ∧
        (limit < offset ∨ (pols.length : Int) < limit) := by
  rw [GetAll_eq env f db limit offset pols hq hpols]
  by_cases hclamp : wrapInt64 (offset + limit) > (pols.length : Int)
  · simp [hclamp]
  · simp only [hclamp, if_false, not_false_eq_true, true_and]
    unfold sliceExpr
    by_cases hin : 0 ≤ offset ∧ offset ≤ limit ∧ limit ≤ (pols.length : Int)
    · simp only [hin, and_self, if_true]
      constructor
      · intro h; cases h
      · intro h; omega
    · simp only [hin, if_false, true_iff]
      omega

/-- Where the sum does not overflow, the slice of `GetAll` is out of range
exactly when the clamp is skipped and `limit` is below `offset`. -/
theorem GetAll_sliceBounds_iff_of_fit (env : Env) (f : Faults) (db : Store) (limit offset : Int)
    (pols : List DefaultPolicy) (hq : f.query = none)
    (hpols : scanRows env f (env.rowOrder (policyGetAllQuery db)) = .ok pols)
    (ho : 0 ≤ offset) (hfit : IsInt64 (offset + limit)) :
    GetAll env f db limit offset = .error .sliceBounds ↔
      offset + limit ≤ (pols.length : Int) ∧ limit < offset := by
  rw [GetAll_sliceBounds_iff env f db limit offset pols hq hpols ho,
    wrapInt64_of_isInt64 _ hfit]
  constructor
  · rintro ⟨h1, h2⟩
    omega
  · rintro ⟨h1, h2⟩
    omega

set_option maxRecDepth 100000 in
/-- C21 fails on the code: on the two stored policies `A`, `B`, with
`limit = 0` and `offset = 2` the sum `offset + limit = 2` does not exceed the
number of policies, the clamp is skipped, and the slice `pols[2:0]` has
`offset > limit`: `GetAll` fails with the out-of-range slice. With
`limit = offset = 2^63 - 1` the `int64` sum wraps to `-2`, the clamp is
skipped as well, and the slice `pols[2^63-1:2^63-1]` has `limit > len(pols)`. -/
theorem GetAll_slice_out_of_range :
    scanRows sampleEnv Faults.none (sampleEnv.rowOrder (policyGetAllQuery storeAB))
        = .ok [foldedA, foldedB] ∧
      ((0 : Int) ≤ 0 ∧ (0 : Int) ≤ 2 ∧ ¬ (wrapInt64 (2 + 0) > 2) ∧ ¬ ((2 : Int) ≤ 0) ∧
        GetAll sampleEnv Faults.none storeAB 0 2 = .error .sliceBounds) ∧
      (IsInt64 9223372036854775807 ∧
        wrapInt64 (9223372036854775807 + 9223372036854775807) = -2 ∧
        ¬ ((9223372036854775807 : Int) ≤ 2) ∧
        GetAll sampleEnv Faults.none storeAB 9223372036854775807 9223372036854775807
          = .error .sliceBounds) :=
  ⟨rfl, ⟨by decide, by decide, by decide, by decide, rfl⟩,
    ⟨by decide, by decide, by decide, rfl⟩⟩

/-! ## The subjects of a candidate -/

/-- The subject column of the rows of the candidate query. -/
theorem candidates_subject (env : Env) (db : Store) (subject id t : String) :
    (∃ row ∈ candidatesQuery env db subject, row.ID = id ∧ row.SUBJECT = some t) ↔
      (∃ p ∈ db.p, p.ID = id) ∧ MatchingSubjectTemplate env db id subject t := by
  constructor
  · rintro ⟨row, hrow, hid, hcol⟩
    obtain ⟨p, hp, rs, hrs, ra, _, rr, _, ts, hts, ta, _, tr, _, hm, rfl⟩ :=
      (mem_candidatesQuery env db subject row).1 hrow
    have h1 := (mem_innerJoin _ _ _).1 hrs
    have h2 := (mem_innerJoin _ _ _).1 hts
    simp only [linkOn, decide_eq_true_eq] at h1 h2
    have hid1 : p.ID = id := hid
    have ht : ts.TEMPLATE = t := by
      simpa [selectRow] using hcol
    exact ⟨⟨p, hp, hid1⟩, rs, h1.1, h1.2.trans hid1, ts, h2.1, h2.2.symm, ht,
      (subjectMatches_iff env subject ts).1 hm⟩
  · rintro ⟨⟨p, hp, hid⟩, l, hl, hlid, ts, hts, htid, ht, hmatch⟩
    obtain ⟨ra, hra⟩ := exists_mem_leftJoin db.ar (fun ra => decide (ra.POLICY = p.ID))
    obtain ⟨rr, hrr⟩ := exists_mem_leftJoin db.rr (fun rr => decide (rr.POLICY = p.ID))
    obtain ⟨ta, hta⟩ := exists_mem_leftJoin db.a (linkOn ra)
    obtain ⟨tr, htr⟩ := exists_mem_leftJoin db.r (linkOn rr)
    refine ⟨selectRow p (some ts) tr ta, (mem_candidatesQuery env db subject _).2
      ⟨p, hp, l, (mem_innerJoin _ _ _).2 ⟨hl, by simpa using hlid.trans hid.symm⟩, ra, hra, rr,
        hrr, ts, (mem_innerJoin _ _ _).2 ⟨hts, by simpa [linkOn] using htid.symm⟩, ta, hta, tr,
        htr, (subjectMatches_iff env subject ts).2 hmatch, rfl⟩, hid, ?_⟩
    simp [selectRow, ht]

/-- A matching subject template of a policy is a subject template linked to it. -/
theorem MatchingSubjectTemplate.linked (env : Env) (db : Store) (id subject t : String)
    (h : MatchingSubjectTemplate env db id subject t) : Linked db .s id t := by
  obtain ⟨l, hl, hlid, ts, hts, htid, ht, _⟩ := h
  exact ⟨l, hl, hlid, ts, hts, htid, ht⟩

/-- The subjects of the policies that `FindRequestCandidates` returns. -/
theorem candidates_subjects (env : Env) (f : Faults) (db : Store) (r : Request)
    (ps : List DefaultPolicy) (hps : FindRequestCandidates env f db r = .ok ps)
    (q : DefaultPolicy) (hq : q ∈ ps) (t : String) :
    t ∈ q.Subjects ↔ t ≠ "" ∧ MatchingSubjectTemplate env db q.ID r.Subject t := by
  have hscan := FindRequestCandidates_scan env f db r ps hps
  obtain ⟨hsub, _⟩ := scanRows_fields env f _ ps hscan q hq
  rw [hsub t]
  constructor
  · rintro ⟨row, hrow, hid, hcol, hne⟩
    rw [(env.rowOrder_perm _).mem_iff] at hrow
    exact ⟨hne, ((candidates_subject env db r.Subject q.ID t).1 ⟨row, hrow, hid, hcol⟩).2⟩
  · rintro ⟨hne, hm⟩
    obtain ⟨l, hl, hlid, ts, hts, htid, ht, hmatch⟩ := hm
    obtain ⟨_, hkeys⟩ := scanRows_keys env f _ ps hscan
    obtain ⟨row0, hrow0, hid0⟩ := (hkeys q.ID).1 (List.mem_map_of_mem (fun q => q.ID) hq)
    rw [(env.rowOrder_perm _).mem_iff] at hrow0
    obtain ⟨p0, hp0, e0, _⟩ := candidates_scalars env db r.Subject row0 hrow0
    obtain ⟨row, hrow, hid, hcol⟩ := (candidates_subject env db r.Subject q.ID t).2
      ⟨⟨p0, hp0, e0.symm.trans hid0⟩, l, hl, hlid, ts, hts, htid, ht, hmatch⟩
    exact ⟨row, (env.rowOrder_perm _).mem_iff.2 hrow, hid, hcol, hne⟩

theorem FindRequestCandidates_query (env : Env) (f : Faults) (db : Store) (r : Request)
    (ps : List DefaultPolicy) (h : FindRequestCandidates env f db r = .ok ps) :
    f.query = none := by
  unfold FindRequestCandidates at h
  cases hq : f.query with
  | none => rfl
  | some e => cases e <;> simp [hq] at h

set_option maxRecDepth 100000 in
/-- C22: the subjects of a candidate are filtered. Whenever
`FindRequestCandidates(r)` returns a result, the subjects of every policy `q`
in it are exactly the non-empty subject templates linked to `q` whose stored
row passes the `WHERE` clause for `r.Subject` (equality of the text for a row
without the pattern flag, a match of the compiled expression for a row with
it); so a subject template whose rows do not match is absent, every subject of
`q` is a subject template linked to `q`, and is among the subjects of what
`Get` returns for the identifier of `q`. A result is returned when the driver
is healthy and the conditions of the matching policies decode. The inclusion
can be strict: for `policyAlso`, with the subjects `alice` and `bob`, the
candidate for `alice` has the one subject `alice` and `Get` returns both. -/
theorem candidates_subjects_filtered (env : Env) (f : Faults) (db : Store) (r : Request) :
    (∀ ps, FindRequestCandidates env f db r = .ok ps → ∀ q ∈ ps,
      (∀ t, t ∈ q.Subjects ↔ t ≠ "" ∧ MatchingSubjectTemplate env db q.ID r.Subject t) ∧
      (∀ ts ∈ db.s, (∀ ts1 ∈ db.s, ts1.TEMPLATE = ts.TEMPLATE →
          subjectMatches env r.Subject ts1 = false) → ts.TEMPLATE ∉ q.Subjects) ∧
      (∀ t ∈ q.Subjects, Linked db .s q.ID t) ∧
      (∀ g, Get env f db q.ID = .ok g → ∀ t ∈ q.Subjects, t ∈ g.Subjects)) ∧
    (f.query = none → (∀ row, f.scan row = none) →
      (∀ p ∈ db.p, HasMatchingSubject env db p.ID r.Subject →
        env.Unmarshal p.CONDITIONS ≠ none) →
      ∃ ps, FindRequestCandidates env f db r = .ok ps) ∧
    (FindRequestCandidates sampleEnv Faults.none storeAlso ⟨"alice"⟩ = .ok [candidateAlso] ∧
      Get sampleEnv Faults.none storeAlso candidateAlso.ID = .ok foldedAlso ∧
      "bob" ∈ foldedAlso.Subjects ∧ "bob" ∉ candidateAlso.Subjects) := by
  refine ⟨?_, fun hq hs hdec => ?_, ⟨rfl, rfl, by decide, by decide⟩⟩
  swap
  · obtain ⟨ps, hps, _⟩ := FindRequestCandidates_ok env f db r hq hs hdec
    exact ⟨ps, hps⟩
  intro ps hps q hq
  have hsub := candidates_subjects env f db r ps hps q hq
  refine ⟨hsub, ?_, fun t ht => ((hsub t).1 ht).2.linked, ?_⟩
  · intro ts _ hno hmem
    obtain ⟨_, l, _, _, ts1, hts1, _, ht1, hmatch⟩ := (hsub ts.TEMPLATE).1 hmem
    have := hno ts1 hts1 ht1
    rw [(subjectMatches_iff env r.Subject ts1).2 hmatch] at this
    cases this
  · intro g hg t ht
    have hfq := FindRequestCandidates_query env f db r ps hps
    obtain ⟨_, hgsub, _⟩ := Get_content env f db q.ID g hfq hg
    exact (hgsub t).2 ⟨((hsub t).1 ht).2.linked, ((hsub t).1 ht).1⟩

set_option maxRecDepth 100000 in
/-- Witness of C22 on `storeAB` and the subject `bob@example.com`: the one
candidate is `foldedB`, whose subject `<.+>@example.com` is linked to it by a
row with the pattern flag whose compiled expression matches. -/
theorem candidates_subjects_filtered_witness :
    FindRequestCandidates sampleEnv Faults.none storeAB ⟨"bob@example.com"⟩ = .ok [foldedB] ∧
      foldedB.Subjects = ["<.+>@example.com"] ∧
      (∀ t, t ∈ foldedB.Subjects ↔
        t ≠ "" ∧ MatchingSubjectTemplate sampleEnv storeAB foldedB.ID "bob@example.com" t) ∧
      (∀ t ∈ foldedB.Subjects, Linked storeAB .s foldedB.ID t) :=
  have h := (candidates_subjects_filtered sampleEnv Faults.none storeAB ⟨"bob@example.com"⟩).1
    [foldedB] rfl foldedB (List.mem_singleton.2 rfl)
  ⟨rfl, rfl, h.1, h.2.2.1⟩

end Hydra
